import Mathlib

/-! CheckThread (gui/checkthread.cpp): diagnostic parsers, addon runner, worker loop

A shallow embedding of `CheckThread::parseAddonErrors`, `CheckThread::parseClangErrors`,
`CheckThread::runAddons`, `CheckThread::run` and `CheckThread::stop`.

Conventions of the embedding
* `QString`, `std::string` are lists of characters (`Str`); `QByteArray` is a list of bytes.
* `QTextStream::readLine` over a string is `readLines`.
* Each `QRegExp` of the source is a matcher that tries the longest candidate for a greedy
  quantifier first and falls back to shorter ones.
* `ErrorLogger::ErrorMessage` and `FileLocation` are records of their constructor arguments.
-/

namespace CheckThread

/-- Text: `QString` and `std::string` alike. -/
abbrev Str := List Char

/-- Bytes of a `QByteArray`. -/
abbrev Bytes := List Nat

/-! ## Text helpers -/

/-- Character class `[0-9]`. -/
def isDigit (c : Char) : Bool := decide ('0' ≤ c) && decide (c ≤ '9')

/-- Character class `[a-zA-Z0-9\-\._]` (written `[a-zA-Z0-9\-_\.]` in the second parser). -/
def isIdChar (c : Char) : Bool :=
  (decide ('a' ≤ c) && decide (c ≤ 'z')) || (decide ('A' ≤ c) && decide (c ≤ 'Z')) ||
    isDigit c || c == '-' || c == '.' || c == '_'

/-- Value of a decimal digit. -/
def digitVal (c : Char) : Nat := c.toNat - 48

/-- Value of a string of decimal digits, most significant first. -/
def decimalValue (s : Str) : Nat := s.foldl (fun acc c => 10 * acc + digitVal c) 0

/-- White space skipped by the number conversion. -/
def isSpace (c : Char) : Bool :=
  c == ' ' || c == '\t' || c == '\n' || c == '\r' || c == Char.ofNat 11 || c == Char.ofNat 12

/-- Text without leading and trailing white space. -/
def trimmed (s : Str) : Str := ((s.dropWhile isSpace).reverse.dropWhile isSpace).reverse

/-- Largest value of a 32-bit `int`. -/
def INT_MAX : Nat := 2147483647

/-- True for a non-empty string of decimal digits. -/
def isNumber (s : Str) : Bool := !s.isEmpty && s.all isDigit

/-- Conversion `QString::toInt()`: surrounding white space is skipped, an optional sign and
decimal digits are read; anything else, and any value outside the range of `int`, gives 0. -/
def toInt (s : Str) : Int :=
  match trimmed s with
  | '-' :: ds => if isNumber ds && decide (decimalValue ds ≤ INT_MAX + 1) then - (decimalValue ds : Int) else 0
  | '+' :: ds => if isNumber ds && decide (decimalValue ds ≤ INT_MAX) then (decimalValue ds : Int) else 0
  | ds => if isNumber ds && decide (decimalValue ds ≤ INT_MAX) then (decimalValue ds : Int) else 0

/-- Removes one carriage return from the end of a line, as `readLine` does. -/
def stripCR (s : Str) : Str :=
  if s.getLast? = some '\r' then s.dropLast else s

/-- Lines handed out by `while (!in.atEnd()) line = in.readLine()`; `cur` is the part of the
current line read so far.  A line ends at a line feed or at the end of the text. -/
def readLinesFrom (cur : Str) : Str → List Str
  | [] => if cur.isEmpty then [] else [stripCR cur]
  | c :: rest =>
    if c = '\n' then stripCR cur :: readLinesFrom [] rest
    else readLinesFrom (cur ++ [c]) rest

/-- All lines of a text, in order. -/
def readLines (err : Str) : List Str := readLinesFrom [] err

/-- Drops a literal from the front of a text, if it is there. -/
def stripLit (lit s : Str) : Option Str :=
  if lit.isPrefixOf s then some (s.drop lit.length) else none

/-! ## Error model -/

/-- Severity levels of `Severity::SeverityType`. -/
inductive Severity where
  | none | error | warning | style | performance | portability | information | debug
  deriving DecidableEq, Repr

/-- Record `ErrorLogger::ErrorMessage::FileLocation`: file, per-step info, line. -/
structure FileLocation where
  file : Str
  info : Str
  line : Nat
  deriving DecidableEq, Repr

/-- Record `ErrorLogger::ErrorMessage` as built by its six-argument constructor. -/
structure ErrorMessage where
  callStack : List FileLocation
  file0 : Str
  severity : Severity
  msg : Str
  id : Str
  inconclusive : Bool
  deriving DecidableEq, Repr

/-- Record `QErrorPathItem`. -/
structure QErrorPathItem where
  file : Str
  line : Nat
  info : Str
  deriving DecidableEq, Repr

/-- Record `ErrorItem` (the fields the parser touches). -/
structure ErrorItem where
  severity : Severity
  message : Str
  errorId : Str
  errorPath : List QErrorPathItem
  deriving DecidableEq, Repr

/-- Tool name constant `CLANG`. -/
def CLANG : Str := "clang".toList

/-- Tool name constant `CLANGTIDY`. -/
def CLANGTIDY : Str := "clang-tidy".toList

/-! ## Regular expressions of the parsers -/

/-- Exact match of `\[([a-zA-Z0-9\-\._]+)\]`; gives the captured identifier. -/
def matchIdBracket : Str → Option Str
  | '[' :: s =>
    match s.dropWhile isIdChar with
    | [']'] => if (s.takeWhile isIdChar).isEmpty then none else some (s.takeWhile isIdChar)
    | _ => none
  | _ => none

/-- Exact match of `(.*)\[([a-zA-Z0-9\-\._]+)\]`; gives captures 1 and 2.  The greedy `(.*)`
takes the longest text that lets the rest match. -/
def matchR2 : Str → Option (Str × Str)
  | [] => none
  | c :: cs =>
    match matchR2 cs with
    | some (m, id) => some (c :: m, id)
    | none => (matchIdBracket (c :: cs)).map (fun id => ([], id))

/-- Exact match of `\[([^:]+):([0-9]+)\](.*)`; gives captures 1, 2 and 3. -/
def matchAddonR1 : Str → Option (Str × Str × Str)
  | '[' :: s =>
    match s.dropWhile (fun c => c != ':') with
    | ':' :: s2 =>
      match s2.dropWhile isDigit with
      | ']' :: rest =>
        if (s.takeWhile (fun c => c != ':')).isEmpty || (s2.takeWhile isDigit).isEmpty then none
        else some (s.takeWhile (fun c => c != ':'), s2.takeWhile isDigit, rest)
      | _ => none
    | _ => none
  | _ => none

/-- Exact match of `(note|warning|error|fatal error): (.*)`; gives the kind and the text. -/
def matchKind (s : Str) : Option (Str × Str) :=
  match stripLit "note: ".toList s with
  | some t => some ("note".toList, t)
  | none =>
    match stripLit "warning: ".toList s with
    | some t => some ("warning".toList, t)
    | none =>
      match stripLit "error: ".toList s with
      | some t => some ("error".toList, t)
      | none =>
        match stripLit "fatal error: ".toList s with
        | some t => some ("fatal error".toList, t)
        | none => none

/-- Exact match of `:([0-9]+):[0-9]+: (note|warning|error|fatal error): (.*)`; gives the line
digits, the kind and the text. -/
def matchClangTail : Str → Option (Str × Str × Str)
  | ':' :: s =>
    match s.dropWhile isDigit with
    | ':' :: s2 =>
      match s2.dropWhile isDigit with
      | ':' :: ' ' :: s3 =>
        if (s.takeWhile isDigit).isEmpty || (s2.takeWhile isDigit).isEmpty then none
        else (matchKind s3).map (fun kt => (s.takeWhile isDigit, kt.1, kt.2))
      | _ => none
    | _ => none
  | _ => none

/-- Exact match of `(.+):([0-9]+):[0-9]+: (note|warning|error|fatal error): (.*)`; gives
captures 1 to 4.  The greedy `(.+)` takes the longest text that lets the rest match. -/
def matchClangR1 : Str → Option (Str × Str × Str × Str)
  | [] => none
  | c :: cs =>
    match matchClangR1 cs with
    | some (f, r) => some (c :: f, r)
    | none => (matchClangTail cs).map (fun r => ([c], r))

/-! ## parseAddonErrors -/

/-- Body of the loop of `parseAddonErrors` for one line: the error reported, if any. -/
def addonLine (tool line : Str) : Option ErrorMessage :=
  match matchAddonR1 line with
  | none => none
  | some (filename, num, rest) =>
    let lineNumber := (toInt num).toNat
    let mi : Str × Str :=
      match matchR2 rest with
      | some (m, i) => (m, tool ++ '-' :: i)
      | none => (rest, tool)
    some { callStack := [{ file := filename, info := [], line := lineNumber }],
           file0 := filename, severity := Severity.style, msg := mi.1, id := mi.2,
           inconclusive := false }

/-- Function `CheckThread::parseAddonErrors(err, tool)`: the errors passed to
`mResult.reportErr`, in order. -/
def parseAddonErrors (err tool : Str) : List ErrorMessage :=
  (readLines err).foldl
    (fun reported line =>
      match addonLine tool line with
      | none => reported
      | some e => reported ++ [e])
    []

/-! ## parseClangErrors -/

/-- Local state of the first loop of `parseClangErrors`: `errorItems` and `errorItem`. -/
structure ClangState where
  errorItems : List ErrorItem
  errorItem : ErrorItem
  deriving DecidableEq, Repr

/-- A default-constructed `ErrorItem`; `sev0` is the severity its constructor sets. -/
def ErrorItem.fresh (sev0 : Severity) : ErrorItem :=
  { severity := sev0, message := [], errorId := [], errorPath := [] }

/-- Replaces the last element of a non-empty list. -/
def setLast {α : Type} (l : List α) (f : α → α) : List α :=
  match l.getLast? with
  | some x => l.dropLast ++ [f x]
  | none => l

/-- Body of the first loop of `parseClangErrors` for one line. -/
def clangLine (sev0 : Severity) (tool : Str) (st : ClangState) (line : Str) : ClangState :=
  match matchClangR1 line with
  | none => st
  | some (cap1, cap2, cap3, cap4) =>
    -- if (r1.cap(3) != "note") { errorItems.append(errorItem); errorItem = ErrorItem(); }
    let st1 : ClangState :=
      if cap3 ≠ "note".toList then
        { errorItems := st.errorItems ++ [st.errorItem], errorItem := ErrorItem.fresh sev0 }
      else st
    let item := st1.errorItem
    -- errorItem.errorPath.append(QErrorPathItem()); file and line of the new last element
    let path := item.errorPath ++ [{ file := cap1, line := (toInt cap2).toNat, info := [] }]
    let sev :=
      if cap3 = "warning".toList then Severity.warning
      else if cap3 = "error".toList ∨ cap3 = "fatal error".toList then Severity.error
      else item.severity
    let mi : Str × Str :=
      match matchR2 cap4 with
      | some (m, i) => (m, tool ++ '-' :: i)
      | none => (cap4, CLANG)
    let item1 : ErrorItem :=
      if path.length = 1 then
        { severity := sev, message := mi.1, errorId := mi.2, errorPath := path }
      else
        { severity := sev, message := item.message, errorId := item.errorId, errorPath := path }
    -- errorItem.errorPath.last().info = message;
    { errorItems := st1.errorItems,
      errorItem := { item1 with errorPath := setLast item1.errorPath (fun p => { p with info := mi.1 }) } }

/-- Function `CheckThread::parseClangErrors(tool, file0, err)`: the errors passed to
`mResult.reportErr`, in order.  The reporting loop runs over `errorItems` and reads the
severity, message and identifier from the variable `errorItem`. -/
def parseClangErrors (sev0 : Severity) (tool file0 err : Str) : List ErrorMessage :=
  let st := (readLines err).foldl (clangLine sev0 tool)
    { errorItems := [], errorItem := ErrorItem.fresh sev0 }
  let errorItems := st.errorItems ++ [st.errorItem]
  let errorItem := st.errorItem
  errorItems.foldl
    (fun reported e =>
      if e.errorPath.isEmpty then reported
      else
        reported ++
          [{ callStack := e.errorPath.map (fun p => { file := p.file, info := p.info, line := p.line }),
             file0 := file0, severity := errorItem.severity, msg := errorItem.message,
             id := errorItem.errorId, inconclusive := false }])
    []

/-! ## Environment of runAddons -/

/-- Record `ImportProject::FileSettings`: a file with its build configuration. -/
structure FileSettings where
  cfg : Str
  filename : Str
  defines : Str
  includePaths : List Str
  systemIncludePaths : List Str
  standard : Str
  deriving DecidableEq, Repr

/-- Fields of `Settings` that `runAddons` reads and writes. -/
structure Settings where
  buildDir : Str
  dump : Bool
  dumpFile : Str
  deriving DecidableEq, Repr

/-- Members of `CheckThread` set by its owner before a run. -/
structure Config where
  mAddons : List Str
  mClangPath : Str
  mVsIncludePaths : Str
  mDataDir : Str
  deriving DecidableEq, Repr

/-- Argument of `mCppcheck.check`: a plain file name or a file with build settings. -/
inductive CheckTarget where
  | file (name : Str)
  | fileSettings (fs : FileSettings)
  deriving DecidableEq, Repr

/-- Effects of `runAddons`, in the order they happen. -/
inductive Event where
  /-- Call `QProcess::start(cmd, args)`. -/
  | startProcess (cmd : Str) (args : List Str)
  /-- Call `QProcess::start(cmd)` with a whole command line. -/
  | startCommand (cmd : Str)
  /-- Call `mCppcheck.check` made by the dump step, with the settings in force. -/
  | check (target : CheckTarget) (settings : Settings)
  /-- A file was opened for writing and given this content. -/
  | writeFile (path content : Str)
  /-- A file was removed. -/
  | removeFile (path : Str)
  /-- Call `parseClangErrors(tool, file0, err)`. -/
  | parseClangErrors (tool file0 err : Str)
  /-- Call `parseAddonErrors(err, tool)`. -/
  | parseAddonErrors (err tool : Str)
  /-- Call `mResult.reportErr`. -/
  | reportErr (e : ErrorMessage)
  deriving DecidableEq, Repr

/-- What the code asks of its surroundings: the operating system, Qt and the parts of cppcheck
outside this file.  Every field is an arbitrary function. -/
structure Env where
  /-- True when compiled with `Q_OS_WIN`. -/
  qOsWin : Bool
  /-- Function `AnalyzerInformation::getAnalyzerInfoFile(buildDir, sourcefile, cfg)`. -/
  getAnalyzerInfoFile : Str → Str → Str → Str
  /-- Standard output and standard error of a process started with a program and arguments. -/
  runProcess : Str → List Str → Bytes × Bytes
  /-- Standard output and standard error of a process started with a command line. -/
  runCommand : Str → Bytes × Bytes
  /-- Result of `QFileInfo(path).exists()`. -/
  fileExists : Str → Bool
  /-- Result of `QDir(path).exists()`. -/
  dirExists : Str → Bool
  /-- Result of `QDir(path).entryList()`. -/
  entryList : Str → List Str
  /-- Result of `QDir(path).absolutePath()`. -/
  absolutePath : Str → Str
  /-- True when a file at this path can be opened for writing and removed. -/
  writable : Str → Bool
  /-- Conversion of a `QByteArray` to a `QString`. -/
  decode : Bytes → Str
  /-- Round trip of a text that is not plain ASCII through the codec of the locale: written by
  one `QTextStream`, read by another. -/
  codec : Str → Str
  /-- Severity of a default-constructed `ErrorItem`. -/
  sev0 : Severity

/-- What `runAddons` changes: the settings of `mCppcheck`, the files of the build directory
and the effects so far.  `files` gives for a path the text that reading the file through a
`QTextStream` on a `QIODevice::Text` device hands back, `none` when the file cannot be opened
for reading. -/
structure World where
  settings : Settings
  files : Str → Option Str
  log : List Event

/-! ## Helpers of runAddons -/

/-- Parts of a text between separators, empty parts kept: `QString::split(sep)`. -/
def splitFrom (sep : Char) (cur : Str) : Str → List Str
  | [] => [cur]
  | c :: rest =>
    if c = sep then cur :: splitFrom sep [] rest
    else splitFrom sep (cur ++ [c]) rest

/-- Split at every `sep`; the empty text gives one empty part. -/
def split (sep : Char) (s : Str) : List Str := splitFrom sep [] s

/-- Test `hay.find(needle) != std::string::npos`. -/
def hasSubstr (needle : Str) : Str → Bool
  | [] => needle.isPrefixOf []
  | c :: cs => needle.isPrefixOf (c :: cs) || hasSubstr needle cs

/-- Replacement `s.replace("\\", "/")`. -/
def slashes (s : Str) : Str := s.map (fun c => if c = '\\' then '/' else c)

/-- Decimal digits of a number, `fuel` digits at most, in front of `acc`. -/
def toDecimalAux : Nat → Nat → Str → Str
  | 0, _, acc => acc
  | fuel + 1, n, acc =>
    if n / 10 = 0 then Char.ofNat (48 + n % 10) :: acc
    else toDecimalAux fuel (n / 10) (Char.ofNat (48 + n % 10) :: acc)

/-- Text written by `QTextStream << quint16`: the decimal digits (five at most). -/
def toDecimal (n : Nat) : Str := toDecimalAux 5 n []

/-- Conversion of an `int` to `quint16`. -/
def quint16 (i : Int) : Nat := (i % 65536).toNat

/-- Table `crc_tbl` of Qt. -/
def crc_tbl : List Nat :=
  [0x0000, 0x1081, 0x2102, 0x3183, 0x4204, 0x5285, 0x6306, 0x7387,
   0x8408, 0x9489, 0xa50a, 0xb58b, 0xc60c, 0xd68d, 0xe70e, 0xf78f]

/-- One round of the checksum: `crc = ((crc >> 4) & 0x0fff) ^ crc_tbl[(crc ^ c) & 15]`. -/
def crcRound (crc c : Nat) : Nat :=
  ((crc >>> 4) &&& 0x0fff) ^^^ crc_tbl.getD ((crc ^^^ c) &&& 15) 0

/-- Function `qChecksum(data, len)` of Qt: the 16-bit CRC of ISO 3309, starting from `0xffff`,
two rounds per byte (low half first), complemented at the end. -/
def qChecksum (ba : Bytes) : Nat :=
  ((ba.foldl (fun crc c => crcRound (crcRound crc (c % 256)) ((c % 256) >>> 4)) 0xffff) ^^^ 0xffff) % 65536

/-- Adds an effect to the log. -/
def World.emit (w : World) (ev : Event) : World := { w with log := w.log ++ [ev] }

/-- Text handed back when a file opened with `QIODevice::Text` is read through a
`QTextStream`, for the text `s` written to it through one: every carriage return is dropped on
reading (those of the text, and those that a Windows build writes in front of each line feed),
and the characters pass the codec of the locale, which leaves plain ASCII text as it is. -/
def readText (e : Env) (s : Str) : Str :=
  let t := s.filter (fun c => c ≠ '\r')
  if t.all (fun c => c.toNat < 128) then t else e.codec t

/-- Opens `path` for writing (`QIODevice::WriteOnly | QIODevice::Text`) and writes `content`
through a `QTextStream`; nothing happens when the file cannot be opened.  The effect logged is
the text written; the file then holds what a read hands back. -/
def writeFile (e : Env) (path content : Str) (w : World) : World :=
  if e.writable path then
    { w with files := fun p => if p = path then some (readText e content) else w.files p,
             log := w.log ++ [Event.writeFile path content] }
  else w

/-- Call `QFile::remove(path)`. -/
def removeFile (e : Env) (path : Str) (w : World) : World :=
  if e.writable path then
    { w with files := fun p => if p = path then none else w.files p,
             log := w.log ++ [Event.removeFile path] }
  else w

/-- Call of `parseClangErrors` from `runAddons`: every error it builds is reported. -/
def callParseClangErrors (e : Env) (tool file0 err : Str) (w : World) : World :=
  { w with log := w.log ++ Event.parseClangErrors tool file0 err ::
      (parseClangErrors e.sev0 tool file0 err).map Event.reportErr }

/-- Call of `parseAddonErrors` from `runAddons`: every error it builds is reported. -/
def callParseAddonErrors (err tool : Str) (w : World) : World :=
  { w with log := w.log ++ Event.parseAddonErrors err tool ::
      (parseAddonErrors err tool).map Event.reportErr }

/-- The `-isystem` pair found by probing `mClangPath + "/../lib/clang"`: the first entry that
does not start with a dot and has an `include` directory. -/
def clangLibArgs (e : Env) (absPath : Str) : List Str → List Str
  | [] => []
  | ver :: rest =>
    let includePath := absPath ++ '/' :: ver ++ "/include".toList
    if ver.head? ≠ some '.' ∧ e.dirExists includePath = true then ["-isystem".toList, includePath]
    else clangLibArgs e absPath rest

/-- Lines 124 to 161: the argument list shared by the probe and the tool. -/
def buildArgs (e : Env) (c : Config) (fs : FileSettings) (fileName : Str) : List Str :=
  let args : List Str := fs.includePaths.map (fun i => "-I".toList ++ i)
  let args := args ++ fs.systemIncludePaths.flatMap (fun i => ["-isystem".toList, i])
  let args := args ++ (split ';' fs.defines).map (fun d => "-D".toList ++ d)
  let args :=
    if !c.mClangPath.isEmpty then
      let dir := c.mClangPath ++ "/../lib/clang".toList
      args ++ clangLibArgs e (e.absolutePath dir) (e.entryList dir)
    else args
  let args :=
    if e.qOsWin then
      args ++ ((split ';' c.mVsIncludePaths).filter (fun s => !s.isEmpty)).flatMap
          (fun s => ["-isystem".toList, slashes s])
        ++ ["-U__STDC__".toList, "-fno-ms-compatibility".toList]
    else args
  if !fs.standard.isEmpty then args ++ ["-std=".toList ++ fs.standard]
  else if !c.mVsIncludePaths.isEmpty && ".cpp".toList.isSuffixOf fileName then
    args ++ ["-std=c++14".toList]
  else args

/-- Lines 200 to 209: the arguments of the tool itself. -/
def toolArgs (addon : Str) (args : List Str) (fileName : Str) : List Str :=
  if addon = CLANG then
    ["--analyze".toList, "-Xanalyzer".toList, "-analyzer-output=text".toList] ++ args ++ [fileName]
  else
    ["-checks=*,-clang*,-llvm*".toList, fileName, "--".toList] ++ args

/-- Lines 213 to 219: the command line kept in the `-cmd` file. -/
def debugLine (cmd : Str) (args : List Str) : Str :=
  args.foldl
    (fun debug arg =>
      if arg.contains ' ' then debug ++ " \"".toList ++ arg ++ ['"']
      else debug ++ ' ' :: arg)
    (if cmd.contains ' ' then '"' :: cmd ++ ['"'] else cmd)

/-- Outcome of lines 166 to 198. -/
inductive Memo where
  /-- The stored text was parsed; the loop goes on with the next addon. -/
  | replayed (w : World)
  /-- No usable stored text; the tool runs. -/
  | fullRun (w : World)

/-- Name of a cache file: `analyzerInfoFile + '.' + addon + suffix`. -/
def cacheFile (analyzerInfoFile addon suffix : Str) : Str :=
  analyzerInfoFile ++ '.' :: addon ++ suffix

/-- Lines 180 to 190: the stored diagnostic text, when the checksum file can be read, holds
the checksum just computed, and the result file can be read. -/
def storedResults (files : Str → Option Str) (f1 f2 : Str) (chksum : Nat) : Option Str :=
  match files f1 with
  | some content => if quint16 (toInt content) = chksum then files f2 else none
  | none => none

/-- Program of the preprocessor probe. -/
def probeCmd (c : Config) : Str :=
  if c.mClangPath.isEmpty then "clang".toList else c.mClangPath ++ "/clang.exe".toList

/-- Lines 169 to 197: preprocessor probe, checksum comparison, replay or cache reset. -/
def memoize (e : Env) (c : Config) (addon fileName : Str) (args : List Str)
    (analyzerInfoFile : Str) (w : World) : Memo :=
  let cmd := probeCmd c
  let args2 := "-E".toList :: args ++ [fileName]
  let w1 := w.emit (Event.startProcess cmd args2)
  let ba := (e.runProcess cmd args2).1
  let chksum := qChecksum ba
  let f1 := cacheFile analyzerInfoFile addon "-E".toList
  let f2 := cacheFile analyzerInfoFile addon "-results".toList
  match storedResults w1.files f1 f2 chksum with
  | some results => Memo.replayed (callParseClangErrors e addon fileName results w1)
  | none => Memo.fullRun (removeFile e f2 (writeFile e f1 (toDecimal chksum) w1))

/-- Line 211: program of the tool. -/
def toolCmd (c : Config) (addon : Str) : Str :=
  if c.mClangPath.isEmpty then addon else c.mClangPath ++ '/' :: addon ++ ".exe".toList

/-- Lines 200 to 242: the full run of the tool. -/
def fullRun (e : Env) (c : Config) (addon fileName : Str) (args : List Str)
    (analyzerInfoFile : Str) (w : World) : World :=
  let args1 := toolArgs addon args fileName
  let cmd := toolCmd c addon
  let debug := debugLine cmd args1
  let w1 :=
    if !analyzerInfoFile.isEmpty then writeFile e (cacheFile analyzerInfoFile addon "-cmd".toList) debug w
    else w
  let w2 := w1.emit (Event.startProcess cmd args1)
  let out := e.runProcess cmd args1
  let errout := e.decode (if addon = CLANG then out.2 else out.1)
  let w3 :=
    if !analyzerInfoFile.isEmpty then writeFile e (cacheFile analyzerInfoFile addon "-results".toList) errout w2
    else w2
  callParseClangErrors e addon fileName errout w3

/-- Lines 118 to 242: one pass of the loop for `clang` or `clang-tidy`. -/
def runClangAddon (e : Env) (c : Config) (addon : Str) (fileSettings : Option FileSettings)
    (fileName : Str) (w : World) : World :=
  match fileSettings with
  | none => w
  | some fs =>
    if !fs.cfg.isEmpty && hasSubstr "Debug".toList fs.cfg then w
    else
      let args := buildArgs e c fs fileName
      let buildDir := w.settings.buildDir
      if !buildDir.isEmpty then
        let analyzerInfoFile := e.getAnalyzerInfoFile buildDir fs.filename fs.cfg
        match memoize e c addon fileName args analyzerInfoFile w with
        | Memo.replayed w1 => w1
        | Memo.fullRun w1 => fullRun e c addon fileName args analyzerInfoFile w1
      else fullRun e c addon fileName args [] w

/-- Lines 252 to 269: the dump step.  Gives the name of the dump file and the new world. -/
def dumpStep (e : Env) (fileSettings : Option FileSettings) (fileName : Str) (w : World) :
    Str × World :=
  let buildDir := w.settings.buildDir
  let s1 : Settings := { w.settings with buildDir := [], dump := true }
  let cfg : Str :=
    match fileSettings with
    | some fs => fs.cfg
    | none => []
  let s2 : Settings :=
    if !buildDir.isEmpty then
      { s1 with dumpFile := e.getAnalyzerInfoFile buildDir fileName cfg ++ ".dump".toList }
    else s1
  let dumpFile : Str := if !buildDir.isEmpty then s2.dumpFile else fileName ++ ".dump".toList
  let target : CheckTarget :=
    match fileSettings with
    | some fs => CheckTarget.fileSettings fs
    | none => CheckTarget.file fileName
  let w1 : World := { w with settings := s2, log := w.log ++ [Event.check target s2] }
  (dumpFile, { w1 with settings := { s2 with dump := false, dumpFile := [], buildDir := buildDir } })

/-- Lines 244 to 276: one pass of the loop for a script addon.  `dumpFile` is the local
variable of `runAddons`. -/
def runScriptAddon (e : Env) (addonPath addon : Str) (fileSettings : Option FileSettings)
    (fileName : Str) (dumpFile : Str) (w : World) : Str × World :=
  let flat := addonPath ++ '/' :: addon ++ ".py".toList
  let nested := addonPath ++ '/' :: addon ++ '/' :: addon ++ ".py".toList
  let script : Option Str :=
    if e.fileExists flat then some flat
    else if e.fileExists nested then some nested
    else none
  match script with
  | none => (dumpFile, w)
  | some a =>
    let dw : Str × World := if dumpFile.isEmpty then dumpStep e fileSettings fileName w else (dumpFile, w)
    let cmd := "python ".toList ++ a ++ ' ' :: dw.1
    let w2 := dw.2.emit (Event.startCommand cmd)
    (dw.1, callParseAddonErrors (e.decode (e.runCommand cmd).2) addon w2)

/-- Body of the loop of `runAddons` for one addon. -/
def runAddon (e : Env) (c : Config) (addonPath : Str) (fileSettings : Option FileSettings)
    (fileName : Str) (st : Str × World) (addon : Str) : Str × World :=
  if addon = CLANG ∨ addon = CLANGTIDY then
    (st.1, runClangAddon e c addon fileSettings fileName st.2)
  else runScriptAddon e addonPath addon fileSettings fileName st.1 st.2

/-- Function `CheckThread::runAddons(addonPath, fileSettings, fileName)`. -/
def runAddons (e : Env) (c : Config) (addonPath : Str) (fileSettings : Option FileSettings)
    (fileName : Str) (w : World) : World :=
  (c.mAddons.foldl (runAddon e c addonPath fileSettings fileName) ([], w)).2

/-! ## The worker: run and stop -/

/-- Values of `mState`. -/
inductive State where
  | Ready | Running | Stopping | Stopped
  deriving DecidableEq, Repr

/-- Steps of the worker and of `stop()`, in the order they happen. -/
inductive RunEvent where
  /-- The worker wrote `mState`. -/
  | setState (s : State)
  /-- A call of `stop()`: `mState = Stopping; mCppcheck.terminate()`. -/
  | stop
  /-- Call `mResult.getNextFile()` with its result; `seen` is `mState` at that moment. -/
  | pulledFile (file : Str) (seen : State)
  /-- Call `mResult.getNextFileSettings()` with its result; `seen` is `mState` at that moment. -/
  | pulledFileSettings (fs : FileSettings) (seen : State)
  /-- Call `mCppcheck.check(file)` of line 84. -/
  | check (file : Str)
  /-- Call `mCppcheck.check(fileSettings)` of line 96. -/
  | checkSettings (fs : FileSettings)
  /-- Call `runAddons` for this file. -/
  | runAddons (file : Str)
  /-- Signal `fileChecked(file)`. -/
  | fileChecked (file : Str)
  /-- Call `mCppcheck.analyseWholeProgram(buildDir, files2)`; `files` are the keys of the map
  `files2`, in the order of the map. -/
  | analyseWholeProgram (buildDir : Str) (files : List Str)
  /-- Signal `done()`. -/
  | done
  deriving DecidableEq, Repr

/-- The worker thread with the queue it pulls from.  `files` and `fileSettings` are the items
the shared `ThreadResult` hands to this worker, in order; `tick` counts the steps taken. -/
structure Thread where
  mState : State
  mFiles : List Str
  mAnalyseWholeProgram : Bool
  files : List Str
  fileSettings : List FileSettings
  world : World
  tick : Nat
  trace : List RunEvent

/-- Modelled from the spec: `ThreadResult::getNextFile`, the shared queue "hands out the next
file to analyze"; an exhausted queue gives the empty name. -/
def getNextFile (q : List Str) : Str × List Str :=
  match q with
  | [] => ([], [])
  | f :: rest => (f, rest)

/-- A default-constructed `ImportProject::FileSettings`. -/
def FileSettings.empty : FileSettings :=
  { cfg := [], filename := [], defines := [], includePaths := [], systemIncludePaths := [],
    standard := [] }

/-- Modelled from the spec: `ThreadResult::getNextFileSettings`, the queue of files with build
settings; an exhausted queue gives settings with an empty file name. -/
def getNextFileSettings (q : List FileSettings) : FileSettings × List FileSettings :=
  match q with
  | [] => (FileSettings.empty, [])
  | f :: rest => (f, rest)

/-- Function `CheckThread::stop()`, called from another thread. -/
def stop (t : Thread) : Thread :=
  { t with mState := State.Stopping, trace := t.trace ++ [RunEvent.stop] }

/-- The gap in front of the next step of the worker: `stop()` runs here when the schedule
says so.  `sched k` tells whether `stop()` is called right before step `k`; a call that
arrives while a step is under way (a check, the addons) counts for the gap after that step,
where the worker can first notice it. -/
def poll (sched : Nat → Bool) (t : Thread) : Thread :=
  let t1 := if sched t.tick then stop t else t
  { t1 with tick := t.tick + 1 }

/-- Adds a step to the trace. -/
def Thread.emit (t : Thread) (ev : RunEvent) : Thread := { t with trace := t.trace ++ [ev] }

/-- Function `CheckThread::getAddonPath()`. -/
def getAddonPath (e : Env) (c : Config) : Str :=
  if e.fileExists (c.mDataDir ++ "/threadsafety.py".toList) then c.mDataDir
  else if e.dirExists (c.mDataDir ++ "/addons".toList) then c.mDataDir ++ "/addons".toList
  else if "/cfg".toList.isSuffixOf c.mDataDir then
    if e.dirExists (c.mDataDir.take (c.mDataDir.length - 3) ++ "addons".toList) then
      c.mDataDir.take (c.mDataDir.length - 3) ++ "addons".toList
    else []
  else []

/-- Lines 83 to 86 and 94 to 98: one item is processed.  `checkEv` is the call of
`mCppcheck.check`, `addons` the effect of `runAddons` on the world; the last gap is the one
in front of the test of `mState` at lines 88 and 100. -/
def processItem (sched : Nat → Bool) (checkEv : RunEvent) (file : Str) (addons : World → World)
    (t : Thread) : Thread :=
  let t := (poll sched t).emit checkEv
  let t := poll sched t
  let t := { t with world := addons t.world }.emit (RunEvent.runAddons file)
  let t := (poll sched t).emit (RunEvent.fileChecked file)
  poll sched t

/-- Lines 82 to 90: the loop over plain files.  `file` is the item pulled last. -/
def fileLoop (e : Env) (c : Config) (sched : Nat → Bool) (addonPath : Str) :
    Nat → Str → Thread → Option Thread
  | 0, _, _ => none
  | fuel + 1, file, t =>
    let t := poll sched t
    if !file.isEmpty && t.mState = State.Running then
      let t := processItem sched (RunEvent.check file) file (runAddons e c addonPath none file) t
      if t.mState = State.Running then
        let t := poll sched t
        let next := getNextFile t.files
        fileLoop e c sched addonPath fuel next.1
          ({ t with files := next.2 }.emit (RunEvent.pulledFile next.1 t.mState))
      else fileLoop e c sched addonPath fuel file t
    else some t

/-- Lines 93 to 102: the loop over files with build settings. -/
def settingsLoop (e : Env) (c : Config) (sched : Nat → Bool) (addonPath : Str) :
    Nat → FileSettings → Thread → Option Thread
  | 0, _, _ => none
  | fuel + 1, fileSettings, t =>
    let t := poll sched t
    if !fileSettings.filename.isEmpty && t.mState = State.Running then
      let t := processItem sched (RunEvent.checkSettings fileSettings) fileSettings.filename
        (runAddons e c addonPath (some fileSettings) fileSettings.filename) t
      if t.mState = State.Running then
        let t := poll sched t
        let next := getNextFileSettings t.fileSettings
        settingsLoop e c sched addonPath fuel next.1
          ({ t with fileSettings := next.2 }.emit (RunEvent.pulledFileSettings next.1 t.mState))
      else settingsLoop e c sched addonPath fuel fileSettings t
    else some t

/-- Lines 104 to 109: the last write of `mState` and the signal `done()`. -/
def finish (sched : Nat → Bool) (t : Thread) : Thread :=
  let t := poll sched t
  let final := if t.mState = State.Running then State.Ready else State.Stopped
  let t := poll sched t
  let t := { t with mState := final }.emit (RunEvent.setState final)
  (poll sched t).emit RunEvent.done

/-- Order of `std::string`: byte by byte, which for UTF-8 text is the order of the code
points; a proper beginning of a text comes before it. -/
def strLt : Str → Str → Bool
  | [], [] => false
  | [], _ :: _ => true
  | _ :: _, [] => false
  | a :: as, b :: bs =>
    if a.toNat < b.toNat then true
    else if b.toNat < a.toNat then false
    else strLt as bs

/-- Statement `files2[k] = 0` on the keys of a `std::map`: the keys stay sorted and a key
already there is kept once. -/
def insertKey (k : Str) : List Str → List Str
  | [] => [k]
  | x :: xs =>
    if strLt k x then k :: x :: xs
    else if k = x then x :: xs
    else x :: insertKey k xs

/-- Lines 69 to 71: the keys of `files2` after the loop over `mFiles`. -/
def mapKeys (files : List Str) : List Str := files.foldl (fun m f => insertKey f m) []

/-- Lines 64 to 77: whole program analysis. -/
def wholeProgram (sched : Nat → Bool) (t : Thread) : Thread :=
  let t := { t with mAnalyseWholeProgram := false }
  let buildDir := t.world.settings.buildDir
  let t :=
    if !buildDir.isEmpty then (poll sched t).emit (RunEvent.analyseWholeProgram buildDir (mapKeys t.mFiles))
    else t
  let t := { t with mFiles := [] }
  (poll sched t).emit RunEvent.done

/-- Lines 92 to 109: the pull of the first file with build settings, the second loop and the
end of `run`. -/
def settingsPhase (e : Env) (c : Config) (sched : Nat → Bool) (addonPath : Str) (fuel : Nat)
    (t : Thread) : Option Thread :=
  let t := poll sched t
  let next := getNextFileSettings t.fileSettings
  let t := { t with fileSettings := next.2 }.emit (RunEvent.pulledFileSettings next.1 t.mState)
  (settingsLoop e c sched addonPath fuel next.1 t).map (finish sched)

/-- Lines 79 to 109: the incremental run, from `getAddonPath` on. -/
def incremental (e : Env) (c : Config) (sched : Nat → Bool) (fuel : Nat) (t : Thread) :
    Option Thread :=
  let addonPath := getAddonPath e c
  let t := poll sched t
  let next := getNextFile t.files
  let t := { t with files := next.2 }.emit (RunEvent.pulledFile next.1 t.mState)
  (fileLoop e c sched addonPath fuel next.1 t).bind (settingsPhase e c sched addonPath fuel)

/-- Line 62: `mState = Running`, with the gaps around it. -/
def start (sched : Nat → Bool) (t : Thread) : Thread :=
  let t := poll sched t
  let t := { t with mState := State.Running }.emit (RunEvent.setState State.Running)
  poll sched t

/-- Function `CheckThread::run()`.  `fuel` bounds the number of passes through each loop;
`none` means the bound was too small. -/
def run (e : Env) (c : Config) (sched : Nat → Bool) (fuel : Nat) (t : Thread) : Option Thread :=
  let t := start sched t
  if !t.mFiles.isEmpty || t.mAnalyseWholeProgram then some (wholeProgram sched t)
  else incremental e c sched fuel t

/-- A worker that has not run yet, with the given queue. -/
def Thread.fresh (files : List Str) (fileSettings : List FileSettings) (w : World) : Thread :=
  { mState := State.Ready, mFiles := [], mAnalyseWholeProgram := false, files := files,
    fileSettings := fileSettings, world := w, tick := 0, trace := [] }

/-! ## The grammars as the specification words them -/

/-- The text reads `<text>[<id>]`: any text, then a non-empty identifier of letters, digits,
`-`, `.` and `_` in square brackets at the very end. -/
def TextId (rest text id : Str) : Prop :=
  rest = text ++ '[' :: (id ++ [']']) ∧ id ≠ [] ∧ ∀ c ∈ id, isIdChar c = true

/-- Message and identifier that the compiler parser takes from the text of a line. -/
def clangMessageId (tool text : Str) : Str × Str :=
  match matchR2 text with
  | some (m, i) => (m, tool ++ '-' :: i)
  | none => (text, CLANG)

/-! ## Vocabulary of the claims on runAddons -/

/-- Effects that a script addon causes: its dump, its interpreter, its parser and the errors
that parser builds. -/
def Event.ofScriptAddon : Event → Prop
  | Event.startCommand _ => True
  | Event.check _ _ => True
  | Event.parseAddonErrors _ _ => True
  | Event.reportErr m => ∃ err tool, m ∈ CheckThread.parseAddonErrors err tool
  | _ => False

/-- The addon is a script addon whose script is found under `addonPath`. -/
def scriptFound (e : Env) (addonPath addon : Str) : Prop :=
  addon ≠ CLANG ∧ addon ≠ CLANGTIDY ∧
    (e.fileExists (addonPath ++ '/' :: addon ++ ".py".toList) = true ∨
     e.fileExists (addonPath ++ '/' :: addon ++ '/' :: addon ++ ".py".toList) = true)

/-- World `w2` is `w1` followed by effects of script addons only, with the same files. -/
def ScriptOnly (w1 w2 : World) : Prop :=
  ∃ new, w2.log = w1.log ++ new ∧ (∀ ev ∈ new, ev.ofScriptAddon) ∧ w2.files = w1.files

/-! ## Vocabulary of the claims on the checksum cache -/

/-- Path computed at line 167 for a file with build settings. -/
def infoFile (e : Env) (w : World) (fs : FileSettings) : Str :=
  e.getAnalyzerInfoFile w.settings.buildDir fs.filename fs.cfg

/-- Arguments of the preprocessor probe (lines 170 to 172). -/
def probeArgs (e : Env) (c : Config) (fs : FileSettings) (fileName : Str) : List Str :=
  "-E".toList :: buildArgs e c fs fileName ++ [fileName]

/-- Bytes that the preprocessor probe prints on standard output. -/
def probeOutput (e : Env) (c : Config) (fs : FileSettings) (fileName : Str) : Bytes :=
  (e.runProcess (probeCmd c) (probeArgs e c fs fileName)).1

/-- Diagnostic text captured from the tool (line 234). -/
def toolOutput (e : Env) (c : Config) (addon : Str) (fs : FileSettings) (fileName : Str) : Str :=
  e.decode
    (if addon = CLANG then
      (e.runProcess (toolCmd c addon) (toolArgs addon (buildArgs e c fs fileName) fileName)).2
    else
      (e.runProcess (toolCmd c addon) (toolArgs addon (buildArgs e c fs fileName) fileName)).1)

/-- Start of the tool process itself (line 232). -/
def toolStart (e : Env) (c : Config) (addon : Str) (fs : FileSettings) (fileName : Str) : Event :=
  Event.startProcess (toolCmd c addon) (toolArgs addon (buildArgs e c fs fileName) fileName)

/-- Bytes of an ASCII text. -/
def bytesOf (s : String) : Bytes := s.toList.map Char.toNat

/-- An environment for the examples: no `Q_OS_WIN`; the analyzer-info path of a file is
`<buildDir>/<file>.a1`; a process started with `-E` first prints `probe` on standard output,
any other process prints `tool` on standard error; every script exists, no directory does;
every file is writable; bytes are decoded one character each; the codec of the locale
leaves every text as it is. -/
def exampleEnv (probe tool : Bytes) : Env where
  qOsWin := false
  getAnalyzerInfoFile := fun b f _ => b ++ '/' :: f ++ ".a1".toList
  runProcess := fun _ args => if args.head? = some "-E".toList then (probe, []) else ([], tool)
  runCommand := fun _ => ([], [])
  fileExists := fun _ => true
  dirExists := fun _ => false
  entryList := fun _ => []
  absolutePath := fun p => p
  writable := fun _ => true
  decode := fun b => b.map Char.ofNat
  codec := fun s => s
  sev0 := Severity.none

/-- A worker configured with the given addons and nothing else. -/
def exampleConfig (addons : List Str) : Config :=
  { mAddons := addons, mClangPath := [], mVsIncludePaths := [], mDataDir := [] }

/-- A world with the given settings, no readable file and no effect so far. -/
def exampleWorld (s : Settings) : World :=
  { settings := s, files := fun _ => none, log := [] }

/-- Build settings of `a.cpp` with the given configuration label. -/
def exampleFileSettings (cfg : String) : FileSettings :=
  { cfg := cfg.toList, filename := "a.cpp".toList, defines := "N=1".toList, includePaths := [],
    systemIncludePaths := [], standard := [] }

/-! ## Vocabulary of the claims on run -/

/-- True for the signals `fileChecked` and `done`. -/
def isSignal : RunEvent → Bool
  | RunEvent.fileChecked _ => true
  | RunEvent.done => true
  | _ => false

/-- The signals of a trace, in order. -/
def signals (tr : List RunEvent) : List RunEvent := tr.filter isSignal

/-- The file whose processing a step starts. -/
def startOf : RunEvent → Option Str
  | RunEvent.check f => some f
  | RunEvent.checkSettings fs => some fs.filename
  | _ => none

/-- The files whose processing was started, in order. -/
def started (tr : List RunEvent) : List Str := tr.filterMap startOf

/-- The work item a step pulled from the queue while the state was Running. -/
def pullOf : RunEvent → Option Str
  | RunEvent.pulledFile f State.Running => if f.isEmpty then none else some f
  | RunEvent.pulledFileSettings fs State.Running =>
    if fs.filename.isEmpty then none else some fs.filename
  | _ => none

/-- The work items pulled while the state was Running, in order. -/
def pulledRunning (tr : List RunEvent) : List Str := tr.filterMap pullOf

/-- The value a step of the worker writes to `mState`. -/
def writeOf : RunEvent → Option State
  | RunEvent.setState s => some s
  | _ => none

/-- The values the worker wrote to `mState`, in order. -/
def stateWrites (tr : List RunEvent) : List State := tr.filterMap writeOf

/-- True for a call of `stop()`. -/
def isStop : RunEvent → Bool
  | RunEvent.stop => true
  | _ => false

/-- A trace without the calls of `stop()`. -/
def withoutStops (tr : List RunEvent) : List RunEvent := tr.filter (fun ev => !isStop ev)

/-- The item in flight after one more step: a check starts one, `fileChecked` ends it. -/
def inFlightStep (cur : Option Str) : RunEvent → Option Str
  | RunEvent.check f => some f
  | RunEvent.checkSettings fs => some fs.filename
  | RunEvent.fileChecked _ => none
  | _ => cur

/-- The item being processed at the end of a trace, if any. -/
def inFlight (tr : List RunEvent) : Option Str := tr.foldl inFlightStep none

/-- What follows a `stop()` that arrived while `f` was being processed: the signals are
`fileChecked f` and `done`, no processing is started, the only write of `mState` is Stopped,
and apart from further calls of `stop()` the trace ends with that write and `done`. -/
def StopOutcome (f : Str) (post : List RunEvent) : Prop :=
  signals post = [RunEvent.fileChecked f, RunEvent.done] ∧
  started post = [] ∧
  stateWrites post = [State.Stopped] ∧
  ∃ mid, withoutStops post = mid ++ [RunEvent.setState State.Stopped, RunEvent.done]

/-- What follows once the state is Stopping at the head of a loop: `done` is the only signal,
nothing is started, the only write of `mState` is Stopped. -/
def StoppingTail (new : List RunEvent) : Prop :=
  signals new = [RunEvent.done] ∧
  started new = [] ∧
  stateWrites new = [State.Stopped] ∧
  ∃ mid, withoutStops new = mid ++ [RunEvent.setState State.Stopped, RunEvent.done]

/-- The item in flight after the steps `tr`, when `cur` was in flight before them. -/
def inFlightFrom (cur : Option Str) (tr : List RunEvent) : Option Str := tr.foldl inFlightStep cur

/-- Every call of `stop()` that arrives while an item is in flight, with that item and the
steps after the call. -/
def scan (cur : Option Str) : List RunEvent → List (Str × List RunEvent)
  | [] => []
  | ev :: rest =>
    (match ev, cur with
      | RunEvent.stop, some f => [(f, rest)]
      | _, _ => []) ++ scan (inFlightStep cur ev) rest

/-- Facts about the steps `new` from the head of a loop to the end of `run`.  `pending` holds
the item pulled last when it was pulled while Running; `stopping` says that the state was
Stopping at the head of the loop. -/
def Outcome (pending : List Str) (stopping : Prop) (new : List RunEvent) : Prop :=
  signals new = (started new).map RunEvent.fileChecked ++ [RunEvent.done] ∧
  (∃ init, new = init ++ [RunEvent.done]) ∧
  (started new).Sublist (pending ++ pulledRunning new) ∧
  (∀ x ∈ scan none new, StopOutcome x.1 x.2) ∧
  (stopping → StoppingTail new)

/-! ## Vocabulary of the claims on the argument vectors -/

/-- Program and argument vector of a process started with arguments. -/
def processOf : Event → Option (Str × List Str)
  | Event.startProcess cmd args => some (cmd, args)
  | _ => none

/-- The processes started with arguments, in order. -/
def processes (log : List Event) : List (Str × List Str) := log.filterMap processOf

/-! ## Vocabulary of the claim on the records of parseClangErrors -/

/-- The kind of a line that matches the compiler-diagnostic grammar: capture 3 of `r1`. -/
def lineKind (line : Str) : Option Str := (matchClangR1 line).map (fun m => m.2.2.1)

/-- The kinds of the matching lines of a text, in order. -/
def matchedKinds (err : Str) : List Str := (readLines err).filterMap lineKind

/-- The kinds of the matching lines of a text that are not notes, in order. -/
def rootKinds (err : Str) : List Str := (matchedKinds err).filter (fun k => k ≠ "note".toList)

/-- Lines 334 to 367: the list `errorItems` when the reporting loop starts. -/
def clangItems (sev0 : Severity) (tool err : Str) : List ErrorItem :=
  let st := (readLines err).foldl (clangLine sev0 tool)
    { errorItems := [], errorItem := ErrorItem.fresh sev0 }
  st.errorItems ++ [st.errorItem]

/-- Test of line 370, negated: the item has a location step. -/
def hasPath (e : ErrorItem) : Bool := !e.errorPath.isEmpty

/-- Number of items kept by the test of line 370, the item being filled included. -/
def keptCount (st : ClangState) : Nat :=
  (st.errorItems.filter hasPath).length + (if st.errorItem.errorPath = [] then 0 else 1)

/-! ## Vocabulary of the claims on the items taken from the queue -/

/-- A call of `stop()` came right after the step that pulled the item `x` while the state was
Running: between that pull and the test of `mState` by the loop. -/
def StoppedAfterPull (x : Str) (tr : List RunEvent) : Prop :=
  ∃ pre post ev, tr = pre ++ ev :: RunEvent.stop :: post ∧ pullOf ev = some x

/-- State of a run between two steps, with the loop variable holding the item `name` (empty
when no item is waiting): the items pulled while Running are the items whose processing
started, followed by at most one more; as long as the state is Running that one is the
waiting item and its pull is the last step so far; once the state is no longer Running, a
call of `stop()` came right after its pull; and the state is Running when `stop()` is never
called. -/
def Pending (sched : Nat → Bool) (name : Str) (t : Thread) : Prop :=
  ∃ p, pulledRunning t.trace = started t.trace ++ p ∧ p.length ≤ 1 ∧
    (t.mState = State.Running → p = if name = [] then [] else [name]) ∧
    ((∀ k, sched k = false) → t.mState = State.Running) ∧
    (t.mState = State.Running → ∀ x ∈ p, ∃ pre ev, t.trace = pre ++ [ev] ∧ pullOf ev = some x) ∧
    (t.mState ≠ State.Running → ∀ x ∈ p, StoppedAfterPull x t.trace)

/-- What a run leaves of the items pulled while Running: those processed, then at most one
item more, left only when `stop()` came right after its pull. -/
def Leftover (sched : Nat → Bool) (tr : List RunEvent) : Prop :=
  ∃ d, pulledRunning tr = started tr ++ d ∧ d.length ≤ 1 ∧
    ((∀ k, sched k = false) → d = []) ∧ ∀ x ∈ d, StoppedAfterPull x tr

/-- The work item a step takes from the queue, by `getNextFile` or by `getNextFileSettings`,
whatever the state at that moment; the empty end-of-queue marker is no item. -/
def takeOf : RunEvent → Option Str
  | RunEvent.pulledFile f _ => if f.isEmpty then none else some f
  | RunEvent.pulledFileSettings fs _ => if fs.filename.isEmpty then none else some fs.filename
  | _ => none

/-- The work items taken from the queue, in order. -/
def taken (tr : List RunEvent) : List Str := tr.filterMap takeOf

/-! ## The lines of a text as the specification words them -/

/-- The text `err` consists of the lines `ls`, in order.  A line holds no line feed and is
ended by a line feed or by a carriage return and a line feed (the carriage return of the
latter is not part of the line); the last line may also be ended by the end of the text, when
it is not empty, a carriage return right before the end not being part of it. -/
inductive Lines : Str → List Str → Prop
  | nil : Lines [] []
  | last (l : Str) : '\n' ∉ l → l ≠ [] → l.getLast? ≠ some '\r' → Lines l [l]
  | lastCR (l : Str) : '\n' ∉ l → Lines (l ++ ['\r']) [l]
  | lf (l rest : Str) (ls : List Str) : '\n' ∉ l → l.getLast? ≠ some '\r' → Lines rest ls →
      Lines (l ++ '\n' :: rest) (l :: ls)
  | crlf (l rest : Str) (ls : List Str) : '\n' ∉ l → Lines rest ls →
      Lines (l ++ '\r' :: '\n' :: rest) (l :: ls)

/-! ## The compiler-diagnostic grammar as the specification words it -/

/-- The kinds of a compiler diagnostic: `note`, `warning`, `error`, `fatal error`. -/
def IsKind (k : Str) : Prop :=
  k = "note".toList ∨ k = "warning".toList ∨ k = "error".toList ∨ k = "fatal error".toList

/-- The text reads `:<line>:<col>: <kind>: <text>`: line and column are non-empty runs of
digits, the kind is one of the four. -/
def ClangTail (s num col kind text : Str) : Prop :=
  s = ':' :: (num ++ ':' :: (col ++ ':' :: ' ' :: (kind ++ ':' :: ' ' :: text))) ∧
    num ≠ [] ∧ (∀ c ∈ num, isDigit c = true) ∧ col ≠ [] ∧ (∀ c ∈ col, isDigit c = true) ∧
    IsKind kind

/-- The line reads `<file>:<line>:<col>: <kind>: <text>`, with a file part that is not
empty. -/
def ClangLine (line file num col kind text : Str) : Prop :=
  file ≠ [] ∧ ∃ s, line = file ++ s ∧ ClangTail s num col kind text

/-- The reading of a line that the parser takes.  A line can be read in several ways when its
text holds `:<line>:<col>: <kind>: ` again; the file part `(.+)` is greedy, so the reading with
the longest file part counts. -/
def ClangMatch (line file num kind text : Str) : Prop :=
  (∃ col, ClangLine line file num col kind text) ∧
    ∀ f n c k t, ClangLine line f n c k t → f.length ≤ file.length

/-- The line does not read `<file>:<line>:<col>: <kind>: <text>` in any way. -/
def NoClangLine (line : Str) : Prop := ¬ ∃ f n c k t, ClangLine line f n c k t

/-- The line number that the `int` of a location step holds for the digits of a line: their
decimal value, and 0 when that value is larger than `INT_MAX`. -/
def lineNumber (num : Str) : Nat := if decimalValue num ≤ INT_MAX then decimalValue num else 0

/-- Message and identifier of the text of a compiler diagnostic: `<msg>` and `<tool>-<id>` when
the text reads `<msg>[<id>]`, the whole text and the name of the analyze tool otherwise. -/
def ClangMessageId (tool text msg id : Str) : Prop :=
  (∃ i, TextId text msg i ∧ id = tool ++ '-' :: i) ∨
    ((¬ ∃ m i, TextId text m i) ∧ msg = text ∧ id = CLANG)

/-- The kinds of the lines that read as a compiler diagnostic, in the order of the lines; a
line that does not read as one has no kind. -/
inductive KindsOf : List Str → List Str → Prop
  | nil : KindsOf [] []
  | skip (l : Str) (ls ks : List Str) : NoClangLine l → KindsOf ls ks → KindsOf (l :: ls) ks
  | take (l f n k t : Str) (ls ks : List Str) : ClangMatch l f n k t → KindsOf ls ks →
      KindsOf (l :: ls) (k :: ks)

/-! ## Lemmas on the matchers -/

theorem takeWhile_append_stop {α : Type} (p : α → Bool) (a b : List α) (x : α)
    (ha : ∀ c ∈ a, p c = true) (hx : p x = false) : (a ++ x :: b).takeWhile p = a := by
  induction a with
  | nil => simp [List.takeWhile, hx]
  | cons y ys ih =>
    have hy : p y = true := ha y (by simp)
    rw [List.cons_append, List.takeWhile_cons, hy]
    simp only [if_true]
    rw [ih (fun c hc => ha c (by simp [hc]))]

theorem dropWhile_append_stop {α : Type} (p : α → Bool) (a b : List α) (x : α)
    (ha : ∀ c ∈ a, p c = true) (hx : p x = false) : (a ++ x :: b).dropWhile p = x :: b := by
  induction a with
  | nil => simp [List.dropWhile, hx]
  | cons y ys ih =>
    have hy : p y = true := ha y (by simp)
    rw [List.cons_append, List.dropWhile_cons, hy]
    simp only [if_true]
    exact ih (fun c hc => ha c (by simp [hc]))

theorem takeWhile_all {α : Type} (p : α → Bool) (l : List α) :
    ∀ c ∈ l.takeWhile p, p c = true := by
  intro c hc
  exact List.mem_takeWhile_imp hc

theorem isIdChar_lbracket : isIdChar '[' = false := by decide
theorem isIdChar_rbracket : isIdChar ']' = false := by decide

theorem matchIdBracket_of_grammar (id : Str) (hne : id ≠ []) (hid : ∀ c ∈ id, isIdChar c = true) :
    matchIdBracket ('[' :: (id ++ [']'])) = some id := by
  have h1 := takeWhile_append_stop isIdChar id [] ']' hid isIdChar_rbracket
  have h2 := dropWhile_append_stop isIdChar id [] ']' hid isIdChar_rbracket
  simp only [matchIdBracket, h1, h2]
  cases id with
  | nil => exact absurd rfl hne
  | cons a as => simp

theorem grammar_of_matchIdBracket {s id : Str} (h : matchIdBracket s = some id) :
    s = '[' :: (id ++ [']']) ∧ id ≠ [] ∧ ∀ c ∈ id, isIdChar c = true := by
  unfold matchIdBracket at h
  split at h
  · rename_i t
    split at h
    · rename_i hd
      split at h
      · exact absurd h (by simp)
      · rename_i hne
        simp only [Option.some.injEq] at h
        have e := List.takeWhile_append_dropWhile isIdChar t
        rw [hd, h] at e
        refine ⟨by rw [e], ?_, ?_⟩
        · rw [← h]; intro hx; simp [hx] at hne
        · rw [← h]; exact takeWhile_all _ _
    · exact absurd h (by simp)
  · exact absurd h (by simp)

theorem grammar_of_matchR2 : ∀ (s m id : Str), matchR2 s = some (m, id) → TextId s m id := by
  intro s
  induction s with
  | nil => intro m id h; simp [matchR2] at h
  | cons c cs ih =>
    intro m id h
    unfold matchR2 at h
    split at h
    · rename_i m1 id1 h1
      simp only [Option.some.injEq, Prod.mk.injEq] at h
      obtain ⟨rfl, rfl⟩ := h
      obtain ⟨e, hne, hid⟩ := ih _ _ h1
      exact ⟨by rw [e]; rfl, hne, hid⟩
    · rename_i h1
      cases hb : matchIdBracket (c :: cs) with
      | none => simp [hb] at h
      | some i =>
        simp only [hb, Option.map_some', Option.some.injEq, Prod.mk.injEq] at h
        obtain ⟨rfl, rfl⟩ := h
        obtain ⟨e, hne, hid⟩ := grammar_of_matchIdBracket hb
        exact ⟨by rw [e]; rfl, hne, hid⟩

theorem lbracket_mem_of_matchR2 (s m id : Str) (h : matchR2 s = some (m, id)) : '[' ∈ s := by
  obtain ⟨e, _, _⟩ := grammar_of_matchR2 s m id h
  rw [e]; simp

theorem matchR2_of_grammar : ∀ (text id : Str), id ≠ [] → (∀ c ∈ id, isIdChar c = true) →
    matchR2 (text ++ '[' :: (id ++ [']'])) = some (text, id) := by
  intro text
  induction text with
  | nil =>
    intro id hne hid
    have hnone : matchR2 (id ++ [']']) = none := by
      cases hm : matchR2 (id ++ [']']) with
      | none => rfl
      | some p =>
        obtain ⟨m, i⟩ := p
        have hmem := lbracket_mem_of_matchR2 _ _ _ hm
        simp only [List.mem_append, List.mem_singleton] at hmem
        rcases hmem with hmem | hmem
        · have := hid _ hmem
          rw [isIdChar_lbracket] at this
          exact absurd this (by simp)
        · exact absurd hmem (by decide)
    show matchR2 ('[' :: (id ++ [']'])) = some ([], id)
    unfold matchR2
    rw [hnone]
    simp [matchIdBracket_of_grammar id hne hid]
  | cons c cs ih =>
    intro id hne hid
    show matchR2 (c :: (cs ++ '[' :: (id ++ [']']))) = some (c :: cs, id)
    unfold matchR2
    rw [ih id hne hid]

theorem matchR2_eq_some_iff (s m id : Str) : matchR2 s = some (m, id) ↔ TextId s m id :=
  ⟨grammar_of_matchR2 s m id, fun ⟨e, hne, hid⟩ => by rw [e]; exact matchR2_of_grammar m id hne hid⟩

theorem foldl_report {α β : Type} (f : α → Option β) (g : List β → α → List β)
    (hg : ∀ acc x, g acc x = acc ++ (f x).toList) (l : List α) (acc : List β) :
    l.foldl g acc = acc ++ l.filterMap f := by
  induction l generalizing acc with
  | nil => simp
  | cons x xs ih =>
    rw [List.foldl_cons, ih, hg, List.filterMap_cons]
    cases f x <;> simp

theorem setLast_append_singleton {α : Type} (l : List α) (x : α) (f : α → α) :
    setLast (l ++ [x]) f = l ++ [f x] := by
  simp [setLast]

theorem clangLine_eq (sev0 : Severity) (tool : Str) (st : ClangState) (line f n k t : Str)
    (h : matchClangR1 line = some (f, n, k, t)) :
    clangLine sev0 tool st line =
      let item := if k ≠ "note".toList then ErrorItem.fresh sev0 else st.errorItem
      let sev :=
        if k = "warning".toList then Severity.warning
        else if k = "error".toList ∨ k = "fatal error".toList then Severity.error
        else item.severity
      let mi := clangMessageId tool t
      { errorItems := if k ≠ "note".toList then st.errorItems ++ [st.errorItem] else st.errorItems,
        errorItem :=
          { severity := sev,
            message := if item.errorPath = [] then mi.1 else item.message,
            errorId := if item.errorPath = [] then mi.2 else item.errorId,
            errorPath := item.errorPath ++ [{ file := f, line := (toInt n).toNat, info := mi.1 }] } } := by
  simp only [clangLine, h, clangMessageId]
  generalize "note".toList = kn
  generalize "warning".toList = kw
  generalize "error".toList = ke
  generalize "fatal error".toList = kf
  by_cases hk : k = kn
  · by_cases hp : st.errorItem.errorPath = []
    · simp [hk, hp, setLast]
    · simp [hk, hp, setLast_append_singleton]
  · simp [hk, ErrorItem.fresh, setLast]

theorem dropWhile_eq_self {α : Type} (p : α → Bool) (l : List α) (h : ∀ c ∈ l, p c = false) :
    l.dropWhile p = l := by
  cases l with
  | nil => rfl
  | cons a as => rw [List.dropWhile_cons, h a (by simp)]; simp

theorem isSpace_of_isDigit (c : Char) (h : isDigit c = true) : isSpace c = false := by
  cases hs : isSpace c with
  | false => rfl
  | true =>
    simp only [isSpace, Bool.or_eq_true, beq_iff_eq] at hs
    rcases hs with ((((rfl | rfl) | rfl) | rfl) | rfl) | rfl <;> exact absurd h (by decide)

theorem trimmed_digits (n : Str) (h : ∀ c ∈ n, isDigit c = true) : trimmed n = n := by
  unfold trimmed
  rw [dropWhile_eq_self isSpace n (fun c hc => isSpace_of_isDigit c (h c hc))]
  rw [dropWhile_eq_self isSpace n.reverse
    (fun c hc => isSpace_of_isDigit c (h c (List.mem_reverse.mp hc)))]
  exact List.reverse_reverse n

theorem toInt_digits (n : Str) (hn : isNumber n = true) (hv : decimalValue n ≤ INT_MAX) :
    toInt n = (decimalValue n : Int) := by
  have hd : ∀ c ∈ n, isDigit c = true := by
    simp only [isNumber, Bool.and_eq_true, List.all_eq_true] at hn
    exact hn.2
  unfold toInt
  rw [trimmed_digits n hd]
  split
  · rename_i ds
    exact absurd (hd '-' (by simp)) (by decide)
  · rename_i ds
    exact absurd (hd '+' (by simp)) (by decide)
  · simp [hn, hv]

/-! ## Lemmas on the lines of a text -/

theorem stripCR_append_cr (l : Str) : stripCR (l ++ ['\r']) = l := by
  simp [stripCR]

theorem stripCR_of_no_cr (l : Str) (h : l.getLast? ≠ some '\r') : stripCR l = l := by
  simp [stripCR, h]

theorem readLinesFrom_append (l : Str) (hl : '\n' ∉ l) :
    ∀ (cur tail : Str), readLinesFrom cur (l ++ tail) = readLinesFrom (cur ++ l) tail := by
  induction l with
  | nil => intro cur tail; simp
  | cons c cs ih =>
    intro cur tail
    have hc : c ≠ '\n' := fun h => hl (by rw [h]; simp)
    have hcs : '\n' ∉ cs := fun h => hl (List.mem_cons_of_mem _ h)
    rw [List.cons_append, readLinesFrom, if_neg hc, ih hcs]
    simp

/-- The lines that the loop `while (!in.atEnd()) line = in.readLine()` hands out are the lines
of the text. -/
theorem readLines_of_lines (err : Str) (ls : List Str) (h : Lines err ls) :
    readLines err = ls := by
  unfold readLines
  induction h with
  | nil => rfl
  | last l hn hne hcr =>
    have h := readLinesFrom_append l hn [] []
    rw [List.append_nil, List.nil_append] at h
    rw [h, readLinesFrom]
    cases l with
    | nil => exact absurd rfl hne
    | cons a as => simp [stripCR_of_no_cr _ hcr]
  | lastCR l hn =>
    have hn2 : '\n' ∉ l ++ ['\r'] := by
      intro h
      rcases List.mem_append.mp h with h | h
      · exact hn h
      · simp at h
    have h := readLinesFrom_append (l ++ ['\r']) hn2 [] []
    rw [List.append_nil, List.nil_append] at h
    rw [h, readLinesFrom, stripCR_append_cr]
    simp
  | lf l rest ls hn hcr _ ih =>
    rw [readLinesFrom_append l hn, List.nil_append, readLinesFrom, if_pos rfl,
      stripCR_of_no_cr l hcr, ih]
  | crlf l rest ls hn _ ih =>
    have hn2 : '\n' ∉ l ++ ['\r'] := by
      intro h
      rcases List.mem_append.mp h with h | h
      · exact hn h
      · simp at h
    have e : l ++ '\r' :: '\n' :: rest = (l ++ ['\r']) ++ '\n' :: rest := by simp
    rw [e, readLinesFrom_append _ hn2, List.nil_append, readLinesFrom, if_pos rfl,
      stripCR_append_cr, ih]

theorem getLast_cr_split (l : Str) (h : l.getLast? = some '\r') : ∃ l0, l = l0 ++ ['\r'] := by
  refine ⟨l.dropLast, ?_⟩
  have hne : l ≠ [] := by
    intro h0
    rw [h0] at h
    simp at h
  have h2 := List.dropLast_append_getLast hne
  rw [List.getLast?_eq_getLast _ hne] at h
  rw [← Option.some.inj h]
  exact h2.symm

theorem lines_readLinesFrom (s : Str) :
    ∀ cur : Str, '\n' ∉ cur → Lines (cur ++ s) (readLinesFrom cur s) := by
  induction s with
  | nil =>
    intro cur hcur
    rw [List.append_nil, readLinesFrom]
    cases hc : cur with
    | nil => exact Lines.nil
    | cons a as =>
      rw [← hc]
      have hne : cur ≠ [] := by rw [hc]; simp
      have hem : cur.isEmpty = false := by rw [hc]; rfl
      rw [hem]
      simp only [Bool.false_eq_true, if_false]
      by_cases hcr : cur.getLast? = some '\r'
      · obtain ⟨l0, hl0⟩ := getLast_cr_split cur hcr
        rw [hl0, stripCR_append_cr]
        refine Lines.lastCR l0 ?_
        intro h
        exact hcur (by rw [hl0]; exact List.mem_append_left _ h)
      · rw [stripCR_of_no_cr cur hcr]
        exact Lines.last cur hcur hne hcr
  | cons c rest ih =>
    intro cur hcur
    rw [readLinesFrom]
    by_cases hc : c = '\n'
    · rw [if_pos hc, hc]
      have hrest := ih [] (by simp)
      rw [List.nil_append] at hrest
      by_cases hcr : cur.getLast? = some '\r'
      · obtain ⟨l0, hl0⟩ := getLast_cr_split cur hcr
        rw [hl0, stripCR_append_cr]
        have e : l0 ++ ['\r'] ++ '\n' :: rest = l0 ++ '\r' :: '\n' :: rest := by simp
        rw [e]
        refine Lines.crlf l0 rest _ ?_ hrest
        intro h
        exact hcur (by rw [hl0]; exact List.mem_append_left _ h)
      · rw [stripCR_of_no_cr cur hcr]
        exact Lines.lf cur rest _ hcur hcr hrest
    · rw [if_neg hc]
      have h := ih (cur ++ [c]) (by
        intro h
        rcases List.mem_append.mp h with h | h
        · exact hcur h
        · simp at h
          exact hc h.symm)
      have e : cur ++ [c] ++ rest = cur ++ c :: rest := by simp
      rw [e] at h
      exact h

/-- Every text has its lines, and they are those the loop hands out. -/
theorem lines_readLines (err : Str) : Lines err (readLines err) := by
  have h := lines_readLinesFrom err [] (by simp)
  rw [List.nil_append] at h
  exact h

theorem lines_iff (err : Str) (ls : List Str) : Lines err ls ↔ readLines err = ls :=
  ⟨readLines_of_lines err ls, fun h => by rw [← h]; exact lines_readLines err⟩

/-! ## Lemmas on the compiler-diagnostic grammar -/

theorem stripLit_eq_some_iff (lit s t : Str) : stripLit lit s = some t ↔ s = lit ++ t := by
  unfold stripLit
  constructor
  · intro h
    split at h
    · rename_i hp
      obtain ⟨r, hr⟩ := List.isPrefixOf_iff_prefix.mp hp
      rw [← hr] at h
      simp only [Option.some.injEq, List.drop_left] at h
      rw [← hr, h]
    · exact absurd h (by simp)
  · intro h
    have hp : lit.isPrefixOf s = true := List.isPrefixOf_iff_prefix.mpr ⟨t, h.symm⟩
    rw [if_pos hp, h, List.drop_left]

theorem stripLit_eq_none_of_head (lit s : Str) (a b : Char) (l0 s0 : Str) (hl : lit = a :: l0)
    (hs : s = b :: s0) (hab : a ≠ b) : stripLit lit s = none := by
  unfold stripLit
  rw [hl, hs]
  simp [List.isPrefixOf, hab]

theorem matchKind_of_grammar (k t : Str) (hk : IsKind k) :
    matchKind (k ++ ':' :: ' ' :: t) = some (k, t) := by
  unfold matchKind
  rcases hk with rfl | rfl | rfl | rfl
  · have h : stripLit "note: ".toList ("note".toList ++ ':' :: ' ' :: t) = some t :=
      (stripLit_eq_some_iff _ _ _).mpr rfl
    rw [h]
  · have h0 : stripLit "note: ".toList ("warning".toList ++ ':' :: ' ' :: t) = none :=
      stripLit_eq_none_of_head _ _ 'n' 'w' _ _ rfl rfl (by decide)
    have h : stripLit "warning: ".toList ("warning".toList ++ ':' :: ' ' :: t) = some t :=
      (stripLit_eq_some_iff _ _ _).mpr rfl
    rw [h0, h]
  · have h0 : stripLit "note: ".toList ("error".toList ++ ':' :: ' ' :: t) = none :=
      stripLit_eq_none_of_head _ _ 'n' 'e' _ _ rfl rfl (by decide)
    have h1 : stripLit "warning: ".toList ("error".toList ++ ':' :: ' ' :: t) = none :=
      stripLit_eq_none_of_head _ _ 'w' 'e' _ _ rfl rfl (by decide)
    have h : stripLit "error: ".toList ("error".toList ++ ':' :: ' ' :: t) = some t :=
      (stripLit_eq_some_iff _ _ _).mpr rfl
    rw [h0, h1, h]
  · have h0 : stripLit "note: ".toList ("fatal error".toList ++ ':' :: ' ' :: t) = none :=
      stripLit_eq_none_of_head _ _ 'n' 'f' _ _ rfl rfl (by decide)
    have h1 : stripLit "warning: ".toList ("fatal error".toList ++ ':' :: ' ' :: t) = none :=
      stripLit_eq_none_of_head _ _ 'w' 'f' _ _ rfl rfl (by decide)
    have h2 : stripLit "error: ".toList ("fatal error".toList ++ ':' :: ' ' :: t) = none :=
      stripLit_eq_none_of_head _ _ 'e' 'f' _ _ rfl rfl (by decide)
    have h : stripLit "fatal error: ".toList ("fatal error".toList ++ ':' :: ' ' :: t) = some t :=
      (stripLit_eq_some_iff _ _ _).mpr rfl
    rw [h0, h1, h2, h]

theorem grammar_of_matchKind (s k t : Str) (h : matchKind s = some (k, t)) :
    IsKind k ∧ s = k ++ ':' :: ' ' :: t := by
  unfold matchKind at h
  split at h
  · rename_i t0 h0
    simp only [Option.some.injEq, Prod.mk.injEq] at h
    obtain ⟨rfl, rfl⟩ := h
    exact ⟨Or.inl rfl, (stripLit_eq_some_iff "note: ".toList _ _).mp h0⟩
  · split at h
    · rename_i t0 h0
      simp only [Option.some.injEq, Prod.mk.injEq] at h
      obtain ⟨rfl, rfl⟩ := h
      exact ⟨Or.inr (Or.inl rfl), (stripLit_eq_some_iff "warning: ".toList _ _).mp h0⟩
    · split at h
      · rename_i t0 h0
        simp only [Option.some.injEq, Prod.mk.injEq] at h
        obtain ⟨rfl, rfl⟩ := h
        exact ⟨Or.inr (Or.inr (Or.inl rfl)), (stripLit_eq_some_iff "error: ".toList _ _).mp h0⟩
      · split at h
        · rename_i t0 h0
          simp only [Option.some.injEq, Prod.mk.injEq] at h
          obtain ⟨rfl, rfl⟩ := h
          exact ⟨Or.inr (Or.inr (Or.inr rfl)), (stripLit_eq_some_iff "fatal error: ".toList _ _).mp h0⟩
        · exact absurd h (by simp)

theorem isDigit_colon : isDigit ':' = false := by decide

theorem matchClangTail_of_grammar (s num col kind text : Str)
    (h : ClangTail s num col kind text) : matchClangTail s = some (num, kind, text) := by
  obtain ⟨rfl, hn, hnd, hc, hcd, hk⟩ := h
  have h1 := takeWhile_append_stop isDigit num
    (col ++ ':' :: ' ' :: (kind ++ ':' :: ' ' :: text)) ':' hnd isDigit_colon
  have h2 := dropWhile_append_stop isDigit num
    (col ++ ':' :: ' ' :: (kind ++ ':' :: ' ' :: text)) ':' hnd isDigit_colon
  have h3 := takeWhile_append_stop isDigit col
    (' ' :: (kind ++ ':' :: ' ' :: text)) ':' hcd isDigit_colon
  have h4 := dropWhile_append_stop isDigit col
    (' ' :: (kind ++ ':' :: ' ' :: text)) ':' hcd isDigit_colon
  simp only [matchClangTail, h1, h2, h3, h4, matchKind_of_grammar kind text hk]
  cases num with
  | nil => exact absurd rfl hn
  | cons a as =>
    cases col with
    | nil => exact absurd rfl hc
    | cons b bs => simp

theorem grammar_of_matchClangTail (s num kind text : Str)
    (h : matchClangTail s = some (num, kind, text)) : ∃ col, ClangTail s num col kind text := by
  unfold matchClangTail at h
  split at h
  · rename_i s1
    split at h
    · rename_i s2 hs2
      split at h
      · rename_i s3 hs3
        split at h
        · exact absurd h (by simp)
        · rename_i hne
          simp only [Bool.or_eq_true, not_or, Bool.not_eq_true, List.isEmpty_eq_false] at hne
          cases hm : matchKind s3 with
          | none =>
            rw [hm] at h
            exact absurd h (by simp)
          | some kt =>
            obtain ⟨k0, t0⟩ := kt
            rw [hm] at h
            simp only [Option.map_some', Option.some.injEq, Prod.mk.injEq] at h
            obtain ⟨h1, h2, h3⟩ := h
            subst h2 h3
            obtain ⟨hk, hs⟩ := grammar_of_matchKind s3 _ _ hm
            have e1 := List.takeWhile_append_dropWhile isDigit s1
            have e2 := List.takeWhile_append_dropWhile isDigit s2
            rw [hs2, h1] at e1
            rw [hs3] at e2
            refine ⟨s2.takeWhile isDigit, ?_, ?_, ?_, ?_, ?_, hk⟩
            · rw [← hs, e2, e1]
            · rw [← h1]; intro hx; simp [hx] at hne
            · rw [← h1]; exact takeWhile_all _ _
            · intro hx; simp [hx] at hne
            · exact takeWhile_all _ _
      · exact absurd h (by simp)
    · exact absurd h (by simp)
  · exact absurd h (by simp)

theorem matchClangR1_readings (line : Str) :
    (matchClangR1 line = none →
      ∀ f s, f ≠ [] → line = f ++ s → matchClangTail s = none) ∧
    (∀ f r, matchClangR1 line = some (f, r) →
      f ≠ [] ∧ (∃ s, line = f ++ s ∧ matchClangTail s = some r) ∧
      ∀ f2 s2, f2 ≠ [] → line = f2 ++ s2 → matchClangTail s2 ≠ none → f2.length ≤ f.length) := by
  induction line with
  | nil =>
    refine ⟨?_, ?_⟩
    · intro _ f s hf h
      cases f with
      | nil => exact absurd rfl hf
      | cons a as => simp at h
    · intro f r h
      simp [matchClangR1] at h
  | cons c cs ih =>
    obtain ⟨ihn, ihs⟩ := ih
    cases hm : matchClangR1 cs with
    | some p =>
      obtain ⟨f0, r0⟩ := p
      obtain ⟨_, ⟨s0, hs0, ht0⟩, hmax⟩ := ihs f0 r0 hm
      have hval : matchClangR1 (c :: cs) = some (c :: f0, r0) := by
        rw [matchClangR1, hm]
      refine ⟨?_, ?_⟩
      · intro h
        rw [hval] at h
        exact absurd h (by simp)
      · intro f r h
        rw [hval] at h
        simp only [Option.some.injEq, Prod.mk.injEq] at h
        obtain ⟨rfl, rfl⟩ := h
        refine ⟨by simp, ⟨s0, by rw [hs0]; rfl, ht0⟩, ?_⟩
        intro f2 s2 hf2 hl ht
        cases f2 with
        | nil => exact absurd rfl hf2
        | cons a as =>
          simp only [List.cons_append, List.cons.injEq] at hl
          cases as with
          | nil => simp
          | cons b bs =>
            have := hmax (b :: bs) s2 (by simp) hl.2 ht
            simp only [List.length_cons] at this ⊢
            omega
    | none =>
      have hval : matchClangR1 (c :: cs) = (matchClangTail cs).map (fun r => ([c], r)) := by
        rw [matchClangR1, hm]
      refine ⟨?_, ?_⟩
      · intro h f s hf hl
        rw [hval] at h
        cases f with
        | nil => exact absurd rfl hf
        | cons a as =>
          simp only [List.cons_append, List.cons.injEq] at hl
          cases as with
          | nil =>
            simp only [List.nil_append] at hl
            rw [← hl.2]
            cases ht : matchClangTail cs with
            | none => rfl
            | some r =>
              rw [ht] at h
              exact absurd h (by simp)
          | cons b bs => exact ihn hm (b :: bs) s (by simp) hl.2
      · intro f r h
        rw [hval] at h
        cases ht : matchClangTail cs with
        | none =>
          rw [ht] at h
          exact absurd h (by simp)
        | some r1 =>
          rw [ht] at h
          simp only [Option.map_some', Option.some.injEq, Prod.mk.injEq] at h
          obtain ⟨rfl, rfl⟩ := h
          refine ⟨by simp, ⟨cs, rfl, ht⟩, ?_⟩
          intro f2 s2 hf2 hl hne
          cases f2 with
          | nil => exact absurd rfl hf2
          | cons a as =>
            simp only [List.cons_append, List.cons.injEq] at hl
            cases as with
            | nil => simp
            | cons b bs => exact absurd (ihn hm (b :: bs) s2 (by simp) hl.2) hne

/-- The first regular expression of `parseClangErrors` matches a line exactly when the line
reads `<file>:<line>:<col>: <kind>: <text>`, and its captures are those of the reading with the
longest file part. -/
theorem matchClangR1_iff (line f n k t : Str) :
    matchClangR1 line = some (f, n, k, t) ↔ ClangMatch line f n k t := by
  obtain ⟨hnone, hsome⟩ := matchClangR1_readings line
  constructor
  · intro h
    obtain ⟨hf, ⟨s, hl, ht⟩, hmax⟩ := hsome f (n, k, t) h
    obtain ⟨col, hcol⟩ := grammar_of_matchClangTail s n k t ht
    refine ⟨⟨col, hf, s, hl, hcol⟩, ?_⟩
    intro f2 n2 c2 k2 t2 ⟨hf2, s2, hl2, ht2⟩
    refine hmax f2 s2 hf2 hl2 ?_
    rw [matchClangTail_of_grammar s2 n2 c2 k2 t2 ht2]
    simp
  · intro ⟨⟨col, hf, s, hl, ht⟩, hmax⟩
    have hts := matchClangTail_of_grammar s n col k t ht
    cases hm : matchClangR1 line with
    | none =>
      have := hnone hm f s hf hl
      rw [hts] at this
      exact absurd this (by simp)
    | some p =>
      obtain ⟨f0, r0⟩ := p
      obtain ⟨hf0, ⟨s0, hl0, ht0⟩, hmax0⟩ := hsome f0 r0 hm
      obtain ⟨n0, k0, t0⟩ := r0
      obtain ⟨col0, hcol0⟩ := grammar_of_matchClangTail s0 n0 k0 t0 ht0
      have h1 : f0.length ≤ f.length := hmax f0 n0 col0 k0 t0 ⟨hf0, s0, hl0, hcol0⟩
      have h2 : f.length ≤ f0.length := hmax0 f s hf hl (by rw [hts]; simp)
      have hlen : f.length = f0.length := by omega
      have heq : f ++ s = f0 ++ s0 := by rw [← hl, ← hl0]
      obtain ⟨e1, e2⟩ := List.append_inj heq hlen
      subst e1 e2
      rw [hts] at ht0
      simp only [Option.some.injEq, Prod.mk.injEq] at ht0
      obtain ⟨rfl, rfl, rfl⟩ := ht0
      rfl

theorem matchClangR1_none_iff (line : Str) : matchClangR1 line = none ↔ NoClangLine line := by
  obtain ⟨hnone, hsome⟩ := matchClangR1_readings line
  constructor
  · intro h ⟨f, n, c, k, t, hf, s, hl, ht⟩
    have := hnone h f s hf hl
    rw [matchClangTail_of_grammar s n c k t ht] at this
    exact absurd this (by simp)
  · intro h
    cases hm : matchClangR1 line with
    | none => rfl
    | some p =>
      obtain ⟨f0, n0, k0, t0⟩ := p
      obtain ⟨⟨col, hcl⟩, _⟩ := (matchClangR1_iff line f0 n0 k0 t0).mp hm
      exact absurd ⟨f0, n0, col, k0, t0, hcl⟩ h

/-! ## Lemmas on line numbers, messages and kinds -/

theorem toInt_digits_lineNumber (n : Str) (hne : n ≠ []) (hd : ∀ c ∈ n, isDigit c = true) :
    (toInt n).toNat = lineNumber n := by
  have hnum : isNumber n = true := by
    cases n with
    | nil => exact absurd rfl hne
    | cons a as =>
      simp only [isNumber, List.isEmpty_cons, Bool.not_false, Bool.true_and, List.all_eq_true]
      exact hd
  unfold lineNumber
  by_cases hv : decimalValue n ≤ INT_MAX
  · rw [if_pos hv, toInt_digits n hnum hv]
    simp
  · rw [if_neg hv]
    unfold toInt
    rw [trimmed_digits n hd]
    split
    · rename_i ds
      exact absurd (hd '-' (by simp)) (by decide)
    · rename_i ds
      exact absurd (hd '+' (by simp)) (by decide)
    · simp [hnum, hv]

theorem clangMatch_digits (line f n k t : Str) (h : ClangMatch line f n k t) :
    n ≠ [] ∧ ∀ c ∈ n, isDigit c = true := by
  obtain ⟨⟨col, _, s, _, _, hn, hd, _⟩, _⟩ := h
  exact ⟨hn, hd⟩

theorem clangMessageId_iff (tool text msg id : Str) :
    clangMessageId tool text = (msg, id) ↔ ClangMessageId tool text msg id := by
  unfold clangMessageId
  constructor
  · intro h
    cases hm : matchR2 text with
    | none =>
      rw [hm] at h
      simp only [Prod.mk.injEq] at h
      refine Or.inr ⟨?_, h.1.symm, h.2.symm⟩
      intro ⟨m, i, hti⟩
      rw [(matchR2_eq_some_iff text m i).mpr hti] at hm
      exact absurd hm (by simp)
    | some p =>
      obtain ⟨m, i⟩ := p
      rw [hm] at h
      simp only [Prod.mk.injEq] at h
      obtain ⟨rfl, rfl⟩ := h
      exact Or.inl ⟨i, (matchR2_eq_some_iff text m i).mp hm, rfl⟩
  · intro h
    rcases h with ⟨i, hti, rfl⟩ | ⟨hno, rfl, rfl⟩
    · rw [(matchR2_eq_some_iff text msg i).mpr hti]
    · cases hm : matchR2 msg with
      | none => rfl
      | some p =>
        obtain ⟨m, i⟩ := p
        exact absurd ⟨m, i, (matchR2_eq_some_iff msg m i).mp hm⟩ hno

theorem lineKind_of_match (l f n k t : Str) (h : ClangMatch l f n k t) : lineKind l = some k := by
  unfold lineKind
  rw [(matchClangR1_iff l f n k t).mpr h]
  rfl

theorem lineKind_of_noClangLine (l : Str) (h : NoClangLine l) : lineKind l = none := by
  unfold lineKind
  rw [(matchClangR1_none_iff l).mpr h]
  rfl

theorem kindsOf_eq (ls ks : List Str) (h : KindsOf ls ks) : ls.filterMap lineKind = ks := by
  induction h with
  | nil => rfl
  | skip l ls ks hno _ ih =>
    rw [List.filterMap_cons, lineKind_of_noClangLine l hno]
    exact ih
  | take l f n k t ls ks hm _ ih =>
    rw [List.filterMap_cons, lineKind_of_match l f n k t hm, ih]

/-- Every list of lines has its kinds. -/
theorem kindsOf_filterMap (ls : List Str) : KindsOf ls (ls.filterMap lineKind) := by
  induction ls with
  | nil => exact KindsOf.nil
  | cons l rest ih =>
    rw [List.filterMap_cons]
    cases hm : matchClangR1 l with
    | none =>
      have hk : lineKind l = none := by unfold lineKind; rw [hm]; rfl
      rw [hk]
      exact KindsOf.skip l rest _ ((matchClangR1_none_iff l).mp hm) ih
    | some p =>
      obtain ⟨f, n, k, t⟩ := p
      have hk : lineKind l = some k := by unfold lineKind; rw [hm]; rfl
      rw [hk]
      exact KindsOf.take l f n k t rest _ ((matchClangR1_iff l f n k t).mp hm) ih

/-! ## Claims on the parsers -/

/-- C1: for every tool name and requested file, the single line
`foo.cpp:10:3: warning: unused variable 'x' [unused-var]` gives exactly one record: severity
warning, message `unused variable 'x' ` with its trailing space, identifier
`<tool>-unused-var`, one location step (foo.cpp, line 10), attributed to the requested file. -/
theorem parseClangErrors_single_warning (sev0 : Severity) (tool file0 : Str) :
    parseClangErrors sev0 tool file0
        "foo.cpp:10:3: warning: unused variable 'x' [unused-var]".toList =
      [{ callStack := [{ file := "foo.cpp".toList, info := "unused variable 'x' ".toList,
                         line := 10 }],
         file0 := file0, severity := Severity.warning, msg := "unused variable 'x' ".toList,
         id := tool ++ "-unused-var".toList, inconclusive := false }] := by
  rfl

/-- C2, as the code has it: when the text consists of one `warning:` line followed by two
`note:` lines, each reading `<file>:<line>:<col>: <kind>: <text>`, exactly one record is
reported; its call stack has the three location steps in input order, each with the file and
the message of its own line and with the line number of its own line when that number fits an
`int`, 0 otherwise; the severity of the record is warning. -/
theorem parseClangErrors_note_chaining (sev0 : Severity) (tool file0 err : Str)
    (l1 l2 l3 f1 n1 t1 m1 i1 f2 n2 t2 m2 i2 f3 n3 t3 m3 i3 : Str)
    (hlines : Lines err [l1, l2, l3])
    (h1 : ClangMatch l1 f1 n1 "warning".toList t1)
    (h2 : ClangMatch l2 f2 n2 "note".toList t2)
    (h3 : ClangMatch l3 f3 n3 "note".toList t3)
    (hm1 : ClangMessageId tool t1 m1 i1) (hm2 : ClangMessageId tool t2 m2 i2)
    (hm3 : ClangMessageId tool t3 m3 i3) :
    parseClangErrors sev0 tool file0 err =
      [{ callStack :=
           [{ file := f1, info := m1, line := lineNumber n1 },
            { file := f2, info := m2, line := lineNumber n2 },
            { file := f3, info := m3, line := lineNumber n3 }],
         file0 := file0, severity := Severity.warning, msg := m1, id := i1,
         inconclusive := false }] := by
  have e1 := (clangMessageId_iff tool t1 m1 i1).mpr hm1
  have e2 := (clangMessageId_iff tool t2 m2 i2).mpr hm2
  have e3 := (clangMessageId_iff tool t3 m3 i3).mpr hm3
  obtain ⟨d1, d1'⟩ := clangMatch_digits l1 f1 n1 _ t1 h1
  obtain ⟨d2, d2'⟩ := clangMatch_digits l2 f2 n2 _ t2 h2
  obtain ⟨d3, d3'⟩ := clangMatch_digits l3 f3 n3 _ t3 h3
  rw [← toInt_digits_lineNumber n1 d1 d1', ← toInt_digits_lineNumber n2 d2 d2',
    ← toInt_digits_lineNumber n3 d3 d3']
  unfold parseClangErrors
  rw [readLines_of_lines err _ hlines]
  simp only [List.foldl_cons, List.foldl_nil]
  rw [clangLine_eq sev0 tool _ l1 f1 n1 _ t1 ((matchClangR1_iff _ _ _ _ _).mpr h1)]
  rw [clangLine_eq sev0 tool _ l2 f2 n2 _ t2 ((matchClangR1_iff _ _ _ _ _).mpr h2)]
  rw [clangLine_eq sev0 tool _ l3 f3 n3 _ t3 ((matchClangR1_iff _ _ _ _ _).mpr h3)]
  rw [e1, e2, e3]
  have hwn : "warning".toList ≠ "note".toList := by decide
  have hnw : "note".toList ≠ "warning".toList := by decide
  have hne : "note".toList ≠ "error".toList := by decide
  have hnf : "note".toList ≠ "fatal error".toList := by decide
  simp [hwn, hnw, hne, hnf, ErrorItem.fresh]

/-- Witness of C2 as amended: the theorem at a warning with two notes. -/
theorem parseClangErrors_note_chaining_witness :
    parseClangErrors Severity.none "clang".toList "main.c".toList
        "a.c:3:1: warning: leak [core.mem]\na.h:7:2: note: allocated here\r\nb.h:9:4: note: lost here".toList =
      [{ callStack :=
           [{ file := "a.c".toList, info := "leak ".toList, line := 3 },
            { file := "a.h".toList, info := "allocated here".toList,
              line := 7 },
            { file := "b.h".toList, info := "lost here".toList, line := 9 }],
         file0 := "main.c".toList, severity := Severity.warning, msg := "leak ".toList,
         id := "clang-core.mem".toList, inconclusive := false }] :=
  parseClangErrors_note_chaining Severity.none "clang".toList "main.c".toList _
    "a.c:3:1: warning: leak [core.mem]".toList "a.h:7:2: note: allocated here".toList
    "b.h:9:4: note: lost here".toList
    "a.c".toList "3".toList "leak [core.mem]".toList "leak ".toList "clang-core.mem".toList
    "a.h".toList "7".toList "allocated here".toList "allocated here".toList "clang".toList
    "b.h".toList "9".toList "lost here".toList "lost here".toList "clang".toList
    ((lines_iff _ _).mpr rfl)
    ((matchClangR1_iff _ _ _ _ _).mp rfl) ((matchClangR1_iff _ _ _ _ _).mp rfl)
    ((matchClangR1_iff _ _ _ _ _).mp rfl)
    ((clangMessageId_iff _ _ _ _).mp rfl) ((clangMessageId_iff _ _ _ _).mp rfl)
    ((clangMessageId_iff _ _ _ _).mp rfl)

/-- C2 fails as stated: the warning line names line 99999999999, which no `int` holds, and
the first location step carries line 0. -/
theorem parseClangErrors_line_overflow :
    decimalValue "99999999999".toList = 99999999999 ∧
    parseClangErrors Severity.none "clang".toList "main.c".toList
        "a.c:99999999999:1: warning: leak\na.h:7:2: note: allocated here\nb.h:9:4: note: lost here".toList =
      [{ callStack :=
           [{ file := "a.c".toList, info := "leak".toList, line := 0 },
            { file := "a.h".toList, info := "allocated here".toList, line := 7 },
            { file := "b.h".toList, info := "lost here".toList, line := 9 }],
         file0 := "main.c".toList, severity := Severity.warning, msg := "leak".toList,
         id := "clang".toList, inconclusive := false }] := by
  exact ⟨by decide, rfl⟩

/-- C3, evaluated on two diagnostics: both records carry the message, identifier and severity
of the last diagnostic; the first record's own first step reads `first `, from a warning. -/
theorem parseClangErrors_two_records (sev0 : Severity) (tool file0 : Str) :
    parseClangErrors sev0 tool file0
        "a.c:1:1: warning: first [x]\nb.c:2:2: error: second [y]".toList =
      [{ callStack := [{ file := "a.c".toList, info := "first ".toList, line := 1 }],
         file0 := file0, severity := Severity.error, msg := "second ".toList,
         id := tool ++ "-y".toList, inconclusive := false },
       { callStack := [{ file := "b.c".toList, info := "second ".toList, line := 2 }],
         file0 := file0, severity := Severity.error, msg := "second ".toList,
         id := tool ++ "-y".toList, inconclusive := false }] := by
  rfl

theorem hasSubstr_of_infix (needle a b : Str) : hasSubstr needle (a ++ (needle ++ b)) = true := by
  induction a with
  | nil =>
    cases hnb : needle ++ b with
    | nil =>
      have : needle = [] := (List.append_eq_nil.mp hnb).1
      subst this
      simp [hasSubstr]
    | cons x xs =>
      rw [List.nil_append]
      unfold hasSubstr
      rw [← hnb]
      simp
  | cons x xs ih =>
    rw [List.cons_append]
    unfold hasSubstr
    rw [ih]
    simp

theorem writeFile_settings (e : Env) (p s : Str) (w : World) :
    (writeFile e p s w).settings = w.settings := by
  unfold writeFile; split <;> rfl

theorem removeFile_settings (e : Env) (p : Str) (w : World) :
    (removeFile e p w).settings = w.settings := by
  unfold removeFile; split <;> rfl

theorem fullRun_settings (e : Env) (c : Config) (addon fileName : Str) (args : List Str)
    (info : Str) (w : World) : (fullRun e c addon fileName args info w).settings = w.settings := by
  unfold fullRun callParseClangErrors World.emit
  by_cases h : info.isEmpty = true <;> simp [h, writeFile_settings]

theorem memoize_settings (e : Env) (c : Config) (addon fileName : Str) (args : List Str)
    (info : Str) (w : World) :
    ∃ w1, w1.settings = w.settings ∧
      (memoize e c addon fileName args info w = Memo.replayed w1 ∨
       memoize e c addon fileName args info w = Memo.fullRun w1) := by
  unfold memoize
  simp only
  cases storedResults _ _ _ _ with
  | none => exact ⟨_, by simp [removeFile_settings, writeFile_settings, World.emit], Or.inr rfl⟩
  | some r => exact ⟨_, by simp [callParseClangErrors, World.emit], Or.inl rfl⟩

theorem runClangAddon_settings (e : Env) (c : Config) (addon : Str) (fso : Option FileSettings)
    (fileName : Str) (w : World) :
    (runClangAddon e c addon fso fileName w).settings = w.settings := by
  unfold runClangAddon
  cases fso with
  | none => rfl
  | some fs =>
    simp only
    split
    · rfl
    · split
      · obtain ⟨w1, hs, hm | hm⟩ := memoize_settings e c addon fileName (buildArgs e c fs fileName)
          (e.getAnalyzerInfoFile w.settings.buildDir fs.filename fs.cfg) w
        · rw [hm]; exact hs
        · rw [hm]; simp only; rw [fullRun_settings]; exact hs
      · exact fullRun_settings _ _ _ _ _ _ _
theorem runClangAddon_skipped (e : Env) (c : Config) (addon : Str) (fso : Option FileSettings)
    (fileName : Str) (w : World)
    (h : fso = none ∨ ∃ fs a b, fso = some fs ∧ fs.cfg = a ++ ("Debug".toList ++ b)) :
    runClangAddon e c addon fso fileName w = w := by
  rcases h with rfl | ⟨fs, a, b, rfl, hcfg⟩
  · rfl
  · have h1 : hasSubstr "Debug".toList fs.cfg = true := by
      rw [hcfg]; exact hasSubstr_of_infix _ a b
    have h2 : fs.cfg.isEmpty = false := by
      rw [hcfg]; cases a <;> rfl
    unfold runClangAddon
    simp only [h1, h2, Bool.not_false, Bool.and_self, if_true]

theorem dumpStep_log (e : Env) (fso : Option FileSettings) (fileName : Str) (w : World) :
    ∃ t s, (dumpStep e fso fileName w).2.log = w.log ++ [Event.check t s] ∧
      (dumpStep e fso fileName w).2.files = w.files :=
  ⟨_, _, rfl, rfl⟩

theorem dumpStep_settings (e : Env) (fso : Option FileSettings) (fileName : Str) (w : World) :
    (dumpStep e fso fileName w).2.settings =
      { buildDir := w.settings.buildDir, dump := false, dumpFile := [] } := by
  unfold dumpStep
  by_cases h : w.settings.buildDir.isEmpty = true <;> simp [h]

theorem dumpStep_name (e : Env) (fso : Option FileSettings) (fileName : Str) (w : World) :
    (dumpStep e fso fileName w).1 ≠ [] := by
  unfold dumpStep
  by_cases h : w.settings.buildDir.isEmpty = true <;> simp [h]

theorem ScriptOnly.refl (w : World) : ScriptOnly w w :=
  ⟨[], by simp, by simp, rfl⟩

theorem ScriptOnly.trans {w1 w2 w3 : World} (h12 : ScriptOnly w1 w2) (h23 : ScriptOnly w2 w3) :
    ScriptOnly w1 w3 := by
  obtain ⟨n1, hl1, hok1, hf1⟩ := h12
  obtain ⟨n2, hl2, hok2, hf2⟩ := h23
  refine ⟨n1 ++ n2, by rw [hl2, hl1, List.append_assoc], ?_, by rw [hf2, hf1]⟩
  intro ev hev
  rcases List.mem_append.mp hev with h | h
  · exact hok1 ev h
  · exact hok2 ev h

theorem ScriptOnly.emit (w : World) (ev : Event) (h : ev.ofScriptAddon) :
    ScriptOnly w (w.emit ev) :=
  ⟨[ev], rfl, by simpa using h, rfl⟩

theorem ScriptOnly.callParseAddonErrors (err tool : Str) (w : World) :
    ScriptOnly w (callParseAddonErrors err tool w) := by
  refine ⟨Event.parseAddonErrors err tool :: (parseAddonErrors err tool).map Event.reportErr,
    rfl, ?_, rfl⟩
  intro ev hev
  simp only [List.mem_cons, List.mem_map] at hev
  rcases hev with rfl | ⟨m, hm, rfl⟩
  · trivial
  · exact ⟨_, _, hm⟩

theorem ScriptOnly.dumpStep (e : Env) (fso : Option FileSettings) (fileName : Str) (w : World) :
    ScriptOnly w (dumpStep e fso fileName w).2 := by
  obtain ⟨t, s, hl, hf⟩ := dumpStep_log e fso fileName w
  refine ⟨[Event.check t s], hl, ?_, hf⟩
  intro ev hev
  rw [List.mem_singleton.mp hev]
  trivial

theorem runScriptAddon_effects (e : Env) (addonPath addon : Str) (fso : Option FileSettings)
    (fileName d : Str) (w : World) :
    ScriptOnly w (runScriptAddon e addonPath addon fso fileName d w).2 := by
  unfold runScriptAddon
  simp only
  split
  · exact ScriptOnly.refl w
  · have h1 : ScriptOnly w (if d.isEmpty then dumpStep e fso fileName w else (d, w)).2 := by
      split
      · exact ScriptOnly.dumpStep e fso fileName w
      · exact ScriptOnly.refl w
    exact (h1.trans (ScriptOnly.emit _ (Event.startCommand _) trivial)).trans
      (ScriptOnly.callParseAddonErrors _ _ _)

theorem foldl_runAddon_skipped (e : Env) (c : Config) (addonPath : Str)
    (fso : Option FileSettings) (fileName : Str)
    (h : fso = none ∨ ∃ fs a b, fso = some fs ∧ fs.cfg = a ++ ("Debug".toList ++ b))
    (l : List Str) (st : Str × World) :
    ScriptOnly st.2 (l.foldl (runAddon e c addonPath fso fileName) st).2 := by
  induction l generalizing st with
  | nil => exact ScriptOnly.refl _
  | cons a l ih =>
    rw [List.foldl_cons]
    refine ScriptOnly.trans ?_ (ih (runAddon e c addonPath fso fileName st a))
    unfold runAddon
    split
    · simp only [runClangAddon_skipped e c a fso fileName st.2 h]
      exact ScriptOnly.refl _
    · exact runScriptAddon_effects e addonPath a fso fileName st.1 st.2

/-! ## Claims on runAddons -/

/-- C5: when the work item has no build configuration, or its configuration label contains
`Debug`, `runAddons` causes only effects of script addons: no process is started with a
program and arguments (neither the preprocessor probe nor clang nor clang-tidy), no file is
written or removed, `parseClangErrors` is not called and every reported error comes from
`parseAddonErrors`; the files are as before. -/
theorem runAddons_skips_compiler_tools (e : Env) (c : Config) (addonPath : Str)
    (fileSettings : Option FileSettings) (fileName : Str) (w : World)
    (h : fileSettings = none ∨
      ∃ fs a b, fileSettings = some fs ∧ fs.cfg = a ++ ("Debug".toList ++ b)) :
    ∃ new, (runAddons e c addonPath fileSettings fileName w).log = w.log ++ new ∧
      (∀ ev ∈ new, ev.ofScriptAddon) ∧
      (runAddons e c addonPath fileSettings fileName w).files = w.files :=
  foldl_runAddon_skipped e c addonPath fileSettings fileName h c.mAddons ([], w)
theorem runScriptAddon_not_found (e : Env) (addonPath addon : Str) (fso : Option FileSettings)
    (fileName d : Str) (w : World)
    (h1 : e.fileExists (addonPath ++ '/' :: addon ++ ".py".toList) = false)
    (h2 : e.fileExists (addonPath ++ '/' :: addon ++ '/' :: addon ++ ".py".toList) = false) :
    runScriptAddon e addonPath addon fso fileName d w = (d, w) := by
  unfold runScriptAddon
  simp only [h1, h2, Bool.false_eq_true, if_false]

theorem runAddon_clang (e : Env) (c : Config) (addonPath : Str) (fso : Option FileSettings)
    (fileName : Str) (st : Str × World) (a : Str) (h : a = CLANG ∨ a = CLANGTIDY) :
    runAddon e c addonPath fso fileName st a = (st.1, runClangAddon e c a fso fileName st.2) := by
  unfold runAddon
  rw [if_pos h]

theorem runAddon_script (e : Env) (c : Config) (addonPath : Str) (fso : Option FileSettings)
    (fileName : Str) (st : Str × World) (a : Str) (h : ¬ (a = CLANG ∨ a = CLANGTIDY)) :
    runAddon e c addonPath fso fileName st a =
      runScriptAddon e addonPath a fso fileName st.1 st.2 := by
  unfold runAddon
  rw [if_neg h]

theorem runScriptAddon_dumped (e : Env) (addonPath addon : Str) (fso : Option FileSettings)
    (fileName d : Str) (w : World) (hd : d ≠ []) :
    (runScriptAddon e addonPath addon fso fileName d w).1 = d ∧
    (runScriptAddon e addonPath addon fso fileName d w).2.settings = w.settings := by
  have hd2 : d.isEmpty = false := by cases d with
    | nil => exact absurd rfl hd
    | cons a as => rfl
  unfold runScriptAddon
  simp only [hd2]
  split <;> simp [callParseAddonErrors, World.emit]

theorem runScriptAddon_found (e : Env) (addonPath addon : Str) (fso : Option FileSettings)
    (fileName : Str) (w : World)
    (h : e.fileExists (addonPath ++ '/' :: addon ++ ".py".toList) = true ∨
         e.fileExists (addonPath ++ '/' :: addon ++ '/' :: addon ++ ".py".toList) = true) :
    (runScriptAddon e addonPath addon fso fileName [] w).1 ≠ [] ∧
    (runScriptAddon e addonPath addon fso fileName [] w).2.settings =
      { buildDir := w.settings.buildDir, dump := false, dumpFile := [] } := by
  have hs := dumpStep_settings e fso fileName w
  have hn := dumpStep_name e fso fileName w
  unfold runScriptAddon
  by_cases h1 : e.fileExists (addonPath ++ '/' :: addon ++ ".py".toList) = true
  · simp only [h1, if_true, List.isEmpty_nil, callParseAddonErrors, World.emit]
    exact ⟨hn, hs⟩
  · have h2 := h.resolve_left h1
    simp only [h1, h2, if_true, List.isEmpty_nil, callParseAddonErrors, World.emit]
    exact ⟨hn, hs⟩

theorem foldl_runAddon_dumped (e : Env) (c : Config) (addonPath : Str)
    (fso : Option FileSettings) (fileName : Str) (l : List Str) (d : Str) (w : World)
    (hd : d ≠ []) :
    (l.foldl (runAddon e c addonPath fso fileName) (d, w)).2.settings = w.settings := by
  induction l generalizing w with
  | nil => rfl
  | cons a l ih =>
    rw [List.foldl_cons]
    by_cases hc : a = CLANG ∨ a = CLANGTIDY
    · rw [runAddon_clang e c addonPath fso fileName (d, w) a hc]
      simp only
      rw [ih, runClangAddon_settings]
    · rw [runAddon_script e c addonPath fso fileName (d, w) a hc]
      obtain ⟨h1, h2⟩ := runScriptAddon_dumped e addonPath a fso fileName d w hd
      have : runScriptAddon e addonPath a fso fileName d w =
          (d, (runScriptAddon e addonPath a fso fileName d w).2) := Prod.ext h1 rfl
      simp only
      rw [this, ih, h2]

theorem foldl_runAddon_settings (e : Env) (c : Config) (addonPath : Str)
    (fso : Option FileSettings) (fileName : Str) (l : List Str) (w : World) :
    ((∀ addon ∈ l, ¬ scriptFound e addonPath addon) →
      (l.foldl (runAddon e c addonPath fso fileName) ([], w)).2.settings = w.settings) ∧
    ((∃ addon ∈ l, scriptFound e addonPath addon) →
      (l.foldl (runAddon e c addonPath fso fileName) ([], w)).2.settings =
        { buildDir := w.settings.buildDir, dump := false, dumpFile := [] }) := by
  induction l generalizing w with
  | nil => exact ⟨fun _ => rfl, fun ⟨a, ha, _⟩ => absurd ha (by simp)⟩
  | cons a l ih =>
    rw [List.foldl_cons]
    by_cases hc : a = CLANG ∨ a = CLANGTIDY
    · have hnf : ¬ scriptFound e addonPath a := by
        intro ⟨h1, h2, _⟩
        rcases hc with hc | hc
        · exact h1 hc
        · exact h2 hc
      have hstep : runAddon e c addonPath fso fileName ([], w) a =
          ([], runClangAddon e c a fso fileName w) :=
        runAddon_clang e c addonPath fso fileName ([], w) a hc
      rw [hstep]
      obtain ⟨ih1, ih2⟩ := ih (runClangAddon e c a fso fileName w)
      rw [runClangAddon_settings] at ih1 ih2
      refine ⟨fun h => ih1 (fun x hx => h x (by simp [hx])), ?_⟩
      rintro ⟨x, hx, hfx⟩
      rcases List.mem_cons.mp hx with rfl | hx
      · exact absurd hfx hnf
      · exact ih2 ⟨x, hx, hfx⟩
    · have hstep : runAddon e c addonPath fso fileName ([], w) a =
          runScriptAddon e addonPath a fso fileName [] w :=
        runAddon_script e c addonPath fso fileName ([], w) a hc
      rw [hstep]
      have hc1 : a ≠ CLANG := fun h => hc (Or.inl h)
      have hc2 : a ≠ CLANGTIDY := fun h => hc (Or.inr h)
      by_cases hf : e.fileExists (addonPath ++ '/' :: a ++ ".py".toList) = true ∨
          e.fileExists (addonPath ++ '/' :: a ++ '/' :: a ++ ".py".toList) = true
      · obtain ⟨hn, hs⟩ := runScriptAddon_found e addonPath a fso fileName w hf
        have hall : (l.foldl (runAddon e c addonPath fso fileName)
            (runScriptAddon e addonPath a fso fileName [] w)).2.settings =
            { buildDir := w.settings.buildDir, dump := false, dumpFile := [] } := by
          have := foldl_runAddon_dumped e c addonPath fso fileName l
            (runScriptAddon e addonPath a fso fileName [] w).1
            (runScriptAddon e addonPath a fso fileName [] w).2 hn
          rw [← hs, ← this]
        refine ⟨fun h => absurd ⟨hc1, hc2, hf⟩ (h a (by simp)), fun _ => hall⟩
      · have h1 : e.fileExists (addonPath ++ '/' :: a ++ ".py".toList) = false := by
          cases hx : e.fileExists (addonPath ++ '/' :: a ++ ".py".toList) with
          | false => rfl
          | true => exact absurd (Or.inl hx) hf
        have h2 : e.fileExists (addonPath ++ '/' :: a ++ '/' :: a ++ ".py".toList) = false := by
          cases hx : e.fileExists (addonPath ++ '/' :: a ++ '/' :: a ++ ".py".toList) with
          | false => rfl
          | true => exact absurd (Or.inr hx) hf
        rw [runScriptAddon_not_found e addonPath a fso fileName [] w h1 h2]
        obtain ⟨ih1, ih2⟩ := ih w
        refine ⟨fun h => ih1 (fun x hx => h x (by simp [hx])), ?_⟩
        rintro ⟨x, hx, hfx⟩
        rcases List.mem_cons.mp hx with rfl | hx
        · exact absurd hfx.2.2 hf
        · exact ih2 ⟨x, hx, hfx⟩

/-- C10, as the code has it: when `runAddons` returns, the build-output directory is the one
in force before the call; the dump flag and the dump-file path are unchanged when no script
addon was found, and are `false` and empty when one was found, so all three are as before
whenever the dump flag was off and the dump-file path empty beforehand. -/
theorem runAddons_settings (e : Env) (c : Config) (addonPath : Str)
    (fileSettings : Option FileSettings) (fileName : Str) (w : World) :
    (runAddons e c addonPath fileSettings fileName w).settings.buildDir = w.settings.buildDir ∧
    ((∀ addon ∈ c.mAddons, ¬ scriptFound e addonPath addon) →
      (runAddons e c addonPath fileSettings fileName w).settings = w.settings) ∧
    ((∃ addon ∈ c.mAddons, scriptFound e addonPath addon) →
      (runAddons e c addonPath fileSettings fileName w).settings =
        { buildDir := w.settings.buildDir, dump := false, dumpFile := [] }) ∧
    (w.settings.dump = false → w.settings.dumpFile = [] →
      (runAddons e c addonPath fileSettings fileName w).settings = w.settings) := by
  obtain ⟨h1, h2⟩ := foldl_runAddon_settings e c addonPath fileSettings fileName c.mAddons w
  have hcases : (runAddons e c addonPath fileSettings fileName w).settings = w.settings ∨
      (runAddons e c addonPath fileSettings fileName w).settings =
        { buildDir := w.settings.buildDir, dump := false, dumpFile := [] } := by
    by_cases hx : ∃ addon ∈ c.mAddons, scriptFound e addonPath addon
    · exact Or.inr (h2 hx)
    · exact Or.inl (h1 (fun a ha hf => hx ⟨a, ha, hf⟩))
  refine ⟨?_, h1, h2, ?_⟩
  · rcases hcases with h | h <;> rw [h]
  · intro hd hf
    rcases hcases with h | h
    · exact h
    · rw [h]
      cases hw : w.settings with
      | mk b d f =>
        rw [hw] at hd hf
        simp only at hd hf
        rw [hd, hf]

/-! ## Lemmas on the checksum file -/

theorem isDigit_ofNat (k : Nat) (h : k < 10) : isDigit (Char.ofNat (48 + k)) = true := by
  interval_cases k <;> decide

theorem digitVal_ofNat (k : Nat) (h : k < 10) : digitVal (Char.ofNat (48 + k)) = k := by
  interval_cases k <;> decide

theorem decimalValue_append (ds : Str) (c : Char) :
    decimalValue (ds ++ [c]) = 10 * decimalValue ds + digitVal c := by
  simp [decimalValue, List.foldl_append]

theorem toDecimalAux_spec (fuel : Nat) : ∀ (n : Nat) (acc : Str), n < 10 ^ (fuel + 1) →
    ∃ ds, toDecimalAux (fuel + 1) n acc = ds ++ acc ∧ ds ≠ [] ∧
      (∀ c ∈ ds, isDigit c = true) ∧ decimalValue ds = n := by
  induction fuel with
  | zero =>
    intro n acc hn
    have hn10 : n < 10 := by simpa using hn
    have h0 : n / 10 = 0 := Nat.div_eq_of_lt hn10
    refine ⟨[Char.ofNat (48 + n % 10)], ?_, by simp, ?_, ?_⟩
    · simp [toDecimalAux, h0]
    · intro c hc
      rw [List.mem_singleton.mp hc]
      exact isDigit_ofNat _ (Nat.mod_lt _ (by decide))
    · simp only [decimalValue, List.foldl_cons, List.foldl_nil, Nat.mul_zero, Nat.zero_add]
      rw [digitVal_ofNat _ (Nat.mod_lt _ (by decide)), Nat.mod_eq_of_lt hn10]
  | succ f ih =>
    intro n acc hn
    by_cases h0 : n / 10 = 0
    · have hn10 : n < 10 := by
        by_contra hge
        have : 1 ≤ n / 10 := (Nat.le_div_iff_mul_le (by decide)).mpr (by omega)
        omega
      refine ⟨[Char.ofNat (48 + n % 10)], ?_, by simp, ?_, ?_⟩
      · simp [toDecimalAux, h0]
      · intro c hc
        rw [List.mem_singleton.mp hc]
        exact isDigit_ofNat _ (Nat.mod_lt _ (by decide))
      · simp only [decimalValue, List.foldl_cons, List.foldl_nil, Nat.mul_zero, Nat.zero_add]
        rw [digitVal_ofNat _ (Nat.mod_lt _ (by decide)), Nat.mod_eq_of_lt hn10]
    · have hdiv : n / 10 < 10 ^ (f + 1) := by
        apply Nat.div_lt_of_lt_mul
        rw [← Nat.pow_succ']
        exact hn
      obtain ⟨ds, hds, hne, hdig, hval⟩ := ih (n / 10) (Char.ofNat (48 + n % 10) :: acc) hdiv
      refine ⟨ds ++ [Char.ofNat (48 + n % 10)], ?_, by simp, ?_, ?_⟩
      · rw [toDecimalAux]
        simp only [h0, if_false]
        rw [hds]
        simp
      · intro c hc
        rcases List.mem_append.mp hc with h | h
        · exact hdig c h
        · rw [List.mem_singleton.mp h]
          exact isDigit_ofNat _ (Nat.mod_lt _ (by decide))
      · rw [decimalValue_append, hval, digitVal_ofNat _ (Nat.mod_lt _ (by decide))]
        exact Nat.div_add_mod n 10

theorem toInt_toDecimal (n : Nat) (h : n < 65536) : toInt (toDecimal n) = (n : Int) := by
  obtain ⟨ds, hds, hne, hdig, hval⟩ := toDecimalAux_spec 4 n [] (by omega)
  have heq : toDecimal n = ds := by
    unfold toDecimal
    rw [hds]
    simp
  rw [heq]
  have hnum : isNumber ds = true := by
    cases ds with
    | nil => exact absurd rfl hne
    | cons a as =>
      simp only [isNumber, List.isEmpty_cons, Bool.not_false, Bool.true_and, List.all_eq_true]
      exact hdig
  rw [toInt_digits ds hnum (by rw [hval]; unfold INT_MAX; omega), hval]

theorem quint16_toInt_toDecimal (n : Nat) (h : n < 65536) :
    quint16 (toInt (toDecimal n)) = n := by
  rw [toInt_toDecimal n h]
  unfold quint16
  omega

theorem isDigit_plain (c : Char) (h : isDigit c = true) : c ≠ '\r' ∧ c.toNat < 128 := by
  simp only [isDigit, Bool.and_eq_true, decide_eq_true_eq] at h
  have h0 : 48 ≤ c.toNat := h.1
  have h9 : c.toNat ≤ 57 := h.2
  constructor
  · intro hc
    rw [hc] at h0
    exact absurd h0 (by decide)
  · omega

theorem readText_plain (e : Env) (s : Str) (h : ∀ c ∈ s, c ≠ '\r' ∧ c.toNat < 128) :
    readText e s = s := by
  have hf : s.filter (fun c => c ≠ '\r') = s := by
    rw [List.filter_eq_self]
    intro c hc
    simpa using (h c hc).1
  unfold readText
  simp only [hf]
  rw [if_pos]
  rw [List.all_eq_true]
  intro c hc
  simpa using (h c hc).2

theorem readText_toDecimal (e : Env) (n : Nat) (h : n < 65536) :
    readText e (toDecimal n) = toDecimal n := by
  obtain ⟨ds, hds, _, hdig, _⟩ := toDecimalAux_spec 4 n [] (by omega)
  have heq : toDecimal n = ds := by
    unfold toDecimal
    rw [hds]
    simp
  rw [heq]
  exact readText_plain e ds (fun c hc => isDigit_plain c (hdig c hc))

theorem qChecksum_lt (ba : Bytes) : qChecksum ba < 65536 := by
  unfold qChecksum
  exact Nat.mod_lt _ (by decide)

theorem cacheFile_ne (info addon s1 s2 : Str) (h : s1 ≠ s2) :
    cacheFile info addon s1 ≠ cacheFile info addon s2 := by
  intro heq
  unfold cacheFile at heq
  have h1 := List.append_cancel_left heq
  simp only [List.cons_append, List.cons.injEq, true_and, List.append_cancel_left_eq] at h1
  exact h h1

theorem writeFile_files_same (e : Env) (p s : Str) (w : World) (hw : e.writable p = true) :
    (writeFile e p s w).files p = some (readText e s) := by
  simp [writeFile, hw]

theorem writeFile_files_other (e : Env) (p q s : Str) (w : World) (h : q ≠ p) :
    (writeFile e p s w).files q = w.files q := by
  unfold writeFile
  split
  · simp [h]
  · rfl

theorem removeFile_files_other (e : Env) (p q : Str) (w : World) (h : q ≠ p) :
    (removeFile e p w).files q = w.files q := by
  unfold removeFile
  split
  · simp [h]
  · rfl
theorem isEmpty_eq_false_of_ne {α : Type} (l : List α) (h : l ≠ []) : l.isEmpty = false := by
  cases l with
  | nil => exact absurd rfl h
  | cons a as => rfl

/-- With one tool in the list, `runAddons` is the pass of its loop for that tool. -/
theorem runAddons_singleton (e : Env) (c : Config) (addonPath addon : Str)
    (fso : Option FileSettings) (fileName : Str) (w : World) (hlist : c.mAddons = [addon]) :
    runAddons e c addonPath fso fileName w =
      (runAddon e c addonPath fso fileName ([], w) addon).2 := by
  unfold runAddons
  rw [hlist, List.foldl_cons, List.foldl_nil]

theorem runClangAddon_fullRun (e : Env) (c : Config) (addon fileName : Str) (fs : FileSettings)
    (w : World) (hcfg : hasSubstr "Debug".toList fs.cfg = false) (hdir : w.settings.buildDir ≠ [])
    (hmiss : storedResults w.files (cacheFile (infoFile e w fs) addon "-E".toList)
      (cacheFile (infoFile e w fs) addon "-results".toList)
      (qChecksum (probeOutput e c fs fileName)) = none) :
    runClangAddon e c addon (some fs) fileName w =
      fullRun e c addon fileName (buildArgs e c fs fileName) (infoFile e w fs)
        (removeFile e (cacheFile (infoFile e w fs) addon "-results".toList)
          (writeFile e (cacheFile (infoFile e w fs) addon "-E".toList)
            (toDecimal (qChecksum (probeOutput e c fs fileName)))
            (w.emit (Event.startProcess (probeCmd c) (probeArgs e c fs fileName))))) := by
  have hd := isEmpty_eq_false_of_ne _ hdir
  unfold runClangAddon memoize
  simp only [hcfg, hd, Bool.and_false, Bool.not_false, Bool.false_eq_true, if_false, if_true]
  have hm : storedResults
      (w.emit (Event.startProcess (probeCmd c) ("-E".toList :: buildArgs e c fs fileName ++ [fileName]))).files
      (cacheFile (e.getAnalyzerInfoFile w.settings.buildDir fs.filename fs.cfg) addon "-E".toList)
      (cacheFile (e.getAnalyzerInfoFile w.settings.buildDir fs.filename fs.cfg) addon "-results".toList)
      (qChecksum (e.runProcess (probeCmd c) ("-E".toList :: buildArgs e c fs fileName ++ [fileName])).1) = none :=
    hmiss
  rw [hm]
  rfl

theorem fullRun_files (e : Env) (c : Config) (addon fileName : Str) (args : List Str)
    (info : Str) (w : World) (hinfo : info ≠ []) :
    (e.writable (cacheFile info addon "-results".toList) = true →
      (fullRun e c addon fileName args info w).files (cacheFile info addon "-results".toList) =
        some (readText e
          (e.decode (if addon = CLANG then (e.runProcess (toolCmd c addon) (toolArgs addon args fileName)).2
            else (e.runProcess (toolCmd c addon) (toolArgs addon args fileName)).1)))) ∧
    (fullRun e c addon fileName args info w).files (cacheFile info addon "-E".toList) =
      w.files (cacheFile info addon "-E".toList) := by
  have hi := isEmpty_eq_false_of_ne _ hinfo
  unfold fullRun callParseClangErrors
  simp only [hi, Bool.not_false, if_true]
  constructor
  · intro hw
    exact writeFile_files_same e _ _ _ hw
  · rw [writeFile_files_other e _ _ _ _ (cacheFile_ne info addon _ _ (by decide))]
    show (writeFile e _ _ w).files _ = _
    rw [writeFile_files_other e _ _ _ _ (cacheFile_ne info addon _ _ (by decide))]

theorem writeFile_log_mem (e : Env) (p s : Str) (w : World) (ev : Event) (h : ev ∈ w.log) :
    ev ∈ (writeFile e p s w).log := by
  unfold writeFile
  split
  · exact List.mem_append_left _ h
  · exact h

theorem fullRun_log_mem (e : Env) (c : Config) (addon fileName : Str) (args : List Str)
    (info : Str) (w : World) :
    Event.startProcess (toolCmd c addon) (toolArgs addon args fileName) ∈
      (fullRun e c addon fileName args info w).log := by
  unfold fullRun callParseClangErrors
  simp only
  apply List.mem_append_left
  have h2 : ∀ w0 : World, Event.startProcess (toolCmd c addon) (toolArgs addon args fileName) ∈
      (w0.emit (Event.startProcess (toolCmd c addon) (toolArgs addon args fileName))).log := by
    intro w0
    simp [World.emit]
  split
  · exact writeFile_log_mem _ _ _ _ _ (h2 _)
  · exact h2 _
theorem firstPass_stored (e : Env) (c : Config) (addon fileName : Str) (fs : FileSettings)
    (w : World) (hcfg : hasSubstr "Debug".toList fs.cfg = false) (hdir : w.settings.buildDir ≠ [])
    (hinfo : infoFile e w fs ≠ [])
    (hw1 : e.writable (cacheFile (infoFile e w fs) addon "-E".toList) = true)
    (hw2 : e.writable (cacheFile (infoFile e w fs) addon "-results".toList) = true)
    (hmiss : storedResults w.files (cacheFile (infoFile e w fs) addon "-E".toList)
      (cacheFile (infoFile e w fs) addon "-results".toList)
      (qChecksum (probeOutput e c fs fileName)) = none) :
    toolStart e c addon fs fileName ∈ (runClangAddon e c addon (some fs) fileName w).log ∧
    (runClangAddon e c addon (some fs) fileName w).files
        (cacheFile (infoFile e w fs) addon "-E".toList) =
      some (toDecimal (qChecksum (probeOutput e c fs fileName))) ∧
    (runClangAddon e c addon (some fs) fileName w).files
        (cacheFile (infoFile e w fs) addon "-results".toList) =
      some (readText e (toolOutput e c addon fs fileName)) := by
  rw [runClangAddon_fullRun e c addon fileName fs w hcfg hdir hmiss]
  obtain ⟨hf2, hf1⟩ := fullRun_files e c addon fileName (buildArgs e c fs fileName)
    (infoFile e w fs)
    (removeFile e (cacheFile (infoFile e w fs) addon "-results".toList)
      (writeFile e (cacheFile (infoFile e w fs) addon "-E".toList)
        (toDecimal (qChecksum (probeOutput e c fs fileName)))
        (w.emit (Event.startProcess (probeCmd c) (probeArgs e c fs fileName))))) hinfo
  refine ⟨fullRun_log_mem _ _ _ _ _ _ _, ?_, ?_⟩
  · rw [hf1, removeFile_files_other e _ _ _ (cacheFile_ne _ addon _ _ (by decide)),
      writeFile_files_same e _ _ _ hw1, readText_toDecimal e _ (qChecksum_lt _)]
  · exact hf2 hw2

theorem infoFile_of_buildDir (e : Env) (w1 w2 : World) (fs : FileSettings)
    (h : w1.settings.buildDir = w2.settings.buildDir) : infoFile e w1 fs = infoFile e w2 fs := by
  unfold infoFile
  rw [h]

/-- Witness of C5: a work item whose configuration is labelled `Debug|x64`, with clang and a
script addon enabled. -/
theorem runAddons_skips_compiler_tools_witness :
    ∃ new,
      (runAddons (exampleEnv [] []) (exampleConfig [CLANG, "misra".toList, CLANGTIDY]) []
          (some (exampleFileSettings "Debug|x64")) "a.cpp".toList
          (exampleWorld { buildDir := "build".toList, dump := false, dumpFile := [] })).log =
        (exampleWorld { buildDir := "build".toList, dump := false, dumpFile := [] }).log ++ new ∧
      (∀ ev ∈ new, ev.ofScriptAddon) ∧
      (runAddons (exampleEnv [] []) (exampleConfig [CLANG, "misra".toList, CLANGTIDY]) []
          (some (exampleFileSettings "Debug|x64")) "a.cpp".toList
          (exampleWorld { buildDir := "build".toList, dump := false, dumpFile := [] })).files =
        (exampleWorld { buildDir := "build".toList, dump := false, dumpFile := [] }).files :=
  runAddons_skips_compiler_tools (exampleEnv [] [])
    (exampleConfig [CLANG, "misra".toList, CLANGTIDY]) [] (some (exampleFileSettings "Debug|x64"))
    "a.cpp".toList (exampleWorld { buildDir := "build".toList, dump := false, dumpFile := [] })
    (Or.inr ⟨exampleFileSettings "Debug|x64", [], "|x64".toList, rfl, rfl⟩)

/-- C10 fails as stated: with the dump flag on and a dump file named beforehand, one script
addon leaves the flag off and the name empty. -/
theorem runAddons_resets_dump :
    (exampleWorld { buildDir := [], dump := true, dumpFile := "out.dump".toList }).settings =
      { buildDir := [], dump := true, dumpFile := "out.dump".toList } ∧
    (runAddons (exampleEnv [] []) (exampleConfig ["misra".toList]) "addons".toList none
        "a.c".toList
        (exampleWorld { buildDir := [], dump := true, dumpFile := "out.dump".toList })).settings =
      { buildDir := [], dump := false, dumpFile := [] } := by
  constructor <;> rfl
theorem writeFile_writable (e : Env) (p s : Str) (w : World) (hw : e.writable p = true) :
    writeFile e p s w =
      { w with files := fun q => if q = p then some (readText e s) else w.files q,
               log := w.log ++ [Event.writeFile p s] } := by
  unfold writeFile
  rw [if_pos hw]

theorem removeFile_writable (e : Env) (p : Str) (w : World) (hw : e.writable p = true) :
    removeFile e p w =
      { w with files := fun q => if q = p then none else w.files q,
               log := w.log ++ [Event.removeFile p] } := by
  unfold removeFile
  rw [if_pos hw]

theorem fullPass_log (e : Env) (c : Config) (addon fileName : Str) (fs : FileSettings)
    (w : World) (hcfg : hasSubstr "Debug".toList fs.cfg = false) (hdir : w.settings.buildDir ≠ [])
    (hinfo : infoFile e w fs ≠ [])
    (hw1 : e.writable (cacheFile (infoFile e w fs) addon "-E".toList) = true)
    (hw2 : e.writable (cacheFile (infoFile e w fs) addon "-results".toList) = true)
    (hw3 : e.writable (cacheFile (infoFile e w fs) addon "-cmd".toList) = true)
    (hmiss : storedResults w.files (cacheFile (infoFile e w fs) addon "-E".toList)
      (cacheFile (infoFile e w fs) addon "-results".toList)
      (qChecksum (probeOutput e c fs fileName)) = none) :
    (runClangAddon e c addon (some fs) fileName w).log =
      w.log ++
        [Event.startProcess (probeCmd c) (probeArgs e c fs fileName),
         Event.writeFile (cacheFile (infoFile e w fs) addon "-E".toList)
           (toDecimal (qChecksum (probeOutput e c fs fileName))),
         Event.removeFile (cacheFile (infoFile e w fs) addon "-results".toList),
         Event.writeFile (cacheFile (infoFile e w fs) addon "-cmd".toList)
           (debugLine (toolCmd c addon) (toolArgs addon (buildArgs e c fs fileName) fileName)),
         toolStart e c addon fs fileName,
         Event.writeFile (cacheFile (infoFile e w fs) addon "-results".toList)
           (toolOutput e c addon fs fileName),
         Event.parseClangErrors addon fileName (toolOutput e c addon fs fileName)] ++
        (parseClangErrors e.sev0 addon fileName (toolOutput e c addon fs fileName)).map
          Event.reportErr := by
  rw [runClangAddon_fullRun e c addon fileName fs w hcfg hdir hmiss]
  have hi := isEmpty_eq_false_of_ne _ hinfo
  unfold fullRun
  simp only [hi, Bool.not_false, if_true]
  rw [writeFile_writable e _ _ _ hw2, writeFile_writable e _ _ _ hw3,
    removeFile_writable e _ _ hw2, writeFile_writable e _ _ _ hw1]
  simp only [callParseClangErrors, World.emit, toolStart, toolOutput, List.append_assoc,
    List.cons_append, List.nil_append]

/-- C9, as the code has it: with a build directory configured, let the pass of the loop of
`runAddons` for a tool run the tool in full and store its checksum.  Every later pass for that
tool that finds the stored checksum, computes a different 16-bit checksum from its
preprocessor output and can write the cache files does not replay: it stores the new
checksum, removes the result file, runs the tool and parses the text that this run
captured. -/
theorem cache_invalidation (e1 e2 : Env) (c : Config) (addonPath addon fileName d : Str)
    (fs : FileSettings) (w : World)
    (haddon : addon = CLANG ∨ addon = CLANGTIDY)
    (hcfg : hasSubstr "Debug".toList fs.cfg = false)
    (hdir : w.settings.buildDir ≠ [])
    (hinfo : infoFile e1 w fs ≠ [])
    (hinfo2 : infoFile e2 w fs = infoFile e1 w fs)
    (hw1 : e1.writable (cacheFile (infoFile e1 w fs) addon "-E".toList) = true)
    (hw2 : e1.writable (cacheFile (infoFile e1 w fs) addon "-results".toList) = true)
    (hfull : storedResults w.files (cacheFile (infoFile e1 w fs) addon "-E".toList)
      (cacheFile (infoFile e1 w fs) addon "-results".toList)
      (qChecksum (probeOutput e1 c fs fileName)) = none)
    (hv1 : e2.writable (cacheFile (infoFile e1 w fs) addon "-E".toList) = true)
    (hv2 : e2.writable (cacheFile (infoFile e1 w fs) addon "-results".toList) = true)
    (hv3 : e2.writable (cacheFile (infoFile e1 w fs) addon "-cmd".toList) = true)
    (hdiff : qChecksum (probeOutput e2 c fs fileName) ≠ qChecksum (probeOutput e1 c fs fileName)) :
    ∀ (d2 : Str) (w2 : World),
      w2.settings.buildDir = w.settings.buildDir →
      w2.files (cacheFile (infoFile e1 w fs) addon "-E".toList) =
        (runAddon e1 c addonPath (some fs) fileName (d, w) addon).2.files
          (cacheFile (infoFile e1 w fs) addon "-E".toList) →
      (runAddon e2 c addonPath (some fs) fileName (d2, w2) addon).2.log =
        w2.log ++
          [Event.startProcess (probeCmd c) (probeArgs e2 c fs fileName),
           Event.writeFile (cacheFile (infoFile e1 w fs) addon "-E".toList)
             (toDecimal (qChecksum (probeOutput e2 c fs fileName))),
           Event.removeFile (cacheFile (infoFile e1 w fs) addon "-results".toList),
           Event.writeFile (cacheFile (infoFile e1 w fs) addon "-cmd".toList)
             (debugLine (toolCmd c addon) (toolArgs addon (buildArgs e2 c fs fileName) fileName)),
           toolStart e2 c addon fs fileName,
           Event.writeFile (cacheFile (infoFile e1 w fs) addon "-results".toList)
             (toolOutput e2 c addon fs fileName),
           Event.parseClangErrors addon fileName (toolOutput e2 c addon fs fileName)] ++
          (parseClangErrors e2.sev0 addon fileName (toolOutput e2 c addon fs fileName)).map
            Event.reportErr := by
  intro d2 w2 hb h1
  rw [runAddon_clang e1 c addonPath (some fs) fileName (d, w) addon haddon] at h1
  rw [runAddon_clang e2 c addonPath (some fs) fileName (d2, w2) addon haddon]
  obtain ⟨_, hf1, _⟩ := firstPass_stored e1 c addon fileName fs w hcfg hdir hinfo hw1 hw2 hfull
  simp only at h1 ⊢
  rw [hf1] at h1
  have hi : infoFile e2 w2 fs = infoFile e1 w fs := by
    rw [infoFile_of_buildDir e2 w2 w fs hb, hinfo2]
  have hmiss : storedResults w2.files
      (cacheFile (infoFile e2 w2 fs) addon "-E".toList)
      (cacheFile (infoFile e2 w2 fs) addon "-results".toList)
      (qChecksum (probeOutput e2 c fs fileName)) = none := by
    rw [hi]
    unfold storedResults
    rw [h1]
    simp only
    rw [quint16_toInt_toDecimal _ (qChecksum_lt _), if_neg (fun h => hdiff h.symm)]
  have := fullPass_log e2 c addon fileName fs w2 hcfg (by rw [hb]; exact hdir)
    (by rw [hi]; exact hinfo) (by rw [hi]; exact hv1) (by rw [hi]; exact hv2)
    (by rw [hi]; exact hv3) hmiss
  rw [hi] at this
  exact this

/-- Witness of C9 as amended: clang alone is enabled; the preprocessor output changes from
`int x;` to `int y;` between two calls of `runAddons`. -/
theorem cache_invalidation_witness :
    (runAddons (exampleEnv (bytesOf "int y;") (bytesOf "a.cpp:1:5: warning: later [w]"))
        (exampleConfig [CLANG]) [] (some (exampleFileSettings "Release")) "a.cpp".toList
        (runAddons (exampleEnv (bytesOf "int x;") (bytesOf "a.cpp:1:5: warning: unused [w]"))
          (exampleConfig [CLANG]) [] (some (exampleFileSettings "Release")) "a.cpp".toList
          (exampleWorld { buildDir := "build".toList, dump := false, dumpFile := [] }))).log.length =
      (runAddons (exampleEnv (bytesOf "int x;") (bytesOf "a.cpp:1:5: warning: unused [w]"))
          (exampleConfig [CLANG]) [] (some (exampleFileSettings "Release")) "a.cpp".toList
          (exampleWorld { buildDir := "build".toList, dump := false, dumpFile := [] })).log.length + 8 := by
  have h := cache_invalidation
    (exampleEnv (bytesOf "int x;") (bytesOf "a.cpp:1:5: warning: unused [w]"))
    (exampleEnv (bytesOf "int y;") (bytesOf "a.cpp:1:5: warning: later [w]"))
    (exampleConfig [CLANG]) [] CLANG "a.cpp".toList [] (exampleFileSettings "Release")
    (exampleWorld { buildDir := "build".toList, dump := false, dumpFile := [] })
    (Or.inl rfl) (by decide) (by decide) (by decide) rfl rfl rfl rfl rfl rfl rfl (by decide) []
    (runAddons (exampleEnv (bytesOf "int x;") (bytesOf "a.cpp:1:5: warning: unused [w]"))
      (exampleConfig [CLANG]) [] (some (exampleFileSettings "Release")) "a.cpp".toList
      (exampleWorld { buildDir := "build".toList, dump := false, dumpFile := [] }))
    rfl rfl
  have h2 := congrArg List.length h
  simpa using h2

/-- C9 fails as stated: the preprocessor outputs `int x = 1778;` and `int x = 4002;` differ
and have the same checksum, so the second pass starts the probe only and parses the text
stored by the first pass. -/
theorem checksum_collision_replays :
    probeOutput (exampleEnv (bytesOf "int x = 4002;\n") (bytesOf "a.cpp:1:5: warning: later [w]"))
        (exampleConfig [CLANG]) (exampleFileSettings "Release") "a.cpp".toList ≠
      probeOutput (exampleEnv (bytesOf "int x = 1778;\n") (bytesOf "a.cpp:1:5: warning: unused [w]"))
        (exampleConfig [CLANG]) (exampleFileSettings "Release") "a.cpp".toList ∧
    (runAddons (exampleEnv (bytesOf "int x = 4002;\n") (bytesOf "a.cpp:1:5: warning: later [w]"))
        (exampleConfig [CLANG]) [] (some (exampleFileSettings "Release")) "a.cpp".toList
        (runAddons (exampleEnv (bytesOf "int x = 1778;\n") (bytesOf "a.cpp:1:5: warning: unused [w]"))
          (exampleConfig [CLANG]) [] (some (exampleFileSettings "Release")) "a.cpp".toList
          (exampleWorld { buildDir := "build".toList, dump := false, dumpFile := [] }))).log =
      (runAddons (exampleEnv (bytesOf "int x = 1778;\n") (bytesOf "a.cpp:1:5: warning: unused [w]"))
          (exampleConfig [CLANG]) [] (some (exampleFileSettings "Release")) "a.cpp".toList
          (exampleWorld { buildDir := "build".toList, dump := false, dumpFile := [] })).log ++
        [Event.startProcess "clang".toList ["-E".toList, "-DN=1".toList, "a.cpp".toList],
         Event.parseClangErrors "clang".toList "a.cpp".toList
           "a.cpp:1:5: warning: unused [w]".toList,
         Event.reportErr
           { callStack := [{ file := "a.cpp".toList, info := "unused ".toList, line := 1 }],
             file0 := "a.cpp".toList, severity := Severity.warning, msg := "unused ".toList,
             id := "clang-w".toList, inconclusive := false }] := by
  constructor
  · decide
  · rfl

/-! ## Lemmas on the worker -/

theorem poll_false (sched : Nat → Bool) (t : Thread) (h : sched t.tick = false) :
    poll sched t = { t with tick := t.tick + 1 } := by
  simp [poll, h]

theorem poll_true (sched : Nat → Bool) (t : Thread) (h : sched t.tick = true) :
    poll sched t =
      { t with mState := State.Stopping, trace := t.trace ++ [RunEvent.stop], tick := t.tick + 1 } := by
  simp [poll, h, stop]

theorem signals_append (a b : List RunEvent) : signals (a ++ b) = signals a ++ signals b := by
  simp [signals]

theorem started_append (a b : List RunEvent) : started (a ++ b) = started a ++ started b := by
  simp [started]

theorem pulledRunning_append (a b : List RunEvent) :
    pulledRunning (a ++ b) = pulledRunning a ++ pulledRunning b := by
  simp [pulledRunning]

theorem stateWrites_append (a b : List RunEvent) :
    stateWrites (a ++ b) = stateWrites a ++ stateWrites b := by
  simp [stateWrites]

theorem withoutStops_append (a b : List RunEvent) :
    withoutStops (a ++ b) = withoutStops a ++ withoutStops b := by
  simp [withoutStops]

theorem scan_append (cur : Option Str) (a b : List RunEvent) :
    scan cur (a ++ b) =
      (scan cur a).map (fun x => (x.1, x.2 ++ b)) ++ scan (inFlightFrom cur a) b := by
  induction a generalizing cur with
  | nil => simp [scan, inFlightFrom]
  | cons ev rest ih =>
    rw [List.cons_append]
    cases ev <;> cases cur <;> simp [scan, ih, inFlightFrom]

theorem scan_mem_of_split (cur : Option Str) (pre post : List RunEvent) (f : Str)
    (h : inFlightFrom cur pre = some f) : (f, post) ∈ scan cur (pre ++ RunEvent.stop :: post) := by
  rw [scan_append, h]
  apply List.mem_append_right
  simp [scan]

theorem scan_none_of_started_nil (tr : List RunEvent) (h : started tr = []) :
    scan none tr = [] ∧ inFlightFrom none tr = none := by
  induction tr with
  | nil => simp [scan, inFlightFrom]
  | cons ev rest ih =>
    cases ev <;> simp_all [scan, inFlightFrom, started, startOf, inFlightStep]

theorem checkEv_facts (checkEv : RunEvent) (file : Str) (h : startOf checkEv = some file) :
    isSignal checkEv = false ∧ writeOf checkEv = none ∧ pullOf checkEv = none ∧
      (∀ cur, inFlightStep cur checkEv = some file) ∧ checkEv ≠ RunEvent.stop := by
  cases checkEv <;> simp_all [startOf, isSignal, writeOf, pullOf, inFlightStep]

@[simp] theorem isSignal_stop : isSignal RunEvent.stop = false := rfl
@[simp] theorem isSignal_runAddons (f : Str) : isSignal (RunEvent.runAddons f) = false := rfl
@[simp] theorem isSignal_fileChecked (f : Str) : isSignal (RunEvent.fileChecked f) = true := rfl
@[simp] theorem isSignal_done : isSignal RunEvent.done = true := rfl
@[simp] theorem isSignal_setState (s : State) : isSignal (RunEvent.setState s) = false := rfl
@[simp] theorem isSignal_pulledFile (f : Str) (s : State) :
    isSignal (RunEvent.pulledFile f s) = false := rfl
@[simp] theorem isSignal_pulledFileSettings (f : FileSettings) (s : State) :
    isSignal (RunEvent.pulledFileSettings f s) = false := rfl
@[simp] theorem startOf_stop : startOf RunEvent.stop = none := rfl
@[simp] theorem startOf_runAddons (f : Str) : startOf (RunEvent.runAddons f) = none := rfl
@[simp] theorem startOf_fileChecked (f : Str) : startOf (RunEvent.fileChecked f) = none := rfl
@[simp] theorem startOf_done : startOf RunEvent.done = none := rfl
@[simp] theorem startOf_setState (s : State) : startOf (RunEvent.setState s) = none := rfl
@[simp] theorem startOf_pulledFile (f : Str) (s : State) :
    startOf (RunEvent.pulledFile f s) = none := rfl
@[simp] theorem startOf_pulledFileSettings (f : FileSettings) (s : State) :
    startOf (RunEvent.pulledFileSettings f s) = none := rfl
@[simp] theorem writeOf_stop : writeOf RunEvent.stop = none := rfl
@[simp] theorem writeOf_runAddons (f : Str) : writeOf (RunEvent.runAddons f) = none := rfl
@[simp] theorem writeOf_fileChecked (f : Str) : writeOf (RunEvent.fileChecked f) = none := rfl
@[simp] theorem writeOf_done : writeOf RunEvent.done = none := rfl
@[simp] theorem writeOf_setState (s : State) : writeOf (RunEvent.setState s) = some s := rfl
@[simp] theorem writeOf_pulledFile (f : Str) (s : State) :
    writeOf (RunEvent.pulledFile f s) = none := rfl
@[simp] theorem writeOf_pulledFileSettings (f : FileSettings) (s : State) :
    writeOf (RunEvent.pulledFileSettings f s) = none := rfl
@[simp] theorem pullOf_stop : pullOf RunEvent.stop = none := rfl
@[simp] theorem pullOf_runAddons (f : Str) : pullOf (RunEvent.runAddons f) = none := rfl
@[simp] theorem pullOf_fileChecked (f : Str) : pullOf (RunEvent.fileChecked f) = none := rfl
@[simp] theorem pullOf_done : pullOf RunEvent.done = none := rfl
@[simp] theorem pullOf_setState (s : State) : pullOf (RunEvent.setState s) = none := rfl
@[simp] theorem inFlightStep_stop (cur : Option Str) : inFlightStep cur RunEvent.stop = cur := rfl
@[simp] theorem inFlightStep_runAddons (cur : Option Str) (f : Str) :
    inFlightStep cur (RunEvent.runAddons f) = cur := rfl
@[simp] theorem inFlightStep_fileChecked (cur : Option Str) (f : Str) :
    inFlightStep cur (RunEvent.fileChecked f) = none := rfl
@[simp] theorem inFlightStep_done (cur : Option Str) : inFlightStep cur RunEvent.done = cur := rfl
@[simp] theorem inFlightStep_setState (cur : Option Str) (s : State) :
    inFlightStep cur (RunEvent.setState s) = cur := rfl
@[simp] theorem inFlightStep_pulledFile (cur : Option Str) (f : Str) (s : State) :
    inFlightStep cur (RunEvent.pulledFile f s) = cur := rfl
@[simp] theorem inFlightStep_pulledFileSettings (cur : Option Str) (f : FileSettings) (s : State) :
    inFlightStep cur (RunEvent.pulledFileSettings f s) = cur := rfl

theorem scan_cons_stop (cur : Option Str) (rest : List RunEvent) :
    scan cur (RunEvent.stop :: rest) =
      (match cur with
        | some f => [(f, rest)]
        | none => []) ++ scan cur rest := by
  cases cur <;> simp [scan]

theorem scan_cons_other (cur : Option Str) (ev : RunEvent) (rest : List RunEvent)
    (h : ev ≠ RunEvent.stop) : scan cur (ev :: rest) = scan (inFlightStep cur ev) rest := by
  cases ev <;> cases cur <;> simp_all [scan]

set_option maxHeartbeats 4000000 in
/-- Facts about the processing of one item. -/
theorem processItem_facts (sched : Nat → Bool) (checkEv : RunEvent) (file : Str)
    (addons : World → World) (t : Thread) (hcheck : startOf checkEv = some file) :
    ∃ ev, (processItem sched checkEv file addons t).trace = t.trace ++ ev ∧
      (processItem sched checkEv file addons t).files = t.files ∧
      (processItem sched checkEv file addons t).fileSettings = t.fileSettings ∧
      ((processItem sched checkEv file addons t).mState = t.mState ∨
        (processItem sched checkEv file addons t).mState = State.Stopping) ∧
      signals ev = [RunEvent.fileChecked file] ∧
      started ev = [file] ∧
      stateWrites ev = [] ∧
      pulledRunning ev = [] ∧
      inFlightFrom none ev = none ∧
      (∀ x ∈ scan none ev, (processItem sched checkEv file addons t).mState = State.Stopping ∧
        x.1 = file ∧ signals x.2 = [RunEvent.fileChecked file] ∧ started x.2 = [] ∧
        stateWrites x.2 = []) := by
  obtain ⟨c1, c2, c3, c4, c5⟩ := checkEv_facts checkEv file hcheck
  have n1 : RunEvent.runAddons file ≠ RunEvent.stop := by simp
  have n2 : RunEvent.fileChecked file ≠ RunEvent.stop := by simp
  unfold processItem
  cases h0 : sched t.tick <;> cases h1 : sched (t.tick + 1) <;>
    cases h2 : sched (t.tick + 1 + 1) <;> cases h3 : sched (t.tick + 1 + 1 + 1) <;>
    simp [poll, stop, Thread.emit, h0, h1, h2, h3, signals, started, stateWrites,
      pulledRunning, inFlightFrom, scan_cons_stop, scan_cons_other, scan.eq_1,
      c1, c2, c3, c4, c5, n1, n2, hcheck, or_imp, forall_and, List.filter, List.filterMap]
theorem pulledRunning_pulledFileSettings (g : FileSettings) (q : State) :
    pulledRunning [RunEvent.pulledFileSettings g q] =
      if q = State.Running ∧ g.filename ≠ [] then [g.filename] else [] := by
  cases q <;> cases hg : g.filename <;> simp [pulledRunning, pullOf, hg]

theorem pulledRunning_pulledFile (g : Str) (q : State) :
    pulledRunning [RunEvent.pulledFile g q] =
      if q = State.Running ∧ g ≠ [] then [g] else [] := by
  cases q <;> cases g <;> simp [pulledRunning, pullOf]

@[simp] theorem isStop_stop : isStop RunEvent.stop = true := rfl
@[simp] theorem isStop_done : isStop RunEvent.done = false := rfl
@[simp] theorem isStop_setState (s : State) : isStop (RunEvent.setState s) = false := rfl

theorem poll_trace (sched : Nat → Bool) (t : Thread) :
    ∃ P, (poll sched t).trace = t.trace ++ P := by
  cases h : sched t.tick
  · exact ⟨[], by simp [poll, h]⟩
  · exact ⟨[RunEvent.stop], by simp [poll, h, stop]⟩

theorem finish_last (sched : Nat → Bool) (t : Thread) :
    ∃ init, (finish sched t).trace = t.trace ++ (init ++ [RunEvent.done]) := by
  unfold finish
  simp only [Thread.emit]
  obtain ⟨P1, h1⟩ := poll_trace sched t
  obtain ⟨P2, h2⟩ := poll_trace sched (poll sched t)
  generalize hfin : (if (poll sched t).mState = State.Running then State.Ready
    else State.Stopped) = final
  obtain ⟨P3, h3⟩ := poll_trace sched
    { mState := final, mFiles := (poll sched (poll sched t)).mFiles,
      mAnalyseWholeProgram := (poll sched (poll sched t)).mAnalyseWholeProgram,
      files := (poll sched (poll sched t)).files,
      fileSettings := (poll sched (poll sched t)).fileSettings,
      world := (poll sched (poll sched t)).world, tick := (poll sched (poll sched t)).tick,
      trace := (poll sched (poll sched t)).trace ++ [RunEvent.setState final] }
  refine ⟨P1 ++ P2 ++ [RunEvent.setState final] ++ P3, ?_⟩
  rw [h3, h2, h1]
  simp

theorem finish_facts (sched : Nat → Bool) (t : Thread)
    (h : t.mState = State.Running ∨ t.mState = State.Stopping) :
    ∃ new, (finish sched t).trace = t.trace ++ new ∧
      signals new = [RunEvent.done] ∧ started new = [] ∧ pulledRunning new = [] ∧
      (t.mState = State.Stopping → stateWrites new = [State.Stopped] ∧
        withoutStops new = [RunEvent.setState State.Stopped, RunEvent.done]) := by
  unfold finish
  rcases h with h | h <;>
    cases h0 : sched t.tick <;> cases h1 : sched (t.tick + 1) <;>
    cases h2 : sched (t.tick + 1 + 1) <;>
    simp [poll, stop, Thread.emit, h, h0, h1, h2, signals, started, stateWrites,
      pulledRunning, withoutStops, List.filter, List.filterMap]

theorem finish_outcome (sched : Nat → Bool) (t : Thread) (pending : List Str)
    (h : t.mState = State.Running ∨ t.mState = State.Stopping) :
    ∃ new, (finish sched t).trace = t.trace ++ new ∧
      Outcome pending (t.mState = State.Stopping) new := by
  obtain ⟨new, h1, h2, h3, h5, h6⟩ := finish_facts sched t h
  obtain ⟨init, hi⟩ := finish_last sched t
  have hnew : new = init ++ [RunEvent.done] := by
    rw [h1] at hi
    exact List.append_cancel_left hi
  refine ⟨new, h1, ?_, ⟨init, hnew⟩, ?_, ?_, ?_⟩
  · rw [h2, h3]; rfl
  · rw [h3]; exact List.nil_sublist _
  · rw [(scan_none_of_started_nil new h3).1]
    intro x hx
    exact absurd hx (by simp)
  · intro hs
    exact ⟨h2, h3, (h6 hs).1, [], (h6 hs).2⟩

theorem stoppingTail_stop_cons (new : List RunEvent) (h : StoppingTail new) :
    StoppingTail (RunEvent.stop :: new) := by
  obtain ⟨h1, h2, h3, mid, h4⟩ := h
  refine ⟨?_, ?_, ?_, mid, ?_⟩
  · simpa [signals, List.filter] using h1
  · simpa [started, List.filterMap] using h2
  · simpa [stateWrites, List.filterMap] using h3
  · simpa [withoutStops, List.filter] using h4

theorem outcome_stop_cons (pending : List Str) (S S2 : Prop) (new : List RunEvent)
    (h : Outcome pending S new) (hS : S2 → S) :
    Outcome pending S2 (RunEvent.stop :: new) := by
  obtain ⟨h1, ⟨init, h2⟩, h3, h4, h5⟩ := h
  refine ⟨?_, ⟨RunEvent.stop :: init, by rw [h2]; rfl⟩, ?_, ?_, ?_⟩
  · simpa [signals, started, List.filter, List.filterMap] using h1
  · simpa [started, pulledRunning, List.filterMap] using h3
  · rw [scan_cons_stop]
    simpa using h4
  · intro hs
    exact stoppingTail_stop_cons new (h5 (hS hs))
theorem poll_cases (sched : Nat → Bool) (t : Thread) :
    poll sched t = { t with tick := t.tick + 1 } ∨
    poll sched t =
      { t with mState := State.Stopping, trace := t.trace ++ [RunEvent.stop], tick := t.tick + 1 } := by
  cases h : sched t.tick
  · exact Or.inl (poll_false sched t h)
  · exact Or.inr (poll_true sched t h)

theorem scan_stops_none (P rest : List RunEvent) (hP : P = [] ∨ P = [RunEvent.stop]) :
    scan none (P ++ rest) = scan none rest := by
  rcases hP with rfl | rfl
  · rfl
  · simp [scan_cons_stop]

/-- Composition for a pass of a loop that ends with a pull. -/
theorem outcome_pass_pull (f : Str) (ev P new2 : List RunEvent) (pullEv : RunEvent) (S S2 : Prop)
    (hS : ¬ S)
    (hsig : signals ev = [RunEvent.fileChecked f]) (hsta : started ev = [f])
    (hpr : pulledRunning ev = []) (hinf : inFlightFrom none ev = none)
    (hscan : scan none ev = [])
    (hP : P = [] ∨ P = [RunEvent.stop])
    (p1 : isSignal pullEv = false) (p2 : startOf pullEv = none) (p3 : pullEv ≠ RunEvent.stop)
    (p4 : inFlightStep none pullEv = none)
    (h : Outcome (pulledRunning [pullEv]) S2 new2) :
    Outcome [f] S (ev ++ (P ++ (pullEv :: new2))) := by
  obtain ⟨h1, ⟨init, h2⟩, h3, h4, _⟩ := h
  have sP : signals P = [] := by rcases hP with rfl | rfl <;> simp [signals, List.filter]
  have tP : started P = [] := by rcases hP with rfl | rfl <;> simp [started, List.filterMap]
  have rP : pulledRunning P = [] := by
    rcases hP with rfl | rfl <;> simp [pulledRunning, List.filterMap]
  have s1 : signals (pullEv :: new2) = signals new2 := by
    simp [signals, List.filter, p1]
  have t1 : started (pullEv :: new2) = started new2 := by
    simp [started, List.filterMap, p2]
  have r1 : pulledRunning (pullEv :: new2) = pulledRunning [pullEv] ++ pulledRunning new2 := by
    rw [← pulledRunning_append]; rfl
  refine ⟨?_, ⟨ev ++ (P ++ (pullEv :: init)), by rw [h2]; simp⟩, ?_, ?_, fun hs => absurd hs hS⟩
  · rw [signals_append, signals_append, started_append, started_append, hsig, hsta, sP, tP, s1,
      t1, h1]
    simp
  · rw [started_append, started_append, pulledRunning_append, pulledRunning_append, hsta, hpr,
      tP, rP, t1, r1]
    simpa using h3
  · rw [scan_append, hscan, hinf, scan_stops_none _ _ hP, scan_cons_other _ _ _ p3, p4]
    simpa using h4

/-- Composition for a pass of a loop after which the state is Stopping. -/
theorem outcome_pass_stopped (f : Str) (ev new2 : List RunEvent) (pending : List Str)
    (S : Prop) (hS : ¬ S)
    (hsig : signals ev = [RunEvent.fileChecked f]) (hsta : started ev = [f])
    (hinf : inFlightFrom none ev = none)
    (hscan : ∀ x ∈ scan none ev, x.1 = f ∧ signals x.2 = [RunEvent.fileChecked f] ∧
      started x.2 = [] ∧ stateWrites x.2 = [])
    (h : Outcome pending True new2) :
    Outcome [f] S (ev ++ new2) := by
  obtain ⟨h1, ⟨init, h2⟩, _, h4, h5⟩ := h
  obtain ⟨q1, q2, q3, mid, q4⟩ := h5 trivial
  refine ⟨?_, ⟨ev ++ init, by rw [h2]; simp⟩, ?_, ?_, fun hs => absurd hs hS⟩
  · rw [signals_append, started_append, hsig, hsta, q1, q2]
    rfl
  · rw [started_append, hsta, q2]
    simp
  · rw [scan_append, hinf]
    intro x hx
    rcases List.mem_append.mp hx with hx | hx
    · obtain ⟨y, hy, rfl⟩ := List.mem_map.mp hx
      obtain ⟨y1, y2, y3, y4⟩ := hscan y hy
      refine ⟨?_, ?_, ?_, withoutStops y.2 ++ mid, ?_⟩
      · show signals (y.2 ++ new2) = [RunEvent.fileChecked y.1, RunEvent.done]
        rw [signals_append, y2, q1, y1]
        rfl
      · show started (y.2 ++ new2) = []
        rw [started_append, y3, q2]
        rfl
      · show stateWrites (y.2 ++ new2) = [State.Stopped]
        rw [stateWrites_append, y4, q3]
        rfl
      · show withoutStops (y.2 ++ new2) = _
        rw [withoutStops_append, q4, List.append_assoc]
    · exact h4 x hx
theorem poll_running (sched : Nat → Bool) (t : Thread)
    (h : (poll sched t).mState = State.Running) :
    poll sched t = { t with tick := t.tick + 1 } ∧ t.mState = State.Running := by
  rcases poll_cases sched t with hp | hp
  · rw [hp] at h
    exact ⟨hp, h⟩
  · rw [hp] at h
    exact absurd h (by simp)

/-- The loop test fails: the loop ends and `finish` follows. -/
theorem outcome_test_fails (sched : Nat → Bool) (t : Thread) (pending : List Str)
    (hst : t.mState = State.Running ∨ t.mState = State.Stopping) :
    ∃ new, (finish sched (poll sched t)).trace = t.trace ++ new ∧
      Outcome pending (t.mState = State.Stopping) new := by
  rcases poll_cases sched t with hp | hp
  · rw [hp]
    exact finish_outcome sched { t with tick := t.tick + 1 } pending hst
  · rw [hp]
    obtain ⟨fnew, hf1, hfo⟩ := finish_outcome sched
      { t with mState := State.Stopping, trace := t.trace ++ [RunEvent.stop],
               tick := t.tick + 1 } pending (Or.inr rfl)
    refine ⟨RunEvent.stop :: fnew, ?_, outcome_stop_cons _ _ _ fnew hfo (fun _ => rfl)⟩
    rw [hf1]
    simp

theorem settingsLoop_outcome (e : Env) (c : Config) (sched : Nat → Bool) (addonPath : Str) :
    ∀ (fuel : Nat) (fs : FileSettings) (t : Thread) (p : State),
      1 ≤ fuel →
      (fs.filename ≠ [] → t.mState = State.Running → t.fileSettings.length + 2 ≤ fuel) →
      (t.mState = State.Running ∨ t.mState = State.Stopping) →
      (t.mState = State.Running → p = State.Running) →
      ∃ r new, (settingsLoop e c sched addonPath fuel fs t).map (finish sched) = some r ∧
        r.trace = t.trace ++ new ∧
        Outcome (if p = State.Running ∧ fs.filename ≠ [] then [fs.filename] else [])
          (t.mState = State.Stopping) new := by
  intro fuel
  induction fuel with
  | zero => intro fs t p h1; omega
  | succ n ih =>
    intro fs t p _ hN hst hp
    rw [settingsLoop]
    simp only
    split
    · rename_i htest
      simp only [Bool.and_eq_true, Bool.not_eq_true', decide_eq_true_eq] at htest
      obtain ⟨hname, hrun⟩ := htest
      have hne : fs.filename ≠ [] := by
        intro h0
        rw [h0] at hname
        simp at hname
      obtain ⟨hpoll, hR⟩ := poll_running sched t hrun
      have hpR := hp hR
      rw [hpoll]
      obtain ⟨ev, htr, _, hfss, hms, hsig, hsta, _, hpr, hinf, hscan⟩ :=
        processItem_facts sched (RunEvent.checkSettings fs) fs.filename
          (runAddons e c addonPath (some fs) fs.filename) { t with tick := t.tick + 1 } rfl
      generalize processItem sched (RunEvent.checkSettings fs) fs.filename
        (runAddons e c addonPath (some fs) fs.filename) { t with tick := t.tick + 1 } = t2
        at htr hfss hms hscan
      simp only at htr hfss hms
      have hlen := hN hne hR
      split
      · rename_i h2
        have hscan0 : scan none ev = [] := by
          apply List.eq_nil_iff_forall_not_mem.mpr
          intro x hx
          have := (hscan x hx).1
          rw [h2] at this
          exact absurd this (by simp)
        have hP : ∃ P, (P = [] ∨ P = [RunEvent.stop]) ∧ (poll sched t2).trace = t2.trace ++ P ∧
            (poll sched t2).fileSettings = t2.fileSettings ∧
            ((poll sched t2).mState = State.Running ∨ (poll sched t2).mState = State.Stopping) := by
          rcases poll_cases sched t2 with h | h
          · exact ⟨[], Or.inl rfl, by rw [h]; simp, by rw [h], by rw [h]; exact Or.inl h2⟩
          · exact ⟨[RunEvent.stop], Or.inr rfl, by rw [h], by rw [h], by rw [h]; exact Or.inr rfl⟩
        obtain ⟨P, hPc, hPt, hPf, hPs⟩ := hP
        generalize poll sched t2 = t3 at hPt hPf hPs
        obtain ⟨r, new2, hr, hrt, hout⟩ := ih (getNextFileSettings t3.fileSettings).1
          ({ t3 with fileSettings := (getNextFileSettings t3.fileSettings).2 }.emit
            (RunEvent.pulledFileSettings (getNextFileSettings t3.fileSettings).1 t3.mState))
          t3.mState (by omega)
          (by
            intro hn2 _
            simp only [Thread.emit]
            rw [hPf, hfss]
            cases hq : t.fileSettings with
            | nil =>
              rw [hPf, hfss, hq] at hn2
              exact absurd rfl hn2
            | cons a as =>
              rw [hq] at hlen
              simp only [getNextFileSettings, List.length_cons] at hlen ⊢
              omega)
          hPs (fun h => h)
        refine ⟨r, ev ++ (P ++ (RunEvent.pulledFileSettings
          (getNextFileSettings t3.fileSettings).1 t3.mState :: new2)), hr, ?_, ?_⟩
        · rw [hrt]
          simp only [Thread.emit]
          rw [hPt, htr]
          simp
        · simp only [hpR, hne, ne_eq, not_false_eq_true, and_self, if_true]
          refine outcome_pass_pull fs.filename ev P new2 _ _ (t3.mState = State.Stopping)
            (by rw [hR]; simp) hsig hsta hpr hinf hscan0 hPc rfl rfl (by simp) rfl ?_
          rw [pulledRunning_pulledFileSettings]
          exact hout
      · rename_i h2
        have hstop : t2.mState = State.Stopping := by
          rcases hms with h | h
          · rw [h] at h2
            exact absurd hR h2
          · exact h
        obtain ⟨r, new2, hr, hrt, hout⟩ := ih fs t2 p (by omega)
          (fun _ h => absurd h h2) (Or.inr hstop) (fun h => absurd h h2)
        refine ⟨r, ev ++ new2, hr, by rw [hrt, htr]; simp, ?_⟩
        simp only [hpR, hne, ne_eq, not_false_eq_true, and_self, if_true]
        have hout2 : Outcome [fs.filename] True new2 := by
          obtain ⟨a1, a2, a3, a4, a5⟩ := hout
          simp only [hpR, hne, ne_eq, not_false_eq_true, and_self, if_true] at a3
          exact ⟨a1, a2, a3, a4, fun _ => a5 hstop⟩
        exact outcome_pass_stopped fs.filename ev new2 _ _ (by rw [hR]; simp) hsig hsta hinf
          (fun x hx => (hscan x hx).2) hout2
    · obtain ⟨new, hn1, hn2⟩ := outcome_test_fails sched t
        (if p = State.Running ∧ fs.filename ≠ [] then [fs.filename] else []) hst
      exact ⟨finish sched (poll sched t), new, rfl, hn1, hn2⟩
/-- Composition for a pull in front of a loop. -/
theorem outcome_pull (P new2 : List RunEvent) (pullEv : RunEvent) (S S2 : Prop) (hS : S → S2)
    (hP : P = [] ∨ P = [RunEvent.stop])
    (p1 : isSignal pullEv = false) (p2 : startOf pullEv = none) (p3 : pullEv ≠ RunEvent.stop)
    (p4 : inFlightStep none pullEv = none) (p5 : writeOf pullEv = none)
    (p6 : isStop pullEv = false)
    (h : Outcome (pulledRunning [pullEv]) S2 new2) :
    Outcome [] S (P ++ (pullEv :: new2)) := by
  obtain ⟨h1, ⟨init, h2⟩, h3, h4, h5⟩ := h
  have sP : signals P = [] := by rcases hP with rfl | rfl <;> simp [signals, List.filter]
  have tP : started P = [] := by rcases hP with rfl | rfl <;> simp [started, List.filterMap]
  have rP : pulledRunning P = [] := by
    rcases hP with rfl | rfl <;> simp [pulledRunning, List.filterMap]
  have wP : stateWrites P = [] := by
    rcases hP with rfl | rfl <;> simp [stateWrites, List.filterMap]
  have oP : withoutStops P = [] := by
    rcases hP with rfl | rfl <;> simp [withoutStops, List.filter]
  have s1 : signals (pullEv :: new2) = signals new2 := by
    simp [signals, List.filter, p1]
  have t1 : started (pullEv :: new2) = started new2 := by
    simp [started, List.filterMap, p2]
  have w1 : stateWrites (pullEv :: new2) = stateWrites new2 := by
    simp [stateWrites, List.filterMap, p5]
  have o1 : withoutStops (pullEv :: new2) = pullEv :: withoutStops new2 := by
    simp [withoutStops, List.filter, p6]
  have r1 : pulledRunning (pullEv :: new2) = pulledRunning [pullEv] ++ pulledRunning new2 := by
    rw [← pulledRunning_append]; rfl
  refine ⟨?_, ⟨P ++ (pullEv :: init), by rw [h2]; simp⟩, ?_, ?_, ?_⟩
  · rw [signals_append, started_append, sP, tP, s1, t1, h1]
    simp
  · rw [started_append, pulledRunning_append, tP, rP, t1, r1]
    simpa using h3
  · rw [scan_stops_none _ _ hP, scan_cons_other _ _ _ p3, p4]
    exact h4
  · intro hs
    obtain ⟨q1, q2, q3, mid, q4⟩ := h5 (hS hs)
    refine ⟨?_, ?_, ?_, pullEv :: mid, ?_⟩
    · rw [signals_append, sP, s1, q1]; rfl
    · rw [started_append, tP, t1, q2]; rfl
    · rw [stateWrites_append, wP, w1, q3]; rfl
    · rw [withoutStops_append, oP, o1, q4]; rfl

theorem settingsPhase_outcome (e : Env) (c : Config) (sched : Nat → Bool) (addonPath : Str)
    (fuel : Nat) (t : Thread) (hfuel : t.fileSettings.length + 1 ≤ fuel)
    (hst : t.mState = State.Running ∨ t.mState = State.Stopping) :
    ∃ r new, settingsPhase e c sched addonPath fuel t = some r ∧ r.trace = t.trace ++ new ∧
      Outcome [] (t.mState = State.Stopping) new := by
  unfold settingsPhase
  simp only
  have hP : ∃ P, (P = [] ∨ P = [RunEvent.stop]) ∧ (poll sched t).trace = t.trace ++ P ∧
      (poll sched t).fileSettings = t.fileSettings ∧
      ((poll sched t).mState = State.Running ∨ (poll sched t).mState = State.Stopping) ∧
      (t.mState = State.Stopping → (poll sched t).mState = State.Stopping) := by
    rcases poll_cases sched t with h | h
    · exact ⟨[], Or.inl rfl, by rw [h]; simp, by rw [h], by rw [h]; exact hst,
        by rw [h]; exact fun h => h⟩
    · exact ⟨[RunEvent.stop], Or.inr rfl, by rw [h], by rw [h], by rw [h]; exact Or.inr rfl,
        by rw [h]; exact fun _ => rfl⟩
  obtain ⟨P, hPc, hPt, hPf, hPs, hPk⟩ := hP
  generalize poll sched t = t3 at hPt hPf hPs hPk
  obtain ⟨r, new2, hr, hrt, hout⟩ := settingsLoop_outcome e c sched addonPath fuel
    (getNextFileSettings t3.fileSettings).1
    ({ t3 with fileSettings := (getNextFileSettings t3.fileSettings).2 }.emit
      (RunEvent.pulledFileSettings (getNextFileSettings t3.fileSettings).1 t3.mState))
    t3.mState (by omega)
    (by
      intro hn2 _
      simp only [Thread.emit]
      rw [hPf]
      cases hq : t.fileSettings with
      | nil =>
        rw [hPf, hq] at hn2
        exact absurd rfl hn2
      | cons a as =>
        rw [hq] at hfuel
        simp only [getNextFileSettings, List.length_cons] at hfuel ⊢
        omega)
    hPs (fun h => h)
  refine ⟨r, P ++ (RunEvent.pulledFileSettings (getNextFileSettings t3.fileSettings).1
    t3.mState :: new2), hr, ?_, ?_⟩
  · rw [hrt]
    simp only [Thread.emit]
    rw [hPt]
    simp
  · refine outcome_pull P new2 _ _ (t3.mState = State.Stopping) hPk hPc rfl rfl (by simp) rfl rfl
      rfl ?_
    rw [pulledRunning_pulledFileSettings]
    exact hout

theorem outcome_weaken (pending : List Str) (S : Prop) (new : List RunEvent)
    (h : Outcome [] S new) : Outcome pending S new := by
  obtain ⟨h1, h2, h3, h4, h5⟩ := h
  refine ⟨h1, h2, ?_, h4, h5⟩
  exact h3.trans (List.sublist_append_right _ _)

/-- The test of the first loop fails: the second phase follows. -/
theorem outcome_files_done (e : Env) (c : Config) (sched : Nat → Bool) (addonPath : Str)
    (fuel2 : Nat) (t : Thread) (pending : List Str)
    (hfuel : t.fileSettings.length + 1 ≤ fuel2)
    (hst : t.mState = State.Running ∨ t.mState = State.Stopping) :
    ∃ r new, settingsPhase e c sched addonPath fuel2 (poll sched t) = some r ∧
      r.trace = t.trace ++ new ∧ Outcome pending (t.mState = State.Stopping) new := by
  rcases poll_cases sched t with hp | hp
  · rw [hp]
    obtain ⟨r, new, h1, h2, h3⟩ := settingsPhase_outcome e c sched addonPath fuel2
      { t with tick := t.tick + 1 } hfuel hst
    exact ⟨r, new, h1, h2, outcome_weaken _ _ _ h3⟩
  · rw [hp]
    obtain ⟨r, new, h1, h2, h3⟩ := settingsPhase_outcome e c sched addonPath fuel2
      { t with mState := State.Stopping, trace := t.trace ++ [RunEvent.stop],
               tick := t.tick + 1 } hfuel (Or.inr rfl)
    refine ⟨r, RunEvent.stop :: new, h1, ?_,
      outcome_stop_cons _ _ _ new (outcome_weaken _ _ _ h3) (fun _ => rfl)⟩
    rw [h2]
    simp

theorem fileLoop_outcome (e : Env) (c : Config) (sched : Nat → Bool) (addonPath : Str)
    (fuel2 : Nat) :
    ∀ (fuel : Nat) (file : Str) (t : Thread) (p : State),
      1 ≤ fuel →
      (file ≠ [] → t.mState = State.Running → t.files.length + 2 ≤ fuel) →
      t.fileSettings.length + 1 ≤ fuel2 →
      (t.mState = State.Running ∨ t.mState = State.Stopping) →
      (t.mState = State.Running → p = State.Running) →
      ∃ r new, (fileLoop e c sched addonPath fuel file t).bind
          (settingsPhase e c sched addonPath fuel2) = some r ∧
        r.trace = t.trace ++ new ∧
        Outcome (if p = State.Running ∧ file ≠ [] then [file] else [])
          (t.mState = State.Stopping) new := by
  intro fuel
  induction fuel with
  | zero => intro file t p h1; omega
  | succ n ih =>
    intro file t p _ hN hfuel2 hst hp
    rw [fileLoop]
    simp only
    split
    · rename_i htest
      simp only [Bool.and_eq_true, Bool.not_eq_true', decide_eq_true_eq] at htest
      obtain ⟨hname, hrun⟩ := htest
      have hne : file ≠ [] := by
        intro h0
        rw [h0] at hname
        simp at hname
      obtain ⟨hpoll, hR⟩ := poll_running sched t hrun
      have hpR := hp hR
      rw [hpoll]
      obtain ⟨ev, htr, hfl, hfss, hms, hsig, hsta, _, hpr, hinf, hscan⟩ :=
        processItem_facts sched (RunEvent.check file) file
          (runAddons e c addonPath none file) { t with tick := t.tick + 1 } rfl
      generalize processItem sched (RunEvent.check file) file
        (runAddons e c addonPath none file) { t with tick := t.tick + 1 } = t2
        at htr hfl hfss hms hscan
      simp only at htr hfl hfss hms
      have hlen := hN hne hR
      split
      · rename_i h2
        have hscan0 : scan none ev = [] := by
          apply List.eq_nil_iff_forall_not_mem.mpr
          intro x hx
          have := (hscan x hx).1
          rw [h2] at this
          exact absurd this (by simp)
        have hP : ∃ P, (P = [] ∨ P = [RunEvent.stop]) ∧ (poll sched t2).trace = t2.trace ++ P ∧
            (poll sched t2).files = t2.files ∧
            (poll sched t2).fileSettings = t2.fileSettings ∧
            ((poll sched t2).mState = State.Running ∨ (poll sched t2).mState = State.Stopping) := by
          rcases poll_cases sched t2 with h | h
          · exact ⟨[], Or.inl rfl, by rw [h]; simp, by rw [h], by rw [h],
              by rw [h]; exact Or.inl h2⟩
          · exact ⟨[RunEvent.stop], Or.inr rfl, by rw [h], by rw [h], by rw [h],
              by rw [h]; exact Or.inr rfl⟩
        obtain ⟨P, hPc, hPt, hPl, hPf, hPs⟩ := hP
        generalize poll sched t2 = t3 at hPt hPl hPf hPs
        obtain ⟨r, new2, hr, hrt, hout⟩ := ih (getNextFile t3.files).1
          ({ t3 with files := (getNextFile t3.files).2 }.emit
            (RunEvent.pulledFile (getNextFile t3.files).1 t3.mState))
          t3.mState (by omega)
          (by
            intro hn2 _
            simp only [Thread.emit]
            rw [hPl, hfl]
            cases hq : t.files with
            | nil =>
              rw [hPl, hfl, hq] at hn2
              exact absurd rfl hn2
            | cons a as =>
              rw [hq] at hlen
              simp only [getNextFile, List.length_cons] at hlen ⊢
              omega)
          (by simp only [Thread.emit]; rw [hPf, hfss]; exact hfuel2)
          hPs (fun h => h)
        refine ⟨r, ev ++ (P ++ (RunEvent.pulledFile (getNextFile t3.files).1 t3.mState :: new2)),
          hr, ?_, ?_⟩
        · rw [hrt]
          simp only [Thread.emit]
          rw [hPt, htr]
          simp
        · simp only [hpR, hne, ne_eq, not_false_eq_true, and_self, if_true]
          refine outcome_pass_pull file ev P new2 _ _ (t3.mState = State.Stopping)
            (by rw [hR]; simp) hsig hsta hpr hinf hscan0 hPc rfl rfl (by simp) rfl ?_
          rw [pulledRunning_pulledFile]
          exact hout
      · rename_i h2
        have hstop : t2.mState = State.Stopping := by
          rcases hms with h | h
          · rw [h] at h2
            exact absurd hR h2
          · exact h
        obtain ⟨r, new2, hr, hrt, hout⟩ := ih file t2 p (by omega)
          (fun _ h => absurd h h2) (by rw [hfss]; exact hfuel2) (Or.inr hstop)
          (fun h => absurd h h2)
        refine ⟨r, ev ++ new2, hr, by rw [hrt, htr]; simp, ?_⟩
        simp only [hpR, hne, ne_eq, not_false_eq_true, and_self, if_true]
        have hout2 : Outcome [file] True new2 := by
          obtain ⟨a1, a2, a3, a4, a5⟩ := hout
          simp only [hpR, hne, ne_eq, not_false_eq_true, and_self, if_true] at a3
          exact ⟨a1, a2, a3, a4, fun _ => a5 hstop⟩
        exact outcome_pass_stopped file ev new2 _ _ (by rw [hR]; simp) hsig hsta hinf
          (fun x hx => (hscan x hx).2) hout2
    · exact outcome_files_done e c sched addonPath fuel2 t _ hfuel2 hst
theorem wholeProgram_facts (sched : Nat → Bool) (t : Thread) :
    ∃ new, (wholeProgram sched t).trace = t.trace ++ new ∧
      signals new = [RunEvent.done] ∧ started new = [] ∧
      ∃ init, new = init ++ [RunEvent.done] := by
  unfold wholeProgram
  by_cases hb : t.world.settings.buildDir.isEmpty = true
  · cases h0 : sched t.tick
    · refine ⟨[RunEvent.done], ?_, rfl, rfl, [], rfl⟩
      simp [poll, stop, Thread.emit, hb, h0]
    · refine ⟨[RunEvent.stop, RunEvent.done], ?_, rfl, rfl, [RunEvent.stop], rfl⟩
      simp [poll, stop, Thread.emit, hb, h0]
  · cases h0 : sched t.tick <;> cases h1 : sched (t.tick + 1)
    · refine ⟨[RunEvent.analyseWholeProgram t.world.settings.buildDir (mapKeys t.mFiles), RunEvent.done],
        ?_, rfl, rfl, [_], rfl⟩
      simp [poll, stop, Thread.emit, hb, h0, h1]
    · refine ⟨[RunEvent.analyseWholeProgram t.world.settings.buildDir (mapKeys t.mFiles), RunEvent.stop,
        RunEvent.done], ?_, rfl, rfl, [_, _], rfl⟩
      simp [poll, stop, Thread.emit, hb, h0, h1]
    · refine ⟨[RunEvent.stop, RunEvent.analyseWholeProgram t.world.settings.buildDir (mapKeys t.mFiles),
        RunEvent.done], ?_, rfl, rfl, [_, _], rfl⟩
      simp [poll, stop, Thread.emit, hb, h0, h1]
    · refine ⟨[RunEvent.stop, RunEvent.analyseWholeProgram t.world.settings.buildDir (mapKeys t.mFiles),
        RunEvent.stop, RunEvent.done], ?_, rfl, rfl, [_, _, _], rfl⟩
      simp [poll, stop, Thread.emit, hb, h0, h1]

theorem incremental_outcome (e : Env) (c : Config) (sched : Nat → Bool) (fuel : Nat)
    (t : Thread) (hfuel : t.files.length + t.fileSettings.length + 2 ≤ fuel)
    (hst : t.mState = State.Running ∨ t.mState = State.Stopping) :
    ∃ r new, incremental e c sched fuel t = some r ∧ r.trace = t.trace ++ new ∧
      Outcome [] (t.mState = State.Stopping) new := by
  unfold incremental
  simp only
  have hP : ∃ P, (P = [] ∨ P = [RunEvent.stop]) ∧ (poll sched t).trace = t.trace ++ P ∧
      (poll sched t).files = t.files ∧
      (poll sched t).fileSettings = t.fileSettings ∧
      ((poll sched t).mState = State.Running ∨ (poll sched t).mState = State.Stopping) ∧
      (t.mState = State.Stopping → (poll sched t).mState = State.Stopping) := by
    rcases poll_cases sched t with h | h
    · exact ⟨[], Or.inl rfl, by rw [h]; simp, by rw [h], by rw [h], by rw [h]; exact hst,
        by rw [h]; exact fun h => h⟩
    · exact ⟨[RunEvent.stop], Or.inr rfl, by rw [h], by rw [h], by rw [h],
        by rw [h]; exact Or.inr rfl, by rw [h]; exact fun _ => rfl⟩
  obtain ⟨P, hPc, hPt, hPl, hPf, hPs, hPk⟩ := hP
  generalize poll sched t = t3 at hPt hPl hPf hPs hPk
  obtain ⟨r, new2, hr, hrt, hout⟩ := fileLoop_outcome e c sched (getAddonPath e c) fuel fuel
    (getNextFile t3.files).1
    ({ t3 with files := (getNextFile t3.files).2 }.emit
      (RunEvent.pulledFile (getNextFile t3.files).1 t3.mState))
    t3.mState (by omega)
    (by
      intro hn2 _
      simp only [Thread.emit]
      rw [hPl]
      cases hq : t.files with
      | nil =>
        rw [hPl, hq] at hn2
        exact absurd rfl hn2
      | cons a as =>
        rw [hq] at hfuel
        simp only [getNextFile, List.length_cons] at hfuel ⊢
        omega)
    (by simp only [Thread.emit]; rw [hPf]; omega)
    hPs (fun h => h)
  refine ⟨r, P ++ (RunEvent.pulledFile (getNextFile t3.files).1 t3.mState :: new2), hr, ?_, ?_⟩
  · rw [hrt]
    simp only [Thread.emit]
    rw [hPt]
    simp
  · refine outcome_pull P new2 _ _ (t3.mState = State.Stopping) hPk hPc rfl rfl (by simp) rfl rfl
      rfl ?_
    rw [pulledRunning_pulledFile]
    exact hout

theorem start_facts (sched : Nat → Bool) (t : Thread) :
    ∃ P Q, (P = [] ∨ P = [RunEvent.stop]) ∧ (Q = [] ∨ Q = [RunEvent.stop]) ∧
      (start sched t).trace = t.trace ++ (P ++ [RunEvent.setState State.Running] ++ Q) ∧
      (start sched t).files = t.files ∧ (start sched t).fileSettings = t.fileSettings ∧
      (start sched t).mFiles = t.mFiles ∧
      (start sched t).mAnalyseWholeProgram = t.mAnalyseWholeProgram ∧
      ((start sched t).mState = State.Running ∨ (start sched t).mState = State.Stopping) := by
  unfold start
  cases h0 : sched t.tick <;> cases h1 : sched (t.tick + 1)
  · exact ⟨[], [], Or.inl rfl, Or.inl rfl, by simp [poll, stop, Thread.emit, h0, h1]⟩
  · exact ⟨[], [RunEvent.stop], Or.inl rfl, Or.inr rfl,
      by simp [poll, stop, Thread.emit, h0, h1]⟩
  · exact ⟨[RunEvent.stop], [], Or.inr rfl, Or.inl rfl,
      by simp [poll, stop, Thread.emit, h0, h1]⟩
  · exact ⟨[RunEvent.stop], [RunEvent.stop], Or.inr rfl, Or.inr rfl,
      by simp [poll, stop, Thread.emit, h0, h1]⟩

/-- Facts about a whole execution of `run`. -/
theorem run_outcome (e : Env) (c : Config) (sched : Nat → Bool) (fuel : Nat) (t : Thread)
    (hfuel : t.files.length + t.fileSettings.length + 2 ≤ fuel) :
    ∃ r new, run e c sched fuel t = some r ∧ r.trace = t.trace ++ new ∧
      signals new = (started new).map RunEvent.fileChecked ++ [RunEvent.done] ∧
      (∃ init, new = init ++ [RunEvent.done]) ∧
      (started new).Sublist (pulledRunning new) ∧
      (∀ x ∈ scan none new, StopOutcome x.1 x.2) := by
  unfold run
  simp only
  obtain ⟨P, Q, hPc, hQc, htr, hfl, hfs, _, _, hst⟩ := start_facts sched t
  generalize start sched t = t1 at htr hfl hfs hst
  have sPQ : ∀ rest, signals (P ++ [RunEvent.setState State.Running] ++ Q ++ rest) =
      signals rest := by
    intro rest
    rcases hPc with rfl | rfl <;> rcases hQc with rfl | rfl <;> simp [signals, List.filter]
  have tPQ : ∀ rest, started (P ++ [RunEvent.setState State.Running] ++ Q ++ rest) =
      started rest := by
    intro rest
    rcases hPc with rfl | rfl <;> rcases hQc with rfl | rfl <;> simp [started, List.filterMap]
  have rPQ : ∀ rest, pulledRunning (P ++ [RunEvent.setState State.Running] ++ Q ++ rest) =
      pulledRunning rest := by
    intro rest
    rcases hPc with rfl | rfl <;> rcases hQc with rfl | rfl <;>
      simp [pulledRunning, List.filterMap]
  have cPQ : ∀ rest, scan none (P ++ [RunEvent.setState State.Running] ++ Q ++ rest) =
      scan none rest := by
    intro rest
    rcases hPc with rfl | rfl <;> rcases hQc with rfl | rfl <;>
      simp [scan_cons_stop, scan_cons_other]
  split
  · obtain ⟨new, hw, w1, w2, init, w3⟩ := wholeProgram_facts sched t1
    refine ⟨_, P ++ [RunEvent.setState State.Running] ++ Q ++ new, rfl, ?_, ?_, ?_, ?_, ?_⟩
    · rw [hw, htr]; simp
    · rw [sPQ, tPQ, w1, w2]; rfl
    · exact ⟨P ++ [RunEvent.setState State.Running] ++ Q ++ init, by rw [w3]; simp⟩
    · rw [tPQ, w2]; exact List.nil_sublist _
    · rw [cPQ, (scan_none_of_started_nil new w2).1]
      intro x hx
      exact absurd hx (by simp)
  · obtain ⟨r, new, hr, hrt, o1, ⟨init, o2⟩, o3, o4, _⟩ :=
      incremental_outcome e c sched fuel t1 (by rw [hfl, hfs]; exact hfuel) hst
    refine ⟨r, P ++ [RunEvent.setState State.Running] ++ Q ++ new, hr, ?_, ?_, ?_, ?_, ?_⟩
    · rw [hrt, htr]; simp
    · rw [sPQ, tPQ, o1]
    · exact ⟨P ++ [RunEvent.setState State.Running] ++ Q ++ init, by rw [o2]; simp⟩
    · rw [tPQ, rPQ]; simpa using o3
    · rw [cPQ]; exact o4

/-! ## Lemmas on a run without cancellation -/

theorem processItem_never (sched : Nat → Bool) (hno : ∀ k, sched k = false) (checkEv : RunEvent)
    (file : Str) (addons : World → World) (t : Thread) :
    processItem sched checkEv file addons t =
      { t with world := addons t.world, tick := t.tick + 1 + 1 + 1 + 1,
               trace := t.trace ++ [checkEv, RunEvent.runAddons file, RunEvent.fileChecked file] } := by
  simp [processItem, poll, hno, Thread.emit]

theorem finish_never (sched : Nat → Bool) (hno : ∀ k, sched k = false) (t : Thread)
    (h : t.mState = State.Running) :
    (finish sched t).mState = State.Ready ∧ (finish sched t).files = t.files ∧
      (finish sched t).fileSettings = t.fileSettings ∧
      started (finish sched t).trace = started t.trace := by
  simp [finish, poll, hno, Thread.emit, h, started_append, started, List.filterMap]

theorem settingsLoop_never (e : Env) (c : Config) (sched : Nat → Bool)
    (hno : ∀ k, sched k = false) (addonPath : Str) :
    ∀ (fuel : Nat) (fs : FileSettings) (t : Thread),
      1 ≤ fuel → (fs.filename ≠ [] → t.fileSettings.length + 2 ≤ fuel) →
      t.mState = State.Running →
      ∃ r, settingsLoop e c sched addonPath fuel fs t = some r ∧ r.mState = State.Running ∧
        r.files = t.files ∧
        ((fs.filename = [] → t.fileSettings = []) → (∀ g ∈ t.fileSettings, g.filename ≠ []) →
          r.fileSettings = [] ∧
          started r.trace = started t.trace ++
            ((if fs.filename = [] then [] else [fs.filename]) ++
              t.fileSettings.map (fun g => g.filename))) := by
  intro fuel
  induction fuel with
  | zero => intro fs t h1; omega
  | succ n ih =>
    intro fs t _ hN hR
    rw [settingsLoop]
    simp only
    rw [poll_false sched t (hno _)]
    by_cases hname : fs.filename = []
    · have hemp : fs.filename.isEmpty = true := by rw [hname]; rfl
      simp only [hemp, Bool.not_true, Bool.false_and, Bool.false_eq_true, if_false]
      refine ⟨_, rfl, hR, rfl, ?_⟩
      intro hq _
      simp [hq hname, hname]
    · have hne : fs.filename.isEmpty = false := isEmpty_eq_false_of_ne _ hname
      simp only [hne, hR, Bool.not_false, decide_True, Bool.and_self, if_true]
      rw [processItem_never sched hno]
      simp only [hR, if_true]
      rw [poll_false sched _ (hno _)]
      have hlen := hN hname
      obtain ⟨r, hr, hrR, hrf, hrest⟩ := ih (getNextFileSettings t.fileSettings).1
        ({ ({ ({ ({ t with tick := t.tick + 1 } : Thread) with
            world := runAddons e c addonPath (some fs) fs.filename t.world,
            tick := t.tick + 1 + 1 + 1 + 1 + 1,
            trace := t.trace ++ [RunEvent.checkSettings fs, RunEvent.runAddons fs.filename,
              RunEvent.fileChecked fs.filename] } : Thread) with
            tick := t.tick + 1 + 1 + 1 + 1 + 1 + 1 } : Thread) with
            fileSettings := (getNextFileSettings t.fileSettings).2 }.emit
          (RunEvent.pulledFileSettings (getNextFileSettings t.fileSettings).1 t.mState))
        (by omega)
        (by
          intro hn2
          simp only [Thread.emit]
          cases hq : t.fileSettings with
          | nil =>
            rw [hq] at hn2
            exact absurd rfl hn2
          | cons a as =>
            rw [hq] at hlen
            simp only [getNextFileSettings, List.length_cons] at hlen ⊢
            omega)
        hR
      refine ⟨r, ?_, hrR, ?_, ?_⟩
      · rw [← hr]
        simp [Thread.emit, hR]
      · rw [hrf]
        simp [Thread.emit]
      · intro _ hall
        have h1 : ((getNextFileSettings t.fileSettings).1.filename = [] →
            (getNextFileSettings t.fileSettings).2 = []) := by
          intro h0
          cases hq : t.fileSettings with
          | nil => rfl
          | cons a as =>
            rw [hq] at h0
            exact absurd h0 (hall a (by rw [hq]; simp))
        have h2 : ∀ g ∈ (getNextFileSettings t.fileSettings).2, g.filename ≠ [] := by
          intro g hg
          apply hall
          cases hq : t.fileSettings with
          | nil => rw [hq] at hg; exact absurd hg (by simp [getNextFileSettings])
          | cons a as =>
            rw [hq] at hg
            simp only [getNextFileSettings] at hg
            simp [hg]
        obtain ⟨hr1, hr2⟩ := hrest (by simpa [Thread.emit] using h1)
          (by simpa [Thread.emit] using h2)
        refine ⟨hr1, ?_⟩
        rw [hr2]
        simp only [Thread.emit, started_append]
        cases hq : t.fileSettings with
        | nil => simp [getNextFileSettings, FileSettings.empty, started, List.filterMap, hname, startOf]
        | cons a as =>
          have ha : a.filename ≠ [] := hall a (by rw [hq]; simp)
          simp [getNextFileSettings, started, List.filterMap, hname, startOf, ha]
theorem settingsPhase_never (e : Env) (c : Config) (sched : Nat → Bool)
    (hno : ∀ k, sched k = false) (addonPath : Str) (fuel : Nat) (t : Thread)
    (hfuel : t.fileSettings.length + 1 ≤ fuel) (hR : t.mState = State.Running) :
    ∃ r, settingsPhase e c sched addonPath fuel t = some r ∧ r.mState = State.Ready ∧
      r.files = t.files ∧
      ((∀ g ∈ t.fileSettings, g.filename ≠ []) →
        r.fileSettings = [] ∧
        started r.trace = started t.trace ++ t.fileSettings.map (fun g => g.filename)) := by
  unfold settingsPhase
  simp only
  rw [poll_false sched t (hno _)]
  obtain ⟨r, hr, hrR, hrf, hrest⟩ := settingsLoop_never e c sched hno addonPath fuel
    (getNextFileSettings t.fileSettings).1
    ({ ({ t with tick := t.tick + 1 } : Thread) with
        fileSettings := (getNextFileSettings t.fileSettings).2 }.emit
      (RunEvent.pulledFileSettings (getNextFileSettings t.fileSettings).1 t.mState))
    (by omega)
    (by
      intro hn2
      simp only [Thread.emit]
      cases hq : t.fileSettings with
      | nil =>
        rw [hq] at hn2
        exact absurd rfl hn2
      | cons a as =>
        rw [hq] at hfuel
        simp only [getNextFileSettings, List.length_cons] at hfuel ⊢
        omega)
    hR
  obtain ⟨f1, f2, f3, f4⟩ := finish_never sched hno r hrR
  refine ⟨finish sched r, ?_, f1, ?_, ?_⟩
  · simp only at hr
    rw [hr]
    rfl
  · rw [f2, hrf]
    simp [Thread.emit]
  · intro hall
    have h1 : ((getNextFileSettings t.fileSettings).1.filename = [] →
        (getNextFileSettings t.fileSettings).2 = []) := by
      intro h0
      cases hq : t.fileSettings with
      | nil => rfl
      | cons a as =>
        rw [hq] at h0
        exact absurd h0 (hall a (by rw [hq]; simp))
    have h2 : ∀ g ∈ (getNextFileSettings t.fileSettings).2, g.filename ≠ [] := by
      intro g hg
      apply hall
      cases hq : t.fileSettings with
      | nil => rw [hq] at hg; exact absurd hg (by simp [getNextFileSettings])
      | cons a as =>
        rw [hq] at hg
        simp only [getNextFileSettings] at hg
        simp [hg]
    obtain ⟨hr1, hr2⟩ := hrest (by simpa [Thread.emit] using h1)
      (by simpa [Thread.emit] using h2)
    refine ⟨by rw [f3, hr1], ?_⟩
    rw [f4, hr2]
    simp only [Thread.emit, started_append]
    cases hq : t.fileSettings with
    | nil => simp [getNextFileSettings, FileSettings.empty, started, List.filterMap, startOf]
    | cons a as =>
      have ha : a.filename ≠ [] := hall a (by rw [hq]; simp)
      simp [getNextFileSettings, started, List.filterMap, startOf, ha]

theorem fileLoop_never (e : Env) (c : Config) (sched : Nat → Bool)
    (hno : ∀ k, sched k = false) (addonPath : Str) (fuel2 : Nat) :
    ∀ (fuel : Nat) (file : Str) (t : Thread),
      1 ≤ fuel → (file ≠ [] → t.files.length + 2 ≤ fuel) →
      t.fileSettings.length + 1 ≤ fuel2 → t.mState = State.Running →
      ∃ r, (fileLoop e c sched addonPath fuel file t).bind
          (settingsPhase e c sched addonPath fuel2) = some r ∧
        r.mState = State.Ready ∧
        ((file = [] → t.files = []) → (∀ f ∈ t.files, f ≠ []) →
          (∀ g ∈ t.fileSettings, g.filename ≠ []) →
          r.files = [] ∧ r.fileSettings = [] ∧
          started r.trace = started t.trace ++
            ((if file = [] then [] else [file]) ++ t.files ++
              t.fileSettings.map (fun g => g.filename))) := by
  intro fuel
  induction fuel with
  | zero => intro file t h1; omega
  | succ n ih =>
    intro file t _ hN hfuel2 hR
    rw [fileLoop]
    simp only
    rw [poll_false sched t (hno _)]
    by_cases hname : file = []
    · have hemp : file.isEmpty = true := by rw [hname]; rfl
      simp only [hemp, Bool.not_true, Bool.false_and, Bool.false_eq_true, if_false,
        Option.bind_some]
      obtain ⟨r, hr, hrR, hrf, hrest⟩ := settingsPhase_never e c sched hno addonPath fuel2
        { t with tick := t.tick + 1 } hfuel2 hR
      refine ⟨r, hr, hrR, ?_⟩
      intro hq _ hall
      obtain ⟨g1, g2⟩ := hrest hall
      refine ⟨by rw [hrf]; exact hq hname, g1, ?_⟩
      rw [g2]
      simp [hname, hq hname]
    · have hne : file.isEmpty = false := isEmpty_eq_false_of_ne _ hname
      simp only [hne, hR, Bool.not_false, decide_True, Bool.and_self, if_true]
      rw [processItem_never sched hno]
      simp only [hR, if_true]
      rw [poll_false sched _ (hno _)]
      have hlen := hN hname
      obtain ⟨r, hr, hrR, hrest⟩ := ih (getNextFile t.files).1
        ({ ({ ({ ({ t with tick := t.tick + 1 } : Thread) with
            world := runAddons e c addonPath none file t.world,
            tick := t.tick + 1 + 1 + 1 + 1 + 1,
            trace := t.trace ++ [RunEvent.check file, RunEvent.runAddons file,
              RunEvent.fileChecked file] } : Thread) with
            tick := t.tick + 1 + 1 + 1 + 1 + 1 + 1 } : Thread) with
            files := (getNextFile t.files).2 }.emit
          (RunEvent.pulledFile (getNextFile t.files).1 t.mState))
        (by omega)
        (by
          intro hn2
          simp only [Thread.emit]
          cases hq : t.files with
          | nil =>
            rw [hq] at hn2
            exact absurd rfl hn2
          | cons a as =>
            rw [hq] at hlen
            simp only [getNextFile, List.length_cons] at hlen ⊢
            omega)
        (by simpa [Thread.emit] using hfuel2)
        hR
      refine ⟨r, ?_, hrR, ?_⟩
      · rw [← hr]
        simp [Thread.emit, hR]
      · intro _ hall hall2
        have h1 : ((getNextFile t.files).1 = [] → (getNextFile t.files).2 = []) := by
          intro h0
          cases hq : t.files with
          | nil => rfl
          | cons a as =>
            rw [hq] at h0
            exact absurd h0 (hall a (by rw [hq]; simp))
        have h2 : ∀ g ∈ (getNextFile t.files).2, g ≠ [] := by
          intro g hg
          apply hall
          cases hq : t.files with
          | nil => rw [hq] at hg; exact absurd hg (by simp [getNextFile])
          | cons a as =>
            rw [hq] at hg
            simp only [getNextFile] at hg
            simp [hg]
        obtain ⟨hr1, hr2, hr3⟩ := hrest (by simpa [Thread.emit] using h1)
          (by simpa [Thread.emit] using h2) (by simpa [Thread.emit] using hall2)
        refine ⟨hr1, hr2, ?_⟩
        rw [hr3]
        simp only [Thread.emit, started_append]
        cases hq : t.files with
        | nil => simp [getNextFile, started, List.filterMap, hname, startOf]
        | cons a as =>
          have ha : a ≠ [] := hall a (by rw [hq]; simp)
          simp [getNextFile, started, List.filterMap, hname, startOf, ha]

theorem run_never (e : Env) (c : Config) (sched : Nat → Bool) (hno : ∀ k, sched k = false)
    (fuel : Nat) (t : Thread) (ht : t.trace = [])
    (hinc : t.mFiles = [] ∧ t.mAnalyseWholeProgram = false)
    (hfuel : t.files.length + t.fileSettings.length + 2 ≤ fuel) :
    ∃ r, run e c sched fuel t = some r ∧ r.mState = State.Ready ∧
      ((∀ f ∈ t.files, f ≠ []) → (∀ g ∈ t.fileSettings, g.filename ≠ []) →
        r.files = [] ∧ r.fileSettings = [] ∧
        started r.trace = t.files ++ t.fileSettings.map (fun g => g.filename)) := by
  unfold run start incremental
  simp only
  rw [poll_false sched t (hno _)]
  simp only [Thread.emit]
  rw [poll_false sched _ (hno _)]
  simp only [hinc.1, hinc.2, List.isEmpty_nil, Bool.not_true, Bool.or_self, Bool.false_eq_true,
    if_false]
  rw [poll_false sched _ (hno _)]
  obtain ⟨r, hr, hrR, hrest⟩ := fileLoop_never e c sched hno (getAddonPath e c) fuel fuel
    (getNextFile t.files).1
    { mState := State.Running, mFiles := t.mFiles, mAnalyseWholeProgram := t.mAnalyseWholeProgram,
      files := (getNextFile t.files).2, fileSettings := t.fileSettings, world := t.world,
      tick := t.tick + 1 + 1 + 1,
      trace := t.trace ++ [RunEvent.setState State.Running] ++
        [RunEvent.pulledFile (getNextFile t.files).1 State.Running] }
    (by omega)
    (by
      intro hn2
      cases hq : t.files with
      | nil =>
        rw [hq] at hn2
        exact absurd rfl hn2
      | cons a as =>
        rw [hq] at hfuel
        simp only [getNextFile, List.length_cons] at hfuel ⊢
        omega)
    (by simp only; omega)
    rfl
  refine ⟨r, ?_, hrR, ?_⟩
  · rw [← hr]
    simp [hinc.1, hinc.2]
  intro hall hall2
  have h1 : ((getNextFile t.files).1 = [] → (getNextFile t.files).2 = []) := by
    intro h0
    cases hq : t.files with
    | nil => rfl
    | cons a as =>
      rw [hq] at h0
      exact absurd h0 (hall a (by rw [hq]; simp))
  have h2 : ∀ g ∈ (getNextFile t.files).2, g ≠ [] := by
    intro g hg
    apply hall
    cases hq : t.files with
    | nil => rw [hq] at hg; exact absurd hg (by simp [getNextFile])
    | cons a as =>
      rw [hq] at hg
      simp only [getNextFile] at hg
      simp [hg]
  obtain ⟨hr1, hr2, hr3⟩ := hrest h1 h2 hall2
  refine ⟨hr1, hr2, ?_⟩
  rw [hr3, ht]
  cases hq : t.files with
  | nil => simp [getNextFile, started, List.filterMap, startOf]
  | cons a as =>
    have ha : a ≠ [] := hall a (by rw [hq]; simp)
    simp [getNextFile, started, List.filterMap, startOf, ha]

/-! ## Lemmas on the items taken from the queue -/

theorem poll_pulledRunning (sched : Nat → Bool) (t : Thread) :
    pulledRunning (poll sched t).trace = pulledRunning t.trace ∧
      started (poll sched t).trace = started t.trace ∧
      ((poll sched t).mState = State.Running → t.mState = State.Running) ∧
      ((∀ k, sched k = false) → (poll sched t).mState = t.mState) := by
  rcases poll_cases sched t with h | h
  · rw [h]
    exact ⟨rfl, rfl, fun h => h, fun _ => rfl⟩
  · rw [h]
    refine ⟨?_, ?_, ?_, ?_⟩
    · simp [pulledRunning_append, pulledRunning, List.filterMap]
    · simp [started_append, started, List.filterMap]
    · intro hr
      cases hr
    · intro hno
      have h2 := poll_false sched t (hno _)
      rw [h2] at h
      have h3 := congrArg Thread.trace h
      simp at h3

theorem stoppedAfterPull_append (x : Str) (tr more : List RunEvent)
    (h : StoppedAfterPull x tr) : StoppedAfterPull x (tr ++ more) := by
  obtain ⟨pre, post, ev, h1, h2⟩ := h
  exact ⟨pre, post ++ more, ev, by rw [h1]; simp, h2⟩

theorem pullOf_pulledFile (g : Str) (q : State) :
    pullOf (RunEvent.pulledFile g q) = if q = State.Running ∧ g ≠ [] then some g else none := by
  cases q <;> cases g <;> simp [pullOf]

theorem pullOf_pulledFileSettings (g : FileSettings) (q : State) :
    pullOf (RunEvent.pulledFileSettings g q) =
      if q = State.Running ∧ g.filename ≠ [] then some g.filename else none := by
  cases q <;> cases hg : g.filename <;> simp [pullOf, hg]

theorem pending_poll (sched : Nat → Bool) (name : Str) (t : Thread)
    (h : Pending sched name t) : Pending sched name (poll sched t) := by
  obtain ⟨p, h1, h2, h3, h4, h5, h6⟩ := h
  obtain ⟨q1, q2, q3, q4⟩ := poll_pulledRunning sched t
  refine ⟨p, by rw [q1, q2]; exact h1, h2, fun hr => h3 (q3 hr), ?_, ?_, ?_⟩
  · intro hno
    rw [q4 hno]
    exact h4 hno
  · rcases poll_cases sched t with h | h
    · rw [h]
      exact h5
    · rw [h]
      intro hr
      cases hr
  · rcases poll_cases sched t with h | h
    · rw [h]
      exact h6
    · rw [h]
      intro _ x hx
      by_cases hr : t.mState = State.Running
      · obtain ⟨pre, ev, e1, e2⟩ := h5 hr x hx
        refine ⟨pre, [], ev, ?_, e2⟩
        show t.trace ++ [RunEvent.stop] = pre ++ [ev, RunEvent.stop]
        rw [e1]
        simp
      · exact stoppedAfterPull_append x t.trace [RunEvent.stop] (h6 hr x hx)

theorem pending_processItem (sched : Nat → Bool) (checkEv : RunEvent) (file : Str)
    (addons : World → World) (t : Thread) (hcheck : startOf checkEv = some file)
    (h : Pending sched file t) (hfile : file ≠ []) (hrun : t.mState = State.Running) :
    Pending sched [] (processItem sched checkEv file addons t) := by
  obtain ⟨p, h1, _, h3, _⟩ := h
  obtain ⟨ev, e1, _, _, e4, _, e6, _, e8, _⟩ :=
    processItem_facts sched checkEv file addons t hcheck
  have hp : p = [file] := by
    rw [h3 hrun, if_neg hfile]
  refine ⟨[], ?_, by simp, fun _ => rfl, ?_, ?_, ?_⟩
  · rw [e1, pulledRunning_append, started_append, e6, e8, h1, hp]
  · intro hno
    rw [processItem_never sched hno]
    exact hrun
  · intro _ x hx
    cases hx
  · intro _ x hx
    cases hx

theorem pending_pull (sched : Nat → Bool) (name : Str) (t u : Thread) (pullEv : RunEvent)
    (h : Pending sched [] t) (hu : u.trace = t.trace ++ [pullEv]) (hs : u.mState = t.mState)
    (hstart : startOf pullEv = none)
    (hpull : pullOf pullEv = if t.mState = State.Running ∧ name ≠ [] then some name else none) :
    Pending sched name u := by
  obtain ⟨p, h1, h2, h3, h4, h5, h6⟩ := h
  have hst : started [pullEv] = [] := by simp [started, List.filterMap, hstart]
  by_cases hr : t.mState = State.Running
  · have hp : p = [] := by simpa using h3 hr
    subst hp
    refine ⟨if name = [] then [] else [name], ?_, ?_, fun _ => rfl, ?_, ?_, ?_⟩
    · rw [hu, pulledRunning_append, started_append, hst, h1]
      by_cases hn : name = [] <;> simp [pulledRunning, List.filterMap, hpull, hr, hn]
    · by_cases hn : name = [] <;> simp [hn]
    · intro hno
      rw [hs]
      exact h4 hno
    · intro _ x hx
      by_cases hn : name = []
      · simp [hn] at hx
      · simp only [hn, if_false, List.mem_singleton] at hx
        subst hx
        refine ⟨t.trace, pullEv, hu, ?_⟩
        rw [hpull, if_pos ⟨hr, hn⟩]
    · intro hnr
      rw [hs] at hnr
      exact absurd hr hnr
  · refine ⟨p, ?_, h2, ?_, ?_, ?_, ?_⟩
    · rw [hu, pulledRunning_append, started_append, hst, h1]
      simp [pulledRunning, List.filterMap, hpull, hr]
    · intro hr2
      rw [hs] at hr2
      exact absurd hr2 hr
    · intro hno
      rw [hs]
      exact h4 hno
    · intro hr2
      rw [hs] at hr2
      exact absurd hr2 hr
    · intro _ x hx
      rw [hu]
      exact stoppedAfterPull_append x t.trace [pullEv] (h6 hr x hx)

theorem pending_stopped (sched : Nat → Bool) (name : Str) (t : Thread)
    (h : Pending sched [] t) (hr : t.mState ≠ State.Running) : Pending sched name t := by
  obtain ⟨p, h1, h2, _, h4, h5, h6⟩ := h
  exact ⟨p, h1, h2, fun h => absurd h hr, h4, h5, h6⟩

theorem pending_exit (sched : Nat → Bool) (name : Str) (t : Thread)
    (h : Pending sched name t) (hx : t.mState = State.Running → name = []) :
    Pending sched [] t := by
  obtain ⟨p, h1, h2, h3, h4, h5, h6⟩ := h
  refine ⟨p, h1, h2, ?_, h4, h5, h6⟩
  intro hr
  rw [h3 hr, if_pos (hx hr)]
  rfl

theorem fileLoop_pending (e : Env) (c : Config) (sched : Nat → Bool) (addonPath : Str) :
    ∀ (fuel : Nat) (file : Str) (t r : Thread), Pending sched file t →
      fileLoop e c sched addonPath fuel file t = some r → Pending sched [] r := by
  intro fuel
  induction fuel with
  | zero =>
    intro file t r _ h
    simp [fileLoop] at h
  | succ n ih =>
    intro file t r hp h
    rw [fileLoop] at h
    simp only at h
    have hp1 := pending_poll sched file t hp
    generalize poll sched t = t1 at h hp1
    by_cases htest : (!file.isEmpty && decide (t1.mState = State.Running)) = true
    · rw [if_pos htest] at h
      have hfile : file ≠ [] := by
        intro h0
        rw [h0] at htest
        simp at htest
      have hrun : t1.mState = State.Running := by
        simp only [Bool.and_eq_true, decide_eq_true_eq] at htest
        exact htest.2
      have hp2 := pending_processItem sched (RunEvent.check file) file
        (runAddons e c addonPath none file) t1 rfl hp1 hfile hrun
      generalize processItem sched (RunEvent.check file) file
        (runAddons e c addonPath none file) t1 = t2 at h hp2
      by_cases hr2 : t2.mState = State.Running
      · rw [if_pos hr2] at h
        have hp3 := pending_poll sched [] t2 hp2
        generalize poll sched t2 = t3 at h hp3
        refine ih _ _ r ?_ h
        exact pending_pull sched (getNextFile t3.files).1 t3 _
          (RunEvent.pulledFile (getNextFile t3.files).1 t3.mState) hp3 rfl rfl rfl
          (pullOf_pulledFile _ _)
      · rw [if_neg hr2] at h
        exact ih file t2 r (pending_stopped sched file t2 hp2 hr2) h
    · rw [if_neg htest] at h
      rw [← Option.some.inj h]
      refine pending_exit sched file t1 hp1 ?_
      intro hr
      cases hf : file with
      | nil => rfl
      | cons a as =>
        rw [hf, hr] at htest
        simp at htest

theorem settingsLoop_pending (e : Env) (c : Config) (sched : Nat → Bool) (addonPath : Str) :
    ∀ (fuel : Nat) (fs : FileSettings) (t r : Thread), Pending sched fs.filename t →
      settingsLoop e c sched addonPath fuel fs t = some r → Pending sched [] r := by
  intro fuel
  induction fuel with
  | zero =>
    intro fs t r _ h
    simp [settingsLoop] at h
  | succ n ih =>
    intro fs t r hp h
    rw [settingsLoop] at h
    simp only at h
    have hp1 := pending_poll sched fs.filename t hp
    generalize poll sched t = t1 at h hp1
    by_cases htest : (!fs.filename.isEmpty && decide (t1.mState = State.Running)) = true
    · rw [if_pos htest] at h
      have hfile : fs.filename ≠ [] := by
        intro h0
        rw [h0] at htest
        simp at htest
      have hrun : t1.mState = State.Running := by
        simp only [Bool.and_eq_true, decide_eq_true_eq] at htest
        exact htest.2
      have hp2 := pending_processItem sched (RunEvent.checkSettings fs) fs.filename
        (runAddons e c addonPath (some fs) fs.filename) t1 rfl hp1 hfile hrun
      generalize processItem sched (RunEvent.checkSettings fs) fs.filename
        (runAddons e c addonPath (some fs) fs.filename) t1 = t2 at h hp2
      by_cases hr2 : t2.mState = State.Running
      · rw [if_pos hr2] at h
        have hp3 := pending_poll sched [] t2 hp2
        generalize poll sched t2 = t3 at h hp3
        refine ih _ _ r ?_ h
        exact pending_pull sched (getNextFileSettings t3.fileSettings).1.filename t3 _
          (RunEvent.pulledFileSettings (getNextFileSettings t3.fileSettings).1 t3.mState)
          hp3 rfl rfl rfl (pullOf_pulledFileSettings _ _)
      · rw [if_neg hr2] at h
        exact ih fs t2 r (pending_stopped sched fs.filename t2 hp2 hr2) h
    · rw [if_neg htest] at h
      rw [← Option.some.inj h]
      refine pending_exit sched fs.filename t1 hp1 ?_
      intro hr
      cases hf : fs.filename with
      | nil => rfl
      | cons a as =>
        rw [hf, hr] at htest
        simp at htest

theorem finish_pulledRunning (sched : Nat → Bool) (t : Thread) :
    pulledRunning (finish sched t).trace = pulledRunning t.trace ∧
      started (finish sched t).trace = started t.trace := by
  unfold finish
  cases h0 : sched t.tick <;> cases h1 : sched (t.tick + 1) <;>
    cases h2 : sched (t.tick + 1 + 1) <;>
    simp [poll, stop, Thread.emit, h0, h1, h2, started, pulledRunning, List.filterMap]

theorem wholeProgram_pulledRunning (sched : Nat → Bool) (t : Thread) :
    pulledRunning (wholeProgram sched t).trace = pulledRunning t.trace ∧
      started (wholeProgram sched t).trace = started t.trace := by
  unfold wholeProgram
  by_cases hb : t.world.settings.buildDir.isEmpty = true
  · cases h0 : sched t.tick <;>
      simp [poll, stop, Thread.emit, hb, h0, started, pulledRunning, List.filterMap]
  · have p1 : pullOf (RunEvent.analyseWholeProgram t.world.settings.buildDir (mapKeys t.mFiles)) = none :=
      rfl
    have p2 : startOf (RunEvent.analyseWholeProgram t.world.settings.buildDir (mapKeys t.mFiles)) = none :=
      rfl
    cases h0 : sched t.tick <;> cases h1 : sched (t.tick + 1) <;>
      simp [poll, stop, Thread.emit, hb, h0, h1, started, pulledRunning, List.filterMap, p1, p2]

theorem start_pending (sched : Nat → Bool) (t : Thread) (ht : t.trace = []) :
    Pending sched [] (start sched t) := by
  refine ⟨[], ?_, by simp, fun _ => rfl, ?_, ?_, ?_⟩
  · unfold start
    cases h0 : sched t.tick <;> cases h1 : sched (t.tick + 1) <;>
      simp [poll, stop, Thread.emit, h0, h1, ht, started, pulledRunning, List.filterMap]
  · intro hno
    simp [start, poll, hno, Thread.emit]
  · intro _ x hx
    cases hx
  · intro _ x hx
    cases hx

theorem settingsPhase_pending (e : Env) (c : Config) (sched : Nat → Bool) (addonPath : Str)
    (fuel : Nat) (t r : Thread) (hp : Pending sched [] t)
    (h : settingsPhase e c sched addonPath fuel t = some r) : Leftover sched r.trace := by
  unfold settingsPhase at h
  simp only at h
  have hp1 := pending_poll sched [] t hp
  generalize poll sched t = t1 at h hp1
  cases hr2 : settingsLoop e c sched addonPath fuel (getNextFileSettings t1.fileSettings).1
      ({ t1 with fileSettings := (getNextFileSettings t1.fileSettings).2 }.emit
        (RunEvent.pulledFileSettings (getNextFileSettings t1.fileSettings).1 t1.mState)) with
  | none =>
    rw [hr2] at h
    cases h
  | some r2 =>
    rw [hr2] at h
    have hfin : finish sched r2 = r := Option.some.inj h
    have hp2 : Pending sched [] r2 := by
      refine settingsLoop_pending e c sched addonPath fuel _ _ r2 ?_ hr2
      exact pending_pull sched (getNextFileSettings t1.fileSettings).1.filename t1 _
        (RunEvent.pulledFileSettings (getNextFileSettings t1.fileSettings).1 t1.mState)
        hp1 rfl rfl rfl (pullOf_pulledFileSettings _ _)
    obtain ⟨d, h1, h2, h3, h4, _, h6⟩ := hp2
    obtain ⟨f1, f2⟩ := finish_pulledRunning sched r2
    obtain ⟨init, hlast⟩ := finish_last sched r2
    refine ⟨d, ?_, h2, ?_, ?_⟩
    · rw [← hfin, f1, f2]
      exact h1
    · intro hno
      simpa using h3 (h4 hno)
    · intro x hx
      have hnr : r2.mState ≠ State.Running := by
        intro hr
        have hd : d = [] := by simpa using h3 hr
        rw [hd] at hx
        cases hx
      rw [← hfin, hlast]
      exact stoppedAfterPull_append x r2.trace _ (h6 hnr x hx)

theorem incremental_pending (e : Env) (c : Config) (sched : Nat → Bool) (fuel : Nat)
    (t r : Thread) (hp : Pending sched [] t) (h : incremental e c sched fuel t = some r) :
    Leftover sched r.trace := by
  unfold incremental at h
  simp only at h
  have hp1 := pending_poll sched [] t hp
  generalize poll sched t = t1 at h hp1
  obtain ⟨r1, hr1, hphase⟩ := Option.bind_eq_some.mp h
  have hp2 : Pending sched [] r1 := by
    refine fileLoop_pending e c sched (getAddonPath e c) fuel _ _ r1 ?_ hr1
    exact pending_pull sched (getNextFile t1.files).1 t1 _
      (RunEvent.pulledFile (getNextFile t1.files).1 t1.mState)
      hp1 rfl rfl rfl (pullOf_pulledFile _ _)
  exact settingsPhase_pending e c sched (getAddonPath e c) fuel r1 r hp2 hphase

theorem run_leftover (e : Env) (c : Config) (sched : Nat → Bool) (fuel : Nat) (t r : Thread)
    (ht : t.trace = []) (h : run e c sched fuel t = some r) : Leftover sched r.trace := by
  unfold run at h
  simp only at h
  split at h
  · obtain ⟨w1, w2⟩ := wholeProgram_pulledRunning sched (start sched t)
    obtain ⟨p, h1, _, h3, h4, _, _⟩ := start_pending sched t ht
    rw [← Option.some.inj h]
    refine ⟨[], ?_, by simp, fun _ => rfl, ?_⟩
    · rw [w1, w2, List.append_nil]
      have hs : started (start sched t).trace = [] := by
        unfold start
        cases h0 : sched t.tick <;> cases h1 : sched (t.tick + 1) <;>
          simp [poll, stop, Thread.emit, h0, h1, ht, started, List.filterMap]
      have hq : pulledRunning (start sched t).trace = [] := by
        unfold start
        cases h0 : sched t.tick <;> cases h1 : sched (t.tick + 1) <;>
          simp [poll, stop, Thread.emit, h0, h1, ht, pulledRunning, List.filterMap]
      rw [hs, hq]
    · intro x hx
      cases hx
  · exact incremental_pending e c sched fuel (start sched t) r (start_pending sched t ht) h

/-! ## Claims on run and stop -/

/-- C6, as the code has it: one execution of `run` emits exactly one `fileChecked` signal for
each work item whose processing it started, with that item's file name and in the order of
processing.  The items pulled while the state was Running are exactly those items, in the same
order, followed by at most one more item: the one pulled last while Running is left without
processing and without signal when a call of `stop()` comes right after its pull, before the
loop tests the state; without any call of `stop()` no item is left.  The signal `done` is
emitted exactly once, as the last step, on every path (whole program, exhaustion,
cancellation at any point). -/
theorem run_signals (e : Env) (c : Config) (sched : Nat → Bool) (fuel : Nat) (t : Thread)
    (ht : t.trace = []) (hfuel : t.files.length + t.fileSettings.length + 2 ≤ fuel) :
    ∃ r, run e c sched fuel t = some r ∧
      signals r.trace = (started r.trace).map RunEvent.fileChecked ++ [RunEvent.done] ∧
      r.trace.getLast? = some RunEvent.done ∧
      r.trace.count RunEvent.done = 1 ∧
      (started r.trace).Sublist (pulledRunning r.trace) ∧
      ∃ d, pulledRunning r.trace = started r.trace ++ d ∧ d.length ≤ 1 ∧
        ((∀ k, sched k = false) → d = []) ∧ ∀ x ∈ d, StoppedAfterPull x r.trace := by
  obtain ⟨r, new, hr, hrt, h1, ⟨init, h2⟩, h3, _⟩ := run_outcome e c sched fuel t hfuel
  rw [ht, List.nil_append] at hrt
  rw [← hrt] at h1 h2 h3
  refine ⟨r, hr, h1, ?_, ?_, h3, run_leftover e c sched fuel t r ht hr⟩
  · rw [h2]
    simp
  · have hc : (signals r.trace).count RunEvent.done = r.trace.count RunEvent.done := by
      unfold signals
      exact List.count_filter rfl
    rw [← hc, h1, List.count_append]
    have h0 : ((started r.trace).map RunEvent.fileChecked).count RunEvent.done = 0 := by
      rw [List.count_eq_zero]
      simp
    rw [h0]
    simp

/-- Witness of C6 as amended: two plain files and a `stop()` during the first. -/
theorem run_signals_witness :
    ∃ r, run (exampleEnv [] []) (exampleConfig [CLANG]) (fun k => k == 5) 4
        (Thread.fresh ["a.c".toList, "b.c".toList] []
          (exampleWorld { buildDir := [], dump := false, dumpFile := [] })) = some r ∧
      signals r.trace = (started r.trace).map RunEvent.fileChecked ++ [RunEvent.done] ∧
      r.trace.getLast? = some RunEvent.done ∧
      r.trace.count RunEvent.done = 1 ∧
      (started r.trace).Sublist (pulledRunning r.trace) ∧
      ∃ d, pulledRunning r.trace = started r.trace ++ d ∧ d.length ≤ 1 ∧
        ((∀ k : Nat, (k == 5) = false) → d = []) ∧ ∀ x ∈ d, StoppedAfterPull x r.trace :=
  run_signals (exampleEnv [] []) (exampleConfig [CLANG]) (fun k => k == 5) 4
    (Thread.fresh ["a.c".toList, "b.c".toList] []
      (exampleWorld { buildDir := [], dump := false, dumpFile := [] })) rfl (by decide)

/-- C6 fails as stated: `a.c` is pulled while the state is Running, `stop()` arrives before
the loop tests the state, and the run ends without a `fileChecked` signal for `a.c`. -/
theorem run_drops_pulled_item :
    (run (exampleEnv [] []) (exampleConfig [CLANG]) (fun k => k == 3) 3
        (Thread.fresh ["a.c".toList] []
          (exampleWorld { buildDir := [], dump := false, dumpFile := [] }))).map
        (fun r => r.trace) =
      some [RunEvent.setState State.Running, RunEvent.pulledFile "a.c".toList State.Running,
        RunEvent.stop, RunEvent.pulledFileSettings FileSettings.empty State.Stopping,
        RunEvent.setState State.Stopped, RunEvent.done] := by
  rfl

/-- C7: `stop()` sets the state to Stopping at once.  For every `stop()` that arrives while an
item is being processed (after its check was called, before its `fileChecked` signal), what
follows is the `fileChecked` signal of that item and `done`, no further processing is started
(neither `check(file)` nor `check(fileSettings)`), and the only write of `mState` is Stopped,
followed by `done` alone apart from further calls of `stop()`.  A run during which `stop()` is
never called ends in state Ready, with the queue exhausted and every item processed when all
names are non-empty. -/
theorem run_stop_in_flight (e : Env) (c : Config) (sched : Nat → Bool) (fuel : Nat) (t : Thread)
    (ht : t.trace = []) (hfuel : t.files.length + t.fileSettings.length + 2 ≤ fuel) :
    (∀ u : Thread, (stop u).mState = State.Stopping) ∧
    ∃ r, run e c sched fuel t = some r ∧
      (∀ pre post f, r.trace = pre ++ RunEvent.stop :: post → inFlight pre = some f →
        StopOutcome f post) ∧
      ((∀ k, sched k = false) → t.mFiles = [] → t.mAnalyseWholeProgram = false →
        r.mState = State.Ready ∧
        ((∀ f ∈ t.files, f ≠ []) → (∀ g ∈ t.fileSettings, g.filename ≠ []) →
          r.files = [] ∧ r.fileSettings = [] ∧
          started r.trace = t.files ++ t.fileSettings.map (fun g => g.filename))) := by
  refine ⟨fun _ => rfl, ?_⟩
  obtain ⟨r, new, hr, hrt, _, _, _, h4⟩ := run_outcome e c sched fuel t hfuel
  rw [ht, List.nil_append] at hrt
  refine ⟨r, hr, ?_, ?_⟩
  · intro pre post f hsplit hfl
    have hmem := scan_mem_of_split none pre post f hfl
    rw [← hsplit, hrt] at hmem
    exact h4 (f, post) hmem
  · intro hno hm1 hm2
    obtain ⟨r2, hr2, hready, hrest⟩ := run_never e c sched hno fuel t ht ⟨hm1, hm2⟩ hfuel
    rw [hr] at hr2
    cases hr2
    exact ⟨hready, hrest⟩

/-- Witness of C7: two plain files and one file with build settings; `stop()` arrives between
the check of `a.c` and its addons. -/
theorem run_stop_in_flight_witness :
    (run (exampleEnv [] []) (exampleConfig [CLANG]) (fun k => k == 5) 5
        (Thread.fresh ["a.c".toList, "b.c".toList] [exampleFileSettings "Release"]
          (exampleWorld { buildDir := [], dump := false, dumpFile := [] }))).map
        (fun r => (r.trace, r.mState)) =
      some ([RunEvent.setState State.Running, RunEvent.pulledFile "a.c".toList State.Running,
        RunEvent.check "a.c".toList, RunEvent.stop, RunEvent.runAddons "a.c".toList,
        RunEvent.fileChecked "a.c".toList,
        RunEvent.pulledFileSettings (exampleFileSettings "Release") State.Stopping,
        RunEvent.setState State.Stopped, RunEvent.done], State.Stopped) ∧
    ∃ r, run (exampleEnv [] []) (exampleConfig [CLANG]) (fun k => k == 5) 5
        (Thread.fresh ["a.c".toList, "b.c".toList] [exampleFileSettings "Release"]
          (exampleWorld { buildDir := [], dump := false, dumpFile := [] })) = some r ∧
      (∀ pre post f, r.trace = pre ++ RunEvent.stop :: post → inFlight pre = some f →
        StopOutcome f post) :=
  ⟨rfl,
    Exists.elim
      (run_stop_in_flight (exampleEnv [] []) (exampleConfig [CLANG]) (fun k => k == 5) 5
        (Thread.fresh ["a.c".toList, "b.c".toList] [exampleFileSettings "Release"]
          (exampleWorld { buildDir := [], dump := false, dumpFile := [] })) rfl (by decide)).2
      (fun r h => ⟨r, h.1, h.2.1⟩)⟩

/-- C14, evaluated on a cancellation that the first loop sees: the queue holds the plain file
`a.c` and the file `a.cpp` with build settings, and `stop()` arrives while `a.c` is being
processed.  The test of line 88 finds the state Stopping and pulls nothing, the first loop is
left, and `getNextFileSettings` of line 92 takes `a.cpp` from the queue although the state is
Stopping; the second loop is not entered and the run ends.  `a.cpp` was taken and is neither
processed nor followed by a `fileChecked` signal. -/
theorem run_pulls_after_cancellation :
    (run (exampleEnv [] []) (exampleConfig [CLANG]) (fun k => k == 5) 4
        (Thread.fresh ["a.c".toList] [exampleFileSettings "Release"]
          (exampleWorld { buildDir := [], dump := false, dumpFile := [] }))).map
        (fun r => (r.trace, taken r.trace, started r.trace, signals r.trace, r.fileSettings)) =
      some ([RunEvent.setState State.Running, RunEvent.pulledFile "a.c".toList State.Running,
        RunEvent.check "a.c".toList, RunEvent.stop, RunEvent.runAddons "a.c".toList,
        RunEvent.fileChecked "a.c".toList,
        RunEvent.pulledFileSettings (exampleFileSettings "Release") State.Stopping,
        RunEvent.setState State.Stopped, RunEvent.done],
        ["a.c".toList, "a.cpp".toList], ["a.c".toList],
        [RunEvent.fileChecked "a.c".toList, RunEvent.done], []) := by
  rfl

/-! ## Lemmas on the processes started -/

theorem processes_append (a b : List Event) : processes (a ++ b) = processes a ++ processes b := by
  simp [processes]

theorem processes_writeFile (e : Env) (p s : Str) (w : World) :
    processes (writeFile e p s w).log = processes w.log := by
  unfold writeFile
  split
  · simp [processes_append, processes, processOf]
  · rfl

theorem processes_removeFile (e : Env) (p : Str) (w : World) :
    processes (removeFile e p w).log = processes w.log := by
  unfold removeFile
  split
  · simp [processes_append, processes, processOf]
  · rfl

theorem processes_callParseClangErrors (e : Env) (tool file0 err : Str) (w : World) :
    processes (callParseClangErrors e tool file0 err w).log = processes w.log := by
  simp only [callParseClangErrors, processes_append]
  have h : processes (Event.parseClangErrors tool file0 err ::
      (parseClangErrors e.sev0 tool file0 err).map Event.reportErr) = [] := by
    simp only [processes, List.filterMap_cons, processOf, List.filterMap_eq_nil_iff]
    intro a ha
    obtain ⟨m, _, rfl⟩ := List.mem_map.mp ha
    rfl
  rw [h, List.append_nil]

theorem processes_emit (w : World) (cmd : Str) (args : List Str) :
    processes (w.emit (Event.startProcess cmd args)).log = processes w.log ++ [(cmd, args)] := by
  simp [World.emit, processes_append, processes, processOf]

theorem processes_fullRun (e : Env) (c : Config) (addon fileName : Str) (args : List Str)
    (info : Str) (w : World) :
    processes (fullRun e c addon fileName args info w).log =
      processes w.log ++ [(toolCmd c addon, toolArgs addon args fileName)] := by
  unfold fullRun
  simp only
  rw [processes_callParseClangErrors]
  split <;> simp [processes_writeFile, processes_emit]

theorem processes_memoize (e : Env) (c : Config) (addon fileName : Str) (args : List Str)
    (info : Str) (w : World) :
    (∀ w1, memoize e c addon fileName args info w = Memo.replayed w1 →
      processes w1.log = processes w.log ++ [(probeCmd c, "-E".toList :: args ++ [fileName])]) ∧
    (∀ w1, memoize e c addon fileName args info w = Memo.fullRun w1 →
      processes w1.log = processes w.log ++ [(probeCmd c, "-E".toList :: args ++ [fileName])]) := by
  unfold memoize
  simp only
  split
  · refine ⟨?_, ?_⟩
    · intro w1 h
      cases h
      rw [processes_callParseClangErrors, processes_emit]
    · intro w1 h
      cases h
  · refine ⟨?_, ?_⟩
    · intro w1 h
      cases h
    · intro w1 h
      cases h
      rw [processes_removeFile, processes_writeFile, processes_emit]

/-- The processes that one pass of the loop for a compiler tool starts. -/
theorem processes_runClangAddon (e : Env) (c : Config) (addon : Str) (fs : FileSettings)
    (fileName : Str) (w : World) :
    processes (runClangAddon e c addon (some fs) fileName w).log =
      processes w.log ++
        (if (!fs.cfg.isEmpty && hasSubstr "Debug".toList fs.cfg) = true then []
         else if w.settings.buildDir = [] then
           [(toolCmd c addon, toolArgs addon (buildArgs e c fs fileName) fileName)]
         else if storedResults w.files (cacheFile (infoFile e w fs) addon "-E".toList)
             (cacheFile (infoFile e w fs) addon "-results".toList)
             (qChecksum (probeOutput e c fs fileName)) = none then
           [(probeCmd c, probeArgs e c fs fileName),
            (toolCmd c addon, toolArgs addon (buildArgs e c fs fileName) fileName)]
         else [(probeCmd c, probeArgs e c fs fileName)]) := by
  unfold runClangAddon
  simp only
  by_cases hskip : (!fs.cfg.isEmpty && hasSubstr "Debug".toList fs.cfg) = true
  · rw [if_pos hskip, if_pos hskip, List.append_nil]
  · rw [if_neg hskip, if_neg hskip]
    by_cases hdir : w.settings.buildDir = []
    · rw [if_pos hdir]
      have h0 : (!w.settings.buildDir.isEmpty) = false := by rw [hdir]; rfl
      rw [h0]
      simp only [Bool.false_eq_true, if_false]
      exact processes_fullRun e c addon fileName _ [] w
    · rw [if_neg hdir]
      have h0 : (!w.settings.buildDir.isEmpty) = true := by
        cases hb : w.settings.buildDir with
        | nil => exact absurd hb hdir
        | cons a as => rfl
      rw [h0]
      simp only [if_true]
      obtain ⟨hrep, hfull⟩ := processes_memoize e c addon fileName (buildArgs e c fs fileName)
        (e.getAnalyzerInfoFile w.settings.buildDir fs.filename fs.cfg) w
      cases hm : memoize e c addon fileName (buildArgs e c fs fileName)
        (e.getAnalyzerInfoFile w.settings.buildDir fs.filename fs.cfg) w with
      | replayed w1 =>
        simp only
        rw [hrep w1 hm]
        have hs : storedResults w.files (cacheFile (infoFile e w fs) addon "-E".toList)
            (cacheFile (infoFile e w fs) addon "-results".toList)
            (qChecksum (probeOutput e c fs fileName)) ≠ none := by
          intro hnone
          unfold memoize at hm
          simp only [World.emit] at hm
          unfold infoFile probeOutput probeArgs at hnone
          rw [hnone] at hm
          cases hm
        rw [if_neg hs]
        rfl
      | fullRun w1 =>
        simp only
        rw [processes_fullRun, hfull w1 hm]
        have hs : storedResults w.files (cacheFile (infoFile e w fs) addon "-E".toList)
            (cacheFile (infoFile e w fs) addon "-results".toList)
            (qChecksum (probeOutput e c fs fileName)) = none := by
          unfold memoize at hm
          simp only [World.emit] at hm
          unfold infoFile probeOutput probeArgs
          cases hst : storedResults w.files
              (cacheFile (e.getAnalyzerInfoFile w.settings.buildDir fs.filename fs.cfg) addon "-E".toList)
              (cacheFile (e.getAnalyzerInfoFile w.settings.buildDir fs.filename fs.cfg) addon
                "-results".toList)
              (qChecksum (e.runProcess (probeCmd c)
                ("-E".toList :: buildArgs e c fs fileName ++ [fileName])).1) with
          | none => rfl
          | some r =>
            rw [hst] at hm
            cases hm
        rw [if_pos hs]
        simp [probeArgs]

/-! ## Claim on the argument vectors -/

/-- C11: let `args` be the base argument list built from the build configuration of the item
and the file name.  The only processes that the pass of the loop of `runAddons` for the
analyze tool starts with an argument vector are the preprocessor probe, with `-E`, `args`,
file name, and the tool, with `--analyze`, `-Xanalyzer`, `-analyzer-output=text`, `args`,
file name; for the lint tool they are the same probe and the tool with
`-checks=*,-clang*,-llvm*`, file name, `--`, `args`.  Nothing is started for a debug variant;
without a build directory the tool alone is started; with one the probe comes first, and the
tool follows unless stored results are replayed. -/
theorem tool_argument_vectors (e : Env) (c : Config) (addonPath : Str) (fs : FileSettings)
    (fileName d : Str) (w : World) :
    processes (runAddon e c addonPath (some fs) fileName (d, w) CLANG).2.log =
      processes w.log ++
        (if (!fs.cfg.isEmpty && hasSubstr "Debug".toList fs.cfg) = true then []
         else if w.settings.buildDir = [] then
           [(toolCmd c CLANG,
             ["--analyze".toList, "-Xanalyzer".toList, "-analyzer-output=text".toList] ++
               buildArgs e c fs fileName ++ [fileName])]
         else if storedResults w.files (cacheFile (infoFile e w fs) CLANG "-E".toList)
             (cacheFile (infoFile e w fs) CLANG "-results".toList)
             (qChecksum (probeOutput e c fs fileName)) = none then
           [(probeCmd c, ["-E".toList] ++ buildArgs e c fs fileName ++ [fileName]),
            (toolCmd c CLANG,
             ["--analyze".toList, "-Xanalyzer".toList, "-analyzer-output=text".toList] ++
               buildArgs e c fs fileName ++ [fileName])]
         else [(probeCmd c, ["-E".toList] ++ buildArgs e c fs fileName ++ [fileName])]) ∧
    processes (runAddon e c addonPath (some fs) fileName (d, w) CLANGTIDY).2.log =
      processes w.log ++
        (if (!fs.cfg.isEmpty && hasSubstr "Debug".toList fs.cfg) = true then []
         else if w.settings.buildDir = [] then
           [(toolCmd c CLANGTIDY,
             ["-checks=*,-clang*,-llvm*".toList, fileName, "--".toList] ++
               buildArgs e c fs fileName)]
         else if storedResults w.files (cacheFile (infoFile e w fs) CLANGTIDY "-E".toList)
             (cacheFile (infoFile e w fs) CLANGTIDY "-results".toList)
             (qChecksum (probeOutput e c fs fileName)) = none then
           [(probeCmd c, ["-E".toList] ++ buildArgs e c fs fileName ++ [fileName]),
            (toolCmd c CLANGTIDY,
             ["-checks=*,-clang*,-llvm*".toList, fileName, "--".toList] ++
               buildArgs e c fs fileName)]
         else [(probeCmd c, ["-E".toList] ++ buildArgs e c fs fileName ++ [fileName])]) := by
  have ht : CLANGTIDY ≠ CLANG := by decide
  have h1 : runAddon e c addonPath (some fs) fileName (d, w) CLANG =
      (d, runClangAddon e c CLANG (some fs) fileName w) := by
    unfold runAddon
    rw [if_pos (Or.inl rfl)]
  have h2 : runAddon e c addonPath (some fs) fileName (d, w) CLANGTIDY =
      (d, runClangAddon e c CLANGTIDY (some fs) fileName w) := by
    unfold runAddon
    rw [if_pos (Or.inr rfl)]
  have a1 : toolArgs CLANG (buildArgs e c fs fileName) fileName =
      ["--analyze".toList, "-Xanalyzer".toList, "-analyzer-output=text".toList] ++
        buildArgs e c fs fileName ++ [fileName] := by
    unfold toolArgs
    rw [if_pos rfl]
  have a2 : toolArgs CLANGTIDY (buildArgs e c fs fileName) fileName =
      ["-checks=*,-clang*,-llvm*".toList, fileName, "--".toList] ++
        buildArgs e c fs fileName := by
    unfold toolArgs
    rw [if_neg ht]
  have a3 : probeArgs e c fs fileName =
      ["-E".toList] ++ buildArgs e c fs fileName ++ [fileName] := rfl
  rw [h1, h2]
  simp only
  rw [processes_runClangAddon, processes_runClangAddon, a1, a2, a3]
  exact ⟨rfl, rfl⟩

/-! ## Claim on the base argument list -/

theorem split_nil (sep : Char) : split sep [] = [[]] := rfl

/-- Without a toolchain path and without `Q_OS_WIN`, the base argument list is the include
flags, the system include pairs, one `-D` flag per part of the defines text split at `;`
(empty parts kept), and the language-standard flag if any. -/
theorem buildArgs_plain (e : Env) (c : Config) (fs : FileSettings) (fileName : Str)
    (hpath : c.mClangPath = []) (hwin : e.qOsWin = false) :
    buildArgs e c fs fileName =
      fs.includePaths.map (fun i => "-I".toList ++ i) ++
      fs.systemIncludePaths.flatMap (fun i => ["-isystem".toList, i]) ++
      (split ';' fs.defines).map (fun d => "-D".toList ++ d) ++
      (if fs.standard ≠ [] then ["-std=".toList ++ fs.standard]
       else if c.mVsIncludePaths ≠ [] ∧ ".cpp".toList.isSuffixOf fileName = true then
         ["-std=c++14".toList]
       else []) := by
  unfold buildArgs
  simp only [hpath, hwin, List.isEmpty_nil, Bool.not_true, Bool.false_eq_true, if_false]
  cases hs : fs.standard with
  | cons a as => simp
  | nil =>
    cases hv : c.mVsIncludePaths with
    | nil => simp
    | cons b bs =>
      cases hsuf : ".cpp".toList.isSuffixOf fileName <;> simp [hsuf]

/-- C12, evaluated on a build configuration with no defines: no toolchain path, no
`Q_OS_WIN`, include directory `inc`, system include directory `sys`, standard `c++11`, and an
empty defines text.  The base argument list holds a bare `-D`; in the vector of the analyze
tool it stands in front of `-std=c++11`. -/
theorem buildArgs_empty_defines :
    buildArgs (exampleEnv [] []) (exampleConfig [CLANG])
        { cfg := "Release".toList, filename := "a.cpp".toList, defines := [],
          includePaths := ["inc".toList], systemIncludePaths := ["sys".toList],
          standard := "c++11".toList } "a.cpp".toList =
      ["-Iinc".toList, "-isystem".toList, "sys".toList, "-D".toList, "-std=c++11".toList] ∧
    toolArgs CLANG
        (buildArgs (exampleEnv [] []) (exampleConfig [CLANG])
          { cfg := "Release".toList, filename := "a.cpp".toList, defines := [],
            includePaths := ["inc".toList], systemIncludePaths := ["sys".toList],
            standard := "c++11".toList } "a.cpp".toList) "a.cpp".toList =
      ["--analyze".toList, "-Xanalyzer".toList, "-analyzer-output=text".toList, "-Iinc".toList,
        "-isystem".toList, "sys".toList, "-D".toList, "-std=c++11".toList, "a.cpp".toList] := by
  exact ⟨rfl, rfl⟩

/-! ## Lemmas on the records of parseClangErrors -/

theorem parseClangErrors_eq_filterMap (sev0 : Severity) (tool file0 err : Str) :
    ∃ last : ErrorItem, parseClangErrors sev0 tool file0 err =
      (clangItems sev0 tool err).filterMap (fun e =>
        if e.errorPath.isEmpty then none
        else some
          { callStack := e.errorPath.map (fun p => { file := p.file, info := p.info, line := p.line }),
            file0 := file0, severity := last.severity, msg := last.message,
            id := last.errorId, inconclusive := false }) := by
  refine ⟨((readLines err).foldl (clangLine sev0 tool)
    { errorItems := [], errorItem := ErrorItem.fresh sev0 }).errorItem, ?_⟩
  unfold parseClangErrors clangItems
  simp only
  rw [foldl_report _ _ _ _ []]
  · rfl
  · intro acc x
    by_cases hx : x.errorPath.isEmpty = true <;> simp [hx]

theorem keptCount_clangLine (sev0 : Severity) (tool : Str) (st : ClangState) (line : Str) :
    (lineKind line = none → clangLine sev0 tool st line = st) ∧
    (∀ k, lineKind line = some k →
      (clangLine sev0 tool st line).errorItem.errorPath ≠ [] ∧
      keptCount (clangLine sev0 tool st line) =
        keptCount st + (if k ≠ "note".toList then 1
          else if st.errorItem.errorPath = [] then 1 else 0)) := by
  cases hm : matchClangR1 line with
  | none =>
    refine ⟨fun _ => by simp [clangLine, hm], ?_⟩
    intro k hk
    simp [lineKind, hm] at hk
  | some m =>
    obtain ⟨f, n, k0, t⟩ := m
    refine ⟨fun h => by simp [lineKind, hm] at h, ?_⟩
    intro k hk
    have hk0 : k0 = k := by simpa [lineKind, hm] using hk
    subst hk0
    rw [clangLine_eq sev0 tool st line f n k0 t hm]
    generalize "note".toList = kn
    by_cases hn : k0 = kn
    · by_cases hp : st.errorItem.errorPath = []
      · simp [keptCount, hn, hp]
      · simp [keptCount, hn, hp]
    · by_cases hp : st.errorItem.errorPath = []
      · simp [keptCount, hn, hp, ErrorItem.fresh, List.filter_append, hasPath]
      · have hp2 : st.errorItem.errorPath.isEmpty = false := by
          cases h : st.errorItem.errorPath with
          | nil => exact absurd h hp
          | cons a as => rfl
        simp [keptCount, hn, hp, ErrorItem.fresh, List.filter_append, hasPath, hp2]

theorem keptCount_foldl (sev0 : Severity) (tool : Str) (lines : List Str) :
    ∀ st : ClangState,
      keptCount (lines.foldl (clangLine sev0 tool) st) =
        keptCount st +
          ((lines.filterMap lineKind).filter (fun k => k ≠ "note".toList)).length +
          (if st.errorItem.errorPath = [] ∧
              (lines.filterMap lineKind).head? = some "note".toList then 1 else 0) := by
  induction lines with
  | nil => intro st; simp
  | cons l rest ih =>
    intro st
    obtain ⟨hnone, hsome⟩ := keptCount_clangLine sev0 tool st l
    rw [List.foldl_cons]
    cases hk : lineKind l with
    | none =>
      rw [hnone hk, ih st]
      simp [List.filterMap_cons, hk]
    | some k =>
      obtain ⟨hpath, hcount⟩ := hsome k hk
      rw [ih, hcount]
      simp only [List.filterMap_cons, hk, List.head?_cons, hpath, false_and, if_false]
      generalize "note".toList = kn
      by_cases hn : k = kn
      · by_cases hp : st.errorItem.errorPath = []
        · simp [hn, hp]
          omega
        · simp [hn, hp]
      · by_cases hp : st.errorItem.errorPath = []
        · simp [hn, hp, List.filter_cons]
          omega
        · simp [hn, hp, List.filter_cons]
          omega

theorem keptCount_clangItems (sev0 : Severity) (tool err : Str) :
    ((clangItems sev0 tool err).filter hasPath).length =
      (rootKinds err).length +
        (if (matchedKinds err).head? = some "note".toList then 1 else 0) := by
  have h := keptCount_foldl sev0 tool (readLines err)
    { errorItems := [], errorItem := ErrorItem.fresh sev0 }
  have h0 : keptCount { errorItems := [], errorItem := ErrorItem.fresh sev0 } = 0 := by
    simp [keptCount, ErrorItem.fresh]
  rw [h0] at h
  have hk : ∀ st : ClangState, ((st.errorItems ++ [st.errorItem]).filter hasPath).length =
      keptCount st := by
    intro st
    unfold keptCount
    rw [List.filter_append, List.length_append]
    by_cases hp : st.errorItem.errorPath = []
    · simp [hp, hasPath]
    · have hp2 : st.errorItem.errorPath.isEmpty = false := by
        cases h : st.errorItem.errorPath with
        | nil => exact absurd h hp
        | cons a as => rfl
      simp [hp, hasPath, hp2]
  unfold clangItems rootKinds matchedKinds
  simp only
  rw [hk, h]
  simp [ErrorItem.fresh]

theorem map_callStack_filterMap (file0 : Str) (last : ErrorItem) (items : List ErrorItem) :
    (items.filterMap (fun e =>
        if e.errorPath.isEmpty then none
        else some
          ({ callStack := e.errorPath.map (fun p => { file := p.file, info := p.info, line := p.line }),
             file0 := file0, severity := last.severity, msg := last.message,
             id := last.errorId, inconclusive := false } : ErrorMessage))).map
        (fun m => m.callStack) =
      (items.filter hasPath).map
        (fun e => e.errorPath.map
          (fun p => ({ file := p.file, info := p.info, line := p.line } : FileLocation))) := by
  induction items with
  | nil => rfl
  | cons x xs ih =>
    rw [List.filterMap_cons, List.filter_cons]
    cases hx : x.errorPath with
    | nil =>
      simp only [hasPath, hx, List.isEmpty_nil, if_true, Bool.not_true, Bool.false_eq_true,
        if_false]
      exact ih
    | cons a as =>
      simp only [hasPath, hx, List.isEmpty_cons, Bool.false_eq_true, if_false, Bool.not_false,
        if_true, List.map_cons]
      rw [ih]

/-- The records of `parseClangErrors` counted against the kinds of the matching lines. -/
theorem parseClangErrors_count (sev0 : Severity) (tool file0 err : Str) :
    (∀ m ∈ parseClangErrors sev0 tool file0 err, m.callStack ≠ []) ∧
    (parseClangErrors sev0 tool file0 err).map (fun m => m.callStack) =
      ((clangItems sev0 tool err).filter hasPath).map
        (fun e => e.errorPath.map
          (fun p => ({ file := p.file, info := p.info, line := p.line } : FileLocation))) ∧
    parseClangErrors sev0 tool file0 [] = [] ∧
    (matchedKinds err = [] → parseClangErrors sev0 tool file0 err = []) ∧
    ((matchedKinds err).head? ≠ some "note".toList →
      (parseClangErrors sev0 tool file0 err).length = (rootKinds err).length) ∧
    ((matchedKinds err).head? = some "note".toList →
      (parseClangErrors sev0 tool file0 err).length = (rootKinds err).length + 1) := by
  obtain ⟨last, heq⟩ := parseClangErrors_eq_filterMap sev0 tool file0 err
  have hmap := map_callStack_filterMap file0 last (clangItems sev0 tool err)
  rw [← heq] at hmap
  have hlen : (parseClangErrors sev0 tool file0 err).length =
      (rootKinds err).length +
        (if (matchedKinds err).head? = some "note".toList then 1 else 0) := by
    rw [← keptCount_clangItems sev0 tool err]
    have h := congrArg List.length hmap
    simpa using h
  refine ⟨?_, hmap, rfl, ?_, ?_, ?_⟩
  · intro m hm
    have hmem : m.callStack ∈ (parseClangErrors sev0 tool file0 err).map (fun m => m.callStack) :=
      List.mem_map_of_mem _ hm
    rw [hmap] at hmem
    obtain ⟨x, hx, hxm⟩ := List.mem_map.mp hmem
    have hp : hasPath x = true := (List.mem_filter.mp hx).2
    rw [← hxm]
    intro hnil
    have : x.errorPath = [] := List.map_eq_nil_iff.mp hnil
    rw [hasPath, this] at hp
    exact absurd hp (by decide)
  · intro hnone
    have : (parseClangErrors sev0 tool file0 err).length = 0 := by
      rw [hlen]
      simp [rootKinds, hnone]
    exact List.length_eq_zero.mp this
  · intro hhead
    rw [hlen, if_neg hhead, Nat.add_zero]
  · intro hhead
    rw [hlen, if_pos hhead]

/-! ## Claim on the records of parseClangErrors -/

/-- C13: let `ls` be the lines of the input and `ks` the kinds of those lines that read
`<file>:<line>:<col>: <kind>: <text>`, in order.  Every record that `parseClangErrors` reports
has at least one location step: the call stacks reported are those of the items of
`errorItems` that have a step, in order, and the items without a step are dropped.  An empty
input, and an input without a line that reads as a diagnostic, report nothing.  When the first
such line is not a note, the number of records is the number of such lines that are not
notes; when it is a note, there is one record more. -/
theorem parseClangErrors_records (sev0 : Severity) (tool file0 err : Str) (ls ks : List Str)
    (hlines : Lines err ls) (hkinds : KindsOf ls ks) :
    (∀ m ∈ parseClangErrors sev0 tool file0 err, m.callStack ≠ []) ∧
    (parseClangErrors sev0 tool file0 err).map (fun m => m.callStack) =
      ((clangItems sev0 tool err).filter hasPath).map
        (fun e => e.errorPath.map
          (fun p => ({ file := p.file, info := p.info, line := p.line } : FileLocation))) ∧
    parseClangErrors sev0 tool file0 [] = [] ∧
    (ks = [] → parseClangErrors sev0 tool file0 err = []) ∧
    (ks.head? ≠ some "note".toList →
      (parseClangErrors sev0 tool file0 err).length =
        (ks.filter (fun k => k ≠ "note".toList)).length) ∧
    (ks.head? = some "note".toList →
      (parseClangErrors sev0 tool file0 err).length =
        (ks.filter (fun k => k ≠ "note".toList)).length + 1) := by
  have hk : matchedKinds err = ks := by
    unfold matchedKinds
    rw [readLines_of_lines err ls hlines]
    exact kindsOf_eq ls ks hkinds
  have hr : rootKinds err = ks.filter (fun k => k ≠ "note".toList) := by
    unfold rootKinds
    rw [hk]
  have h := parseClangErrors_count sev0 tool file0 err
  rw [hk, hr] at h
  exact h

/-- Witness of C13: a note first, a line that is no diagnostic, then a warning with a note and
a fatal error; three records for two lines that are not notes. -/
theorem parseClangErrors_records_witness :
    (parseClangErrors Severity.none "clang".toList "main.c".toList
        "a.h:1:1: note: n\nIn file included from x\na.c:2:2: warning: w\r\na.c:3:3: note: m\nb.c:4:4: fatal error: f\n".toList).length =
      (["note".toList, "warning".toList, "note".toList, "fatal error".toList].filter
        (fun k => k ≠ "note".toList)).length + 1 :=
  (parseClangErrors_records Severity.none "clang".toList "main.c".toList
    "a.h:1:1: note: n\nIn file included from x\na.c:2:2: warning: w\r\na.c:3:3: note: m\nb.c:4:4: fatal error: f\n".toList
    ["a.h:1:1: note: n".toList, "In file included from x".toList, "a.c:2:2: warning: w".toList,
      "a.c:3:3: note: m".toList, "b.c:4:4: fatal error: f".toList]
    ["note".toList, "warning".toList, "note".toList, "fatal error".toList]
    ((lines_iff _ _).mpr rfl) (kindsOf_filterMap _)).2.2.2.2.2 rfl

end CheckThread
